import Mathlib

/-!
# mGBA block cache, dispatch engine, savestate serializer and rewind ring

A shallow embedding of `src/arm/arm-cache.c` and `src/gba/serialize.c`.

Conventions of the embedding:

* 32-bit machine words are natural numbers; where the C code wraps, the model
  reduces modulo `2 ^ 32` explicitly (`wrap32`).  Signed 32-bit values
  (`int32_t`) are integers; `toU32`/`toI32` convert to and from the stored
  bit pattern.
* A `struct ARMCacheBlock*` is an index into the arena `ARMCache.blocks`
  (allocation appends to the arena); `NULL` is `none`.
* Loops that C writes as `while (true)` take a fuel argument and return
  `none` when the fuel runs out.
* Code that the repository keeps in files other than the two above (opcode
  tables, the decoder, the memory shim, the subsystem serializers) is a field
  of the environment records `ISA` and `Subsystems`.
-/

namespace MGBA

/-! ## Constants and machine words -/

/-- Width of an ARM instruction in bytes (`WORD_SIZE_ARM`). -/
def WORD_SIZE_ARM : Nat := 4

/-- Width of a Thumb instruction in bytes (`WORD_SIZE_THUMB`). -/
def WORD_SIZE_THUMB : Nat := 2

/-- Index of the program counter in the register file (`ARM_PC`). -/
def ARM_PC : Fin 16 := 15

/-- Initial capacity of the handler and opcode arrays of a block under
construction (`BASE_LENGTH`). -/
def BASE_LENGTH : Nat := 8

/-- Reduction of a natural number to an unsigned 32-bit word. -/
def wrap32 (n : Nat) : Nat := n % 2 ^ 32

/-- Bit pattern of a signed 32-bit value. -/
def toU32 (i : Int) : Nat := (i % 2 ^ 32).toNat

/-- Signed reading of a 32-bit pattern. -/
def toI32 (n : Nat) : Int :=
  if n % 2 ^ 32 < 2 ^ 31 then ((n % 2 ^ 32 : Nat) : Int) else ((n % 2 ^ 32 : Nat) : Int) - 2 ^ 32

/-! ## Memory access shim -/

/-- A guest memory region seen through `cpu->memory.activeRegion`: the byte
stored at each offset (only the low 8 bits of the value are used). -/
abbrev Region := Nat → Nat

/-- Modelled from the spec: the `LOAD_32` macro of `util/common.h`, which is
absent.  It reads element `addr >> 2` of the region viewed as an array of
little-endian 32-bit words. -/
def LOAD_32 (arr : Region) (addr : Nat) : Nat :=
  let b := 4 * (addr >>> 2)
  arr b % 256 + 256 * (arr (b + 1) % 256) + 65536 * (arr (b + 2) % 256)
    + 16777216 * (arr (b + 3) % 256)

/-- Modelled from the spec: the `LOAD_16` macro of `util/common.h`, which is
absent.  It reads element `addr >> 1` of the region viewed as an array of
little-endian 16-bit halfwords. -/
def LOAD_16 (arr : Region) (addr : Nat) : Nat :=
  let b := 2 * (addr >>> 1)
  arr b % 256 + 256 * (arr (b + 1) % 256)

/-- The part of `struct ARMMemory` the cache and the serializer read. -/
structure ARMMemory where
  activeRegion : Region
  activeMask : Nat
  activeSeqCycles32 : Int

/-! ## Status word -/

/-- Negative flag of a packed status word (bit 31). -/
def psrN (packed : Nat) : Bool := packed.testBit 31

/-- Zero flag of a packed status word (bit 30). -/
def psrZ (packed : Nat) : Bool := packed.testBit 30

/-- Carry flag of a packed status word (bit 29). -/
def psrC (packed : Nat) : Bool := packed.testBit 29

/-- Overflow flag of a packed status word (bit 28). -/
def psrV (packed : Nat) : Bool := packed.testBit 28

/-- Thumb state bit of a packed status word (bit 5). -/
def psrT (packed : Nat) : Bool := packed.testBit 5

/-- Privilege mode field of a packed status word (bits 4..0). -/
def psrPriv (packed : Nat) : Nat := packed % 32

/-- Execution modes of the core (`enum ExecutionMode`). -/
inductive ExecutionMode where
  | MODE_ARM
  | MODE_THUMB
  deriving DecidableEq, Repr

/-! ## Block cache data model (`arm-cache.h`) -/

/-- An `ARMInstruction` function pointer as stored in a handler chain: an
entry of the opcode table `_armTable`, or the synthetic terminator. -/
inductive ARMInstruction where
  | table (index : Nat)
  | endBlockARM
  deriving DecidableEq, Repr

/-- A `ThumbInstruction` function pointer as stored in a handler chain: an
entry of the opcode table `_thumbTable`, or the synthetic terminator. -/
inductive ThumbInstruction where
  | table (index : Nat)
  | endBlockThumb
  deriving DecidableEq, Repr

/-- The handler chain and the opcode chain of an ARM block
(`struct ARMCacheBlockARM`).  Each list holds the entries that were written. -/
structure ARMCacheBlockARM where
  instruction : List ARMInstruction
  data : List Nat
  deriving DecidableEq, Repr

/-- The handler chain and the opcode chain of a Thumb block
(`struct ARMCacheBlockThumb`). -/
structure ARMCacheBlockThumb where
  instruction : List ThumbInstruction
  data : List Nat
  deriving DecidableEq, Repr

/-- The anonymous union of `struct ARMCacheBlock`, as a tagged variant. -/
inductive BlockChains where
  | arm (chains : ARMCacheBlockARM)
  | thumb (chains : ARMCacheBlockThumb)
  deriving DecidableEq, Repr

/-- A decoded block (`struct ARMCacheBlock`). -/
structure ARMCacheBlock where
  chains : BlockChains
  nextBlock : Option Nat
  branch : Option Nat
  branchAddress : Nat
  deriving DecidableEq, Repr

/-- Modelled from the spec: the hash table of `util/table.h`, which is absent:
a finite map from 32-bit keys to block pointers. -/
abbrev Table := Nat → Option Nat

/-- Modelled from the spec: `TableInit` of the absent `util/table.h`; the
empty map. -/
def TableInit : Table := fun _ => none

/-- Modelled from the spec: `TableLookup` of the absent `util/table.h`. -/
def TableLookup (table : Table) (key : Nat) : Option Nat := table key

/-- Modelled from the spec: `TableInsert` of the absent `util/table.h`. -/
def TableInsert (table : Table) (key value : Nat) : Table :=
  fun k => if k = key then some value else table k

/-- The cache state of a core (`struct ARMCache`).  `instruction` and `data`
are the two cursors of the anonymous union, as offsets into the chains of the
block `block` points to; `blocks` is the arena of allocated blocks. -/
structure ARMCache where
  block : Option Nat
  instruction : Nat
  data : Nat
  armCache : Table
  thumbCache : Table
  active : Bool
  blocks : List ARMCacheBlock

/-- One call of an opcode-table handler, as recorded in `ARMCore.invoked`. -/
inductive Invocation where
  | arm (index opcode : Nat)
  | thumb (index opcode : Nat)
  deriving DecidableEq, Repr

/-- The fields of `struct ARMCore` used by the cache and the serializer.
`invoked` is a ghost field: the opcode-table handlers called so far, oldest
first. -/
structure ARMCore where
  gprs : Fin 16 → Nat
  cpsr : Nat
  spsr : Nat
  cycles : Int
  nextEvent : Int
  bankedRegisters : Fin 6 → Fin 7 → Nat
  bankedSPSRs : Fin 6 → Nat
  prefetch : Nat × Nat
  executionMode : ExecutionMode
  privilegeMode : Nat
  memory : ARMMemory
  cache : ARMCache
  invoked : List Invocation

/-- Result of the instruction decoder (`struct ARMInstructionInfo`), reduced to
the two fields the block builder reads. -/
structure ARMInstructionInfo where
  branchType : Nat
  traps : Bool
  deriving DecidableEq, Repr

/-- The instruction set collaborators of the cache: the decoder
(`ARMDecodeARM`, `ARMDecodeThumb`), the behaviour of the opcode-table handlers
(`_armTable[i](cpu, opcode)`, `_thumbTable[i](cpu, opcode)`) and the event
hook `cpu->irqh.processEvents`. -/
structure ISA where
  decodeARM : Nat → ARMInstructionInfo
  decodeThumb : Nat → ARMInstructionInfo
  armExec : Nat → Nat → ARMCore → ARMCore
  thumbExec : Nat → Nat → ARMCore → ARMCore
  processEvents : ARMCore → ARMCore

/-! ## Condition evaluator -/

/-- Modelled from the spec: the macro `ARM_COND_EQ` of the absent
`isa-inlines.h` (EQ: Z). -/
def ARM_COND_EQ (cpu : ARMCore) : Bool := psrZ cpu.cpsr

/-- Modelled from the spec: the macro `ARM_COND_NE` (NE: !Z). -/
def ARM_COND_NE (cpu : ARMCore) : Bool := !psrZ cpu.cpsr

/-- Modelled from the spec: the macro `ARM_COND_CS` (CS: C). -/
def ARM_COND_CS (cpu : ARMCore) : Bool := psrC cpu.cpsr

/-- Modelled from the spec: the macro `ARM_COND_CC` (CC: !C). -/
def ARM_COND_CC (cpu : ARMCore) : Bool := !psrC cpu.cpsr

/-- Modelled from the spec: the macro `ARM_COND_MI` (MI: N). -/
def ARM_COND_MI (cpu : ARMCore) : Bool := psrN cpu.cpsr

/-- Modelled from the spec: the macro `ARM_COND_PL` (PL: !N). -/
def ARM_COND_PL (cpu : ARMCore) : Bool := !psrN cpu.cpsr

/-- Modelled from the spec: the macro `ARM_COND_VS` (VS: V). -/
def ARM_COND_VS (cpu : ARMCore) : Bool := psrV cpu.cpsr

/-- Modelled from the spec: the macro `ARM_COND_VC` (VC: !V). -/
def ARM_COND_VC (cpu : ARMCore) : Bool := !psrV cpu.cpsr

/-- Modelled from the spec: the macro `ARM_COND_HI` (HI: C && !Z). -/
def ARM_COND_HI (cpu : ARMCore) : Bool := psrC cpu.cpsr && !psrZ cpu.cpsr

/-- Modelled from the spec: the macro `ARM_COND_LS` (LS: !C || Z). -/
def ARM_COND_LS (cpu : ARMCore) : Bool := !psrC cpu.cpsr || psrZ cpu.cpsr

/-- Modelled from the spec: the macro `ARM_COND_GE` (GE: N == V). -/
def ARM_COND_GE (cpu : ARMCore) : Bool := psrN cpu.cpsr == psrV cpu.cpsr

/-- Modelled from the spec: the macro `ARM_COND_LT` (LT: N != V). -/
def ARM_COND_LT (cpu : ARMCore) : Bool := psrN cpu.cpsr != psrV cpu.cpsr

/-- Modelled from the spec: the macro `ARM_COND_GT` (GT: (N == V) && !Z). -/
def ARM_COND_GT (cpu : ARMCore) : Bool := (psrN cpu.cpsr == psrV cpu.cpsr) && !psrZ cpu.cpsr

/-- Modelled from the spec: the macro `ARM_COND_LE` (LE: (N != V) || Z). -/
def ARM_COND_LE (cpu : ARMCore) : Bool := (psrN cpu.cpsr != psrV cpu.cpsr) || psrZ cpu.cpsr

/-- Modelled from the spec: the macro `ARM_PREFETCH_CYCLES` of the absent
`isa-inlines.h`, the fixed prefetch cost `1 + cpu->memory.activeSeqCycles32`. -/
def ARM_PREFETCH_CYCLES (cpu : ARMCore) : Int := 1 + cpu.memory.activeSeqCycles32

/-- The `switch (condition)` of `_runARM`: the value of `conditionMet` after
the switch, for a condition field other than `0xE`. -/
def conditionMet (cpu : ARMCore) (condition : Nat) : Bool :=
  match condition with
  | 0x0 => ARM_COND_EQ cpu
  | 0x1 => ARM_COND_NE cpu
  | 0x2 => ARM_COND_CS cpu
  | 0x3 => ARM_COND_CC cpu
  | 0x4 => ARM_COND_MI cpu
  | 0x5 => ARM_COND_PL cpu
  | 0x6 => ARM_COND_VS cpu
  | 0x7 => ARM_COND_VC cpu
  | 0x8 => ARM_COND_HI cpu
  | 0x9 => ARM_COND_LS cpu
  | 0xA => ARM_COND_GE cpu
  | 0xB => ARM_COND_LT cpu
  | 0xC => ARM_COND_GT cpu
  | 0xD => ARM_COND_LE cpu
  | _ => false

/-! ## Block builder (`ARMCacheFindBlockARM`, `ARMCacheFindBlockThumb`) -/

/-- Local variables of the build loop of `ARMCacheFindBlockARM`.  `ichain` and
`dchain` hold the entries written so far: every write of the loop goes to
index `chainUsed`, which is the number of entries already written to that
array, so a write is an append. -/
structure BuildARM where
  ichain : List ARMInstruction
  dchain : List Nat
  chainUsed : Nat
  chainSize : Nat
  blockEnded : Nat
  deriving DecidableEq, Repr

/-- Local variables of the build loop of `ARMCacheFindBlockThumb`. -/
structure BuildThumb where
  ichain : List ThumbInstruction
  dchain : List Nat
  chainUsed : Nat
  chainSize : Nat
  blockEnded : Nat
  deriving DecidableEq, Repr

/-- Values of the locals of `ARMCacheFindBlockARM` on entry to its loop. -/
def BuildARM.init : BuildARM :=
  { ichain := [], dchain := [], chainUsed := 0, chainSize := BASE_LENGTH, blockEnded := 0 }

/-- Values of the locals of `ARMCacheFindBlockThumb` on entry to its loop. -/
def BuildThumb.init : BuildThumb :=
  { ichain := [], dchain := [], chainUsed := 0, chainSize := BASE_LENGTH, blockEnded := 0 }

/-- Index into `_armTable` selected by an ARM opcode. -/
def armTableIndex (opcode : Nat) : Nat :=
  ((opcode >>> 16) &&& 0xFF0) ||| ((opcode >>> 4) &&& 0x00F)

/-- The word the ARM builder fetches at position `i` of the block entered at
`addr`. -/
def fetchARM (memory : ARMMemory) (addr i : Nat) : Nat :=
  LOAD_32 memory.activeRegion ((addr + WORD_SIZE_ARM * i) &&& memory.activeMask)

/-- The halfword the Thumb builder fetches at position `i` of the block
entered at `addr`. -/
def fetchThumb (memory : ARMMemory) (addr i : Nat) : Nat :=
  LOAD_16 memory.activeRegion ((addr + WORD_SIZE_THUMB * i) &&& memory.activeMask)

/-- The `while (true)` loop of `ARMCacheFindBlockARM`; one unit of fuel per
iteration, `none` when the fuel runs out before the `break`. -/
def buildLoopARM (isa : ISA) (memory : ARMMemory) (addr : Nat) : Nat → BuildARM → Option BuildARM
  | 0, _ => none
  | fuel + 1, st =>
    let chainSize := if st.chainUsed = st.chainSize then st.chainSize * 2 else st.chainSize
    let opcode := fetchARM memory addr st.chainUsed
    let dchain := st.dchain ++ [opcode]
    if st.blockEnded = 0 then
      let ichain := st.ichain ++ [ARMInstruction.table (armTableIndex opcode)]
      let info := isa.decodeARM opcode
      let blockEnded := if info.branchType ≠ 0 ∨ info.traps = true then 1 else st.blockEnded
      buildLoopARM isa memory addr fuel
        { ichain := ichain, dchain := dchain, chainUsed := st.chainUsed + 1,
          chainSize := chainSize, blockEnded := blockEnded }
    else if st.blockEnded = 1 then
      let ichain := st.ichain ++ [ARMInstruction.endBlockARM]
      let condition := opcode >>> 28
      let blockEnded := if condition = 0xE then 2 else st.blockEnded
      buildLoopARM isa memory addr fuel
        { ichain := ichain, dchain := dchain, chainUsed := st.chainUsed + 1,
          chainSize := chainSize, blockEnded := blockEnded }
    else
      let blockEnded := st.blockEnded + 1
      if blockEnded = 4 then
        some { ichain := st.ichain, dchain := dchain, chainUsed := st.chainUsed,
               chainSize := chainSize, blockEnded := blockEnded }
      else
        buildLoopARM isa memory addr fuel
          { ichain := st.ichain, dchain := dchain, chainUsed := st.chainUsed + 1,
            chainSize := chainSize, blockEnded := blockEnded }

/-- The `while (true)` loop of `ARMCacheFindBlockThumb`; one unit of fuel per
iteration, `none` when the fuel runs out before the `break`. -/
def buildLoopThumb (isa : ISA) (memory : ARMMemory) (addr : Nat) :
    Nat → BuildThumb → Option BuildThumb
  | 0, _ => none
  | fuel + 1, st =>
    let chainSize := if st.chainUsed = st.chainSize then st.chainSize * 2 else st.chainSize
    let opcode := fetchThumb memory addr st.chainUsed
    let dchain := st.dchain ++ [opcode]
    if st.blockEnded = 0 then
      let ichain := st.ichain ++ [ThumbInstruction.table (opcode >>> 6)]
      let info := isa.decodeThumb opcode
      let blockEnded := if info.branchType ≠ 0 ∨ info.traps = true then 1 else st.blockEnded
      buildLoopThumb isa memory addr fuel
        { ichain := ichain, dchain := dchain, chainUsed := st.chainUsed + 1,
          chainSize := chainSize, blockEnded := blockEnded }
    else
      let ichain := st.ichain ++ [ThumbInstruction.endBlockThumb]
      let blockEnded := st.blockEnded + 1
      if blockEnded = 4 then
        some { ichain := ichain, dchain := dchain, chainUsed := st.chainUsed,
               chainSize := chainSize, blockEnded := blockEnded }
      else
        buildLoopThumb isa memory addr fuel
          { ichain := ichain, dchain := dchain, chainUsed := st.chainUsed + 1,
            chainSize := chainSize, blockEnded := blockEnded }

/-- The two assignments that end both `FindBlock` functions:
`cpu->cache.block = block; cpu->cache.arm = block->arm;`. -/
def setCursor (cpu : ARMCore) (block : Nat) : ARMCore :=
  { cpu with cache := { cpu.cache with block := some block, instruction := 0, data := 0 } }

/-- Translation of `ARMCacheFindBlockARM`. -/
def ARMCacheFindBlockARM (isa : ISA) (fuel : Nat) (cpu : ARMCore) (addr : Nat) : Option ARMCore :=
  match TableLookup cpu.cache.armCache (addr >>> 2) with
  | some block => some (setCursor cpu block)
  | none =>
    match buildLoopARM isa cpu.memory addr fuel BuildARM.init with
    | none => none
    | some st =>
      let block := cpu.cache.blocks.length
      let built : ARMCacheBlock :=
        { chains := BlockChains.arm { instruction := st.ichain, data := st.dchain },
          nextBlock := none, branch := none, branchAddress := 0xFFFFFFFF }
      let cache := { cpu.cache with
        blocks := cpu.cache.blocks ++ [built],
        armCache := TableInsert cpu.cache.armCache (addr >>> 2) block }
      some (setCursor { cpu with cache := cache } block)

/-- Translation of `ARMCacheFindBlockThumb`. -/
def ARMCacheFindBlockThumb (isa : ISA) (fuel : Nat) (cpu : ARMCore) (addr : Nat) :
    Option ARMCore :=
  match TableLookup cpu.cache.thumbCache (addr >>> 1) with
  | some block => some (setCursor cpu block)
  | none =>
    match buildLoopThumb isa cpu.memory addr fuel BuildThumb.init with
    | none => none
    | some st =>
      let block := cpu.cache.blocks.length
      let built : ARMCacheBlock :=
        { chains := BlockChains.thumb { instruction := st.ichain, data := st.dchain },
          nextBlock := none, branch := none, branchAddress := 0xFFFFFFFF }
      let cache := { cpu.cache with
        blocks := cpu.cache.blocks ++ [built],
        thumbCache := TableInsert cpu.cache.thumbCache (addr >>> 1) block }
      some (setCursor { cpu with cache := cache } block)

/-! ## Dispatch engine -/

/-- The block `cpu->cache.block` points to, if the pointer is not `NULL`. -/
def currentBlock (cpu : ARMCore) : Option ARMCacheBlock :=
  match cpu.cache.block with
  | none => none
  | some block => cpu.cache.blocks[block]?

/-- The handler read by `*cpu->cache.arm.instruction`; `none` when the cursor
is not on a written entry of an ARM block. -/
def currentARMInstruction (cpu : ARMCore) : Option ARMInstruction :=
  match currentBlock cpu with
  | some { chains := BlockChains.arm chains, .. } => chains.instruction[cpu.cache.instruction]?
  | _ => none

/-- The word read by `*cpu->cache.arm.data`. -/
def currentARMData (cpu : ARMCore) : Option Nat :=
  match currentBlock cpu with
  | some { chains := BlockChains.arm chains, .. } => chains.data[cpu.cache.data]?
  | _ => none

/-- The handler read by `*cpu->cache.thumb.instruction`. -/
def currentThumbInstruction (cpu : ARMCore) : Option ThumbInstruction :=
  match currentBlock cpu with
  | some { chains := BlockChains.thumb chains, .. } => chains.instruction[cpu.cache.instruction]?
  | _ => none

/-- The halfword read by `*cpu->cache.thumb.data`. -/
def currentThumbData (cpu : ARMCore) : Option Nat :=
  match currentBlock cpu with
  | some { chains := BlockChains.thumb chains, .. } => chains.data[cpu.cache.data]?
  | _ => none

/-- The increment `++cpu->cache.arm.instruction` (the same storage as
`++cpu->cache.thumb.instruction`). -/
def advanceInstruction (cpu : ARMCore) : ARMCore :=
  { cpu with cache := { cpu.cache with instruction := cpu.cache.instruction + 1 } }

/-- The increment `cpu->cache.arm.data += n`. -/
def advanceData (cpu : ARMCore) (n : Nat) : ARMCore :=
  { cpu with cache := { cpu.cache with data := cpu.cache.data + n } }

/-- The call `instruction(cpu, opcode)` of `_runARM`: an opcode-table handler
runs (and is recorded), the terminator is `endBlock`. -/
def callARM (isa : ISA) (endBlock : ARMCore → Nat → Option ARMCore)
    (instruction : ARMInstruction) (cpu : ARMCore) (opcode : Nat) : Option ARMCore :=
  match instruction with
  | ARMInstruction.table index =>
    some { isa.armExec index opcode cpu with
      invoked := cpu.invoked ++ [Invocation.arm index opcode] }
  | ARMInstruction.endBlockARM => endBlock cpu opcode

/-- The call `instruction(cpu, opcode)` of `_runThumb`. -/
def callThumb (isa : ISA) (endBlock : ARMCore → Nat → Option ARMCore)
    (instruction : ThumbInstruction) (cpu : ARMCore) (opcode : Nat) : Option ARMCore :=
  match instruction with
  | ThumbInstruction.table index =>
    some { isa.thumbExec index opcode cpu with
      invoked := cpu.invoked ++ [Invocation.thumb index opcode] }
  | ThumbInstruction.endBlockThumb => endBlock cpu opcode

/-- Translation of `_runARM`; `endBlock` is what the function pointer
`_endBlockARM` runs. -/
def _runARM (isa : ISA) (endBlock : ARMCore → Nat → Option ARMCore)
    (cpu : ARMCore) (opcode : Nat) : Option ARMCore :=
  let condition := opcode >>> 28
  if condition ≠ 0xE ∧ conditionMet cpu condition = false then
    some (advanceInstruction { cpu with cycles := cpu.cycles + ARM_PREFETCH_CYCLES cpu })
  else
    match currentARMInstruction cpu with
    | none => none
    | some instruction => callARM isa endBlock instruction (advanceInstruction cpu) opcode

/-- Translation of `_runThumb`. -/
def _runThumb (isa : ISA) (endBlock : ARMCore → Nat → Option ARMCore)
    (cpu : ARMCore) (opcode : Nat) : Option ARMCore :=
  match currentThumbInstruction cpu with
  | none => none
  | some instruction => callThumb isa endBlock instruction (advanceInstruction cpu) opcode

/-- The store `block->nextBlock = next`. -/
def setNextBlock (cpu : ARMCore) (block : Nat) (next : Option Nat) : ARMCore :=
  match cpu.cache.blocks[block]? with
  | none => cpu
  | some b =>
    { cpu with cache := { cpu.cache with
        blocks := cpu.cache.blocks.set block { b with nextBlock := next } } }

/-- The `if`/`else` at the head of `_endBlockARM`: resolve the successor of
the current block, by `ARMCacheFindBlockARM` when `nextBlock` is unset and by
the pointer hop otherwise. -/
def successorARM (isa : ISA) (fuel : Nat) (cpu : ARMCore) : Option ARMCore :=
  match cpu.cache.block with
  | none => none
  | some block =>
    match cpu.cache.blocks[block]? with
    | none => none
    | some b =>
      match b.nextBlock with
      | none =>
        match ARMCacheFindBlockARM isa fuel cpu
            (wrap32 (cpu.gprs ARM_PC + 2 ^ 32 - WORD_SIZE_ARM * 2)) with
        | none => none
        | some cpu1 => some (setNextBlock cpu1 block cpu1.cache.block)
      | some next => some (setCursor cpu next)

/-- The `if`/`else` at the head of `_endBlockThumb`. -/
def successorThumb (isa : ISA) (fuel : Nat) (cpu : ARMCore) : Option ARMCore :=
  match cpu.cache.block with
  | none => none
  | some block =>
    match cpu.cache.blocks[block]? with
    | none => none
    | some b =>
      match b.nextBlock with
      | none =>
        match ARMCacheFindBlockThumb isa fuel cpu
            (wrap32 (cpu.gprs ARM_PC + 2 ^ 32 - WORD_SIZE_THUMB * 2)) with
        | none => none
        | some cpu1 => some (setNextBlock cpu1 block cpu1.cache.block)
      | some next => some (setCursor cpu next)

/-- Translation of `_endBlockARM`.  The fuel bounds the build loop of the
lookup it makes and the nesting of terminator calls. -/
def _endBlockARM (isa : ISA) : Nat → ARMCore → Nat → Option ARMCore
  | 0, _, _ => none
  | fuel + 1, cpu, opcode =>
    match successorARM isa (fuel + 1) cpu with
    | none => none
    | some cpu1 => _runARM isa (_endBlockARM isa fuel) (advanceData cpu1 3) opcode

/-- Translation of `_endBlockThumb`. -/
def _endBlockThumb (isa : ISA) : Nat → ARMCore → Nat → Option ARMCore
  | 0, _, _ => none
  | fuel + 1, cpu, opcode =>
    match successorThumb isa (fuel + 1) cpu with
    | none => none
    | some cpu1 => _runThumb isa (_endBlockThumb isa fuel) (advanceData cpu1 3) opcode

/-- The assignment `cpu->gprs[ARM_PC] += width`. -/
def advancePC (cpu : ARMCore) (width : Nat) : ARMCore :=
  { cpu with gprs := Function.update cpu.gprs ARM_PC (wrap32 (cpu.gprs ARM_PC + width)) }

/-- Translation of `ARMCacheStepARM`. -/
def ARMCacheStepARM (isa : ISA) (fuel : Nat) (cpu : ARMCore) : Option ARMCore :=
  let opcode := cpu.prefetch.1
  let cpu := advancePC cpu WORD_SIZE_ARM
  match currentARMData cpu with
  | none => none
  | some word =>
    let cpu := advanceData { cpu with prefetch := (cpu.prefetch.2, word) } 1
    _runARM isa (_endBlockARM isa fuel) cpu opcode

/-- Translation of `ARMCacheStepThumb`. -/
def ARMCacheStepThumb (isa : ISA) (fuel : Nat) (cpu : ARMCore) : Option ARMCore :=
  let opcode := cpu.prefetch.1
  let cpu := advancePC cpu WORD_SIZE_THUMB
  match currentThumbData cpu with
  | none => none
  | some word =>
    let cpu := advanceData { cpu with prefetch := (cpu.prefetch.2, word) } 1
    _runThumb isa (_endBlockThumb isa fuel) cpu opcode

/-- The loop `while (cpu->cycles < cpu->nextEvent) step(cpu)` of
`ARMCacheRunLoop`, at most `steps` iterations. -/
def cacheLoop (step : ARMCore → Option ARMCore) : Nat → ARMCore → Option ARMCore
  | 0, cpu => if cpu.cycles < cpu.nextEvent then none else some cpu
  | steps + 1, cpu =>
    if cpu.cycles < cpu.nextEvent then
      match step cpu with
      | none => none
      | some cpu1 => cacheLoop step steps cpu1
    else some cpu

/-- Translation of `ARMCacheRunLoop`; `ARMRunLoop` is the plain interpreter
loop the function delegates to when the cache is inactive. -/
def ARMCacheRunLoop (isa : ISA) (ARMRunLoop : ARMCore → Option ARMCore)
    (fuel steps : Nat) (cpu : ARMCore) : Option ARMCore :=
  if cpu.cache.active = true then
    let done :=
      if cpu.executionMode = ExecutionMode.MODE_THUMB then
        cacheLoop (ARMCacheStepThumb isa fuel) steps cpu
      else
        cacheLoop (ARMCacheStepARM isa fuel) steps cpu
    match done with
    | none => none
    | some cpu1 => some (isa.processEvents cpu1)
  else
    ARMRunLoop cpu

/-! ## Machine state and snapshot (`serialize.c`) -/

/-- An opaque block of bytes: the state of a delegated subsystem, or the
fixed-size sub-block of a snapshot that subsystem reads and writes. -/
abbrev Blob := List Nat

/-- The identity fields at the head of a cartridge image
(`struct GBACartridge`). -/
structure GBACartridge where
  id : Nat
  title : List Nat
  deriving DecidableEq, Repr

/-- The fields of `struct GBAMemory` the serializer touches.  `rom` is `none`
when no cartridge is loaded; `ram` is the working memory handed to
`GBAMemorySerialize`/`GBAMemoryDeserialize`. -/
structure GBAMemory where
  rom : Option GBACartridge
  romSize : Nat
  biosPrefetch : Nat
  ram : Blob
  savedata : Blob
  deriving DecidableEq, Repr

/-- The fields of `struct GBA` the serializer touches.  `rr` is the movie
recording context, `none` when `gba->rr` is `NULL`. -/
structure GBA where
  cpu : ARMCore
  memory : GBAMemory
  ioRegs : Blob
  video : Blob
  audio : Blob
  biosChecksum : Nat
  romCrc32 : Nat
  rr : Option Blob

/-- The register block of a snapshot (`state->cpu`); every field is the
stored 32-bit pattern. -/
structure SerializedCPU where
  gprs : Fin 16 → Nat
  cpsr : Nat
  spsr : Nat
  cycles : Nat
  nextEvent : Nat
  bankedRegisters : Fin 6 → Fin 7 → Nat
  bankedSPSRs : Fin 6 → Nat

/-- The video sub-block of a snapshot (`state->video`): the one field the
validation pass reads, and the rest. -/
structure SerializedVideo where
  eventDiff : Nat
  rest : Blob
  deriving DecidableEq, Repr

/-- A machine state snapshot (`struct GBASerializedState`). -/
structure GBASerializedState where
  versionMagic : Nat
  biosChecksum : Nat
  romCrc32 : Nat
  id : Nat
  title : List Nat
  cpu : SerializedCPU
  biosPrefetch : Nat
  cpuPrefetch : Nat × Nat
  memory : Blob
  ioRegs : Blob
  video : SerializedVideo
  audio : Blob
  savedata : Blob
  associatedStreamId : Nat

/-- The delegated collaborators of the serializer, none of which is in
`serialize.c`: the subsystem serializers, each writing or reading its own
sub-block, the recording hooks, the region switch
`cpu->memory.setActiveRegion` and the renderer's pixel accessors. -/
structure Subsystems where
  GBAMemorySerialize : GBAMemory → Blob
  GBAIOSerialize : GBA → Blob
  GBAVideoSerialize : Blob → SerializedVideo
  GBAAudioSerialize : Blob → Blob
  GBASavedataSerialize : Blob → Blob
  stateSaved : Blob → Nat
  GBAMemoryDeserialize : Blob → Blob → Blob
  GBAIODeserialize : Blob → Blob → Blob
  GBAVideoDeserialize : Blob → SerializedVideo → Blob
  GBAAudioDeserialize : Blob → Blob → Blob
  GBASavedataDeserialize : Blob → Blob → Blob
  setActiveRegion : GBA → Nat → ARMMemory
  getPixels : Blob → Option Blob
  putPixels : Blob → Blob → Blob

/-- The constant `GBA_SAVESTATE_MAGIC`. -/
def GBA_SAVESTATE_MAGIC : Nat := 0x01000000

/-- Modelled from the spec: the constant `SIZE_BIOS` of the absent
`gba/memory.h`, the size of the BIOS address range (16 KiB). -/
def SIZE_BIOS : Nat := 0x00004000

/-- Modelled from the spec: the constant `SIZE_CART0` of the absent
`gba/memory.h`, the size of the cartridge window (32 MiB). -/
def SIZE_CART0 : Nat := 0x02000000

/-- Modelled from the spec: the constant `BASE_OFFSET` of the absent
`gba/memory.h`; the region number of an address is `address >> 24`. -/
def BASE_OFFSET : Nat := 24

/-- Modelled from the spec: the constant `REGION_CART0` of the absent
`gba/memory.h`. -/
def REGION_CART0 : Int := 0x8

/-- Modelled from the spec: the constant `REGION_CART1` of the absent
`gba/memory.h`. -/
def REGION_CART1 : Int := 0xA

/-- Modelled from the spec: the constant `REGION_CART2` of the absent
`gba/memory.h`. -/
def REGION_CART2 : Int := 0xC

/-- Modelled from the spec: the constant `GBA_ARM7TDMI_FREQUENCY` of the
absent `gba/gba.h`, the maximum cycles-per-second constant (2 ^ 24). -/
def GBA_ARM7TDMI_FREQUENCY : Int := 0x1000000

/-- Size in bytes of `state->title`. -/
def TITLE_SIZE : Nat := 12

/-- The value a `STORE_32` of an unsigned word leaves in the snapshot and a
`LOAD_32` reads back. -/
def STORE_32 (src : Nat) : Nat := wrap32 src

/-- Subtraction in `size_t` (64 bits). -/
def sizeSub (a b : Nat) : Nat := (a + 2 ^ 64 - b % 2 ^ 64) % 2 ^ 64

/-- Translation of `GBASerialize`. -/
def GBASerialize (sub : Subsystems) (gba : GBA) : GBASerializedState :=
  { versionMagic := STORE_32 GBA_SAVESTATE_MAGIC,
    biosChecksum := STORE_32 gba.biosChecksum,
    romCrc32 := STORE_32 gba.romCrc32,
    id := match gba.memory.rom with
      | some cart => cart.id
      | none => 0,
    title := match gba.memory.rom with
      | some cart => cart.title
      | none => List.replicate TITLE_SIZE 0,
    cpu :=
      { gprs := fun i => STORE_32 (gba.cpu.gprs i),
        cpsr := STORE_32 gba.cpu.cpsr,
        spsr := STORE_32 gba.cpu.spsr,
        cycles := toU32 gba.cpu.cycles,
        nextEvent := toU32 gba.cpu.nextEvent,
        bankedRegisters := fun i j => STORE_32 (gba.cpu.bankedRegisters i j),
        bankedSPSRs := fun i => STORE_32 (gba.cpu.bankedSPSRs i) },
    biosPrefetch := gba.memory.biosPrefetch,
    cpuPrefetch := (STORE_32 gba.cpu.prefetch.1, STORE_32 gba.cpu.prefetch.2),
    memory := sub.GBAMemorySerialize gba.memory,
    ioRegs := sub.GBAIOSerialize gba,
    video := sub.GBAVideoSerialize gba.video,
    audio := sub.GBAAudioSerialize gba.audio,
    savedata := sub.GBASavedataSerialize gba.memory.savedata,
    associatedStreamId := match gba.rr with
      | some rr => sub.stateSaved rr
      | none => 0 }

/-- The validation pass of `GBADeserialize`: the value of `error` when the
function reaches `if (error)`. -/
def deserializeError (gba : GBA) (state : GBASerializedState) : Bool :=
  let error := false
  let error := if state.versionMagic ≠ GBA_SAVESTATE_MAGIC then true else error
  let error :=
    if state.biosChecksum ≠ gba.biosChecksum then
      let pc := state.cpu.gprs ARM_PC
      if pc < SIZE_BIOS ∧ pc ≥ 0x20 then true else error
    else error
  let error :=
    match gba.memory.rom with
    | some cart => if state.id ≠ cart.id ∨ state.title ≠ cart.title then true else error
    | none => if state.id ≠ 0 then true else error
  let check := toI32 state.cpu.cycles
  let error := if check < 0 then true else error
  let error := if check ≥ GBA_ARM7TDMI_FREQUENCY then true else error
  let check := toI32 state.video.eventDiff
  let error := if check < 0 then true else error
  let check := toI32 (state.cpu.gprs ARM_PC)
  let region := check >>> BASE_OFFSET
  let error :=
    if (region = REGION_CART0 ∨ region = REGION_CART1 ∨ region = REGION_CART2)
        ∧ (toU32 (check - WORD_SIZE_ARM) &&& SIZE_CART0) ≥ sizeSub gba.memory.romSize WORD_SIZE_ARM
    then true else error
  error

/-- The prefetch queue `GBADeserialize` leaves in the core: the stored words
when both are non-zero, otherwise a re-fetch from the active region. -/
def restorePrefetch (cpu : ARMCore) (state : GBASerializedState) : Nat × Nat :=
  if psrT cpu.cpsr = true then
    if state.cpuPrefetch.1 ≠ 0 ∧ state.cpuPrefetch.2 ≠ 0 then
      (state.cpuPrefetch.1 &&& 0xFFFF, state.cpuPrefetch.2 &&& 0xFFFF)
    else
      (LOAD_16 cpu.memory.activeRegion
          (wrap32 (cpu.gprs ARM_PC + 2 ^ 32 - WORD_SIZE_THUMB) &&& cpu.memory.activeMask),
        LOAD_16 cpu.memory.activeRegion (cpu.gprs ARM_PC &&& cpu.memory.activeMask))
  else
    if state.cpuPrefetch.1 ≠ 0 ∧ state.cpuPrefetch.2 ≠ 0 then
      (state.cpuPrefetch.1, state.cpuPrefetch.2)
    else
      (LOAD_32 cpu.memory.activeRegion
          (wrap32 (cpu.gprs ARM_PC + 2 ^ 32 - WORD_SIZE_ARM) &&& cpu.memory.activeMask),
        LOAD_32 cpu.memory.activeRegion (cpu.gprs ARM_PC &&& cpu.memory.activeMask))

/-- The commit phase of `GBADeserialize`: everything after `if (error)`. -/
def deserializeCommit (sub : Subsystems) (gba : GBA) (state : GBASerializedState) : GBA :=
  let cpu : ARMCore :=
    { gba.cpu with
      gprs := fun i => state.cpu.gprs i,
      cpsr := state.cpu.cpsr,
      spsr := state.cpu.spsr,
      cycles := toI32 state.cpu.cycles,
      nextEvent := toI32 state.cpu.nextEvent,
      bankedRegisters := fun i j => state.cpu.bankedRegisters i j,
      bankedSPSRs := fun i => state.cpu.bankedSPSRs i }
  let cpu := { cpu with privilegeMode := psrPriv cpu.cpsr }
  let cpu := { cpu with memory := sub.setActiveRegion { gba with cpu := cpu } (cpu.gprs ARM_PC) }
  let memory :=
    if state.biosPrefetch ≠ 0 then { gba.memory with biosPrefetch := state.biosPrefetch }
    else gba.memory
  let cpu :=
    { cpu with
      executionMode :=
        if psrT cpu.cpsr = true then ExecutionMode.MODE_THUMB else ExecutionMode.MODE_ARM,
      prefetch := restorePrefetch cpu state }
  { gba with
    cpu := cpu,
    memory := { memory with
      ram := sub.GBAMemoryDeserialize memory.ram state.memory,
      savedata := sub.GBASavedataDeserialize memory.savedata state.savedata },
    ioRegs := sub.GBAIODeserialize gba.ioRegs state.ioRegs,
    video := sub.GBAVideoDeserialize gba.video state.video,
    audio := sub.GBAAudioDeserialize gba.audio state.audio }

/-- Translation of `GBADeserialize`: the returned flag and the machine after
the call. -/
def GBADeserialize (sub : Subsystems) (gba : GBA) (state : GBASerializedState) : Bool × GBA :=
  if deserializeError gba state = true then (false, gba)
  else (true, deserializeCommit sub gba state)

/-! ## Rewind ring buffer -/

/-- The rewind fields of `struct GBAThread`.  `rewindBuffer` is `none` for a
`NULL` array and a slot is `none` for a `NULL` snapshot pointer. -/
structure GBAThread where
  gba : GBA
  rewindBuffer : Option (List (Option GBASerializedState))
  rewindScreenBuffer : Option (List Blob)
  rewindBufferCapacity : Int
  rewindBufferSize : Int
  rewindBufferWriteOffset : Int
  rewindBufferInterval : Int
  rewindBufferNext : Int

/-- Translation of `GBARecordFrame`; `none` when the call reads outside the
slot array or divides by a zero capacity. -/
def GBARecordFrame (sub : Subsystems) (thread : GBAThread) : Option GBAThread :=
  let offset := thread.rewindBufferWriteOffset
  match thread.rewindBuffer with
  | none => none
  | some buffer =>
    if 0 ≤ offset ∧ offset.toNat < buffer.length then
      let state := GBASerialize sub thread.gba
      let buffer := buffer.set offset.toNat (some state)
      let screens :=
        match thread.rewindScreenBuffer with
        | none => none
        | some frames =>
          match sub.getPixels thread.gba.video with
          | none => some frames
          | some pixels => some (frames.set offset.toNat pixels)
      if thread.rewindBufferCapacity = 0 then none
      else
        some { thread with
          rewindBuffer := some buffer,
          rewindScreenBuffer := screens,
          rewindBufferSize :=
            if thread.rewindBufferSize = thread.rewindBufferCapacity
            then thread.rewindBufferCapacity else thread.rewindBufferSize + 1,
          rewindBufferWriteOffset := Int.tmod (offset + 1) thread.rewindBufferCapacity }
    else none

/-- Translation of `GBARewindSettingsChanged`. -/
def GBARewindSettingsChanged (thread : GBAThread) (newCapacity newInterval : Int) : GBAThread :=
  if newCapacity = thread.rewindBufferCapacity ∧ newInterval = thread.rewindBufferInterval then
    thread
  else
    { thread with
      rewindBufferInterval := newInterval,
      rewindBufferNext := newInterval,
      rewindBufferSize := 0,
      rewindBufferCapacity := newCapacity,
      rewindBuffer :=
        if newCapacity > 0 then some (List.replicate newCapacity.toNat none) else none,
      rewindScreenBuffer :=
        if newCapacity > 0 then some (List.replicate newCapacity.toNat []) else none }

/-- Translation of `GBARewind`: the thread after the call and the returned
count; `none` when the call reads outside the slot array. -/
def GBARewind (sub : Subsystems) (thread : GBAThread) (nStates : Int) :
    Option (GBAThread × Int) :=
  let nStates :=
    if nStates > thread.rewindBufferSize ∨ nStates < 0 then thread.rewindBufferSize else nStates
  if nStates = 0 then some (thread, 0)
  else
    let offset := thread.rewindBufferWriteOffset - nStates
    let offset := if offset < 0 then offset + thread.rewindBufferCapacity else offset
    match thread.rewindBuffer with
    | none => none
    | some buffer =>
      if 0 ≤ offset ∧ offset.toNat < buffer.length then
        match buffer.getD offset.toNat none with
        | none => some (thread, 0)
        | some state =>
          let thread :=
            { thread with
              rewindBufferSize := thread.rewindBufferSize - nStates,
              rewindBufferWriteOffset := offset }
          let gba := (GBADeserialize sub thread.gba state).2
          let gba :=
            match thread.rewindScreenBuffer with
            | none => gba
            | some frames =>
              { gba with video := sub.putPixels gba.video (frames.getD offset.toNat []) }
          some ({ thread with gba := gba }, nStates)
      else none

/-- Translation of `GBARewindAll`. -/
def GBARewindAll (sub : Subsystems) (thread : GBAThread) : Option (GBAThread × Int) :=
  GBARewind sub thread thread.rewindBufferSize

/-! ## Notions used in the statements -/

/-- The test `info.branchType || info.traps` of the block builders: the
decoder reports the opcode as branch-type or trap. -/
def endsBlock (info : ARMInstructionInfo) : Prop := info.branchType ≠ 0 ∨ info.traps = true

instance (info : ARMInstructionInfo) : Decidable (endsBlock info) := by
  unfold endsBlock
  infer_instance

/-- The condition table as the specification words it, over the four flags:
EQ:Z, NE:!Z, CS:C, CC:!C, MI:N, PL:!N, VS:V, VC:!V, HI:C&&!Z, LS:!C||Z,
GE:N==V, LT:N!=V, GT:(N==V)&&!Z, LE:(N!=V)||Z, AL: always true, and the 16th
encoding treated as always-true. -/
def canonicalCondition (field : Nat) (n z c v : Bool) : Bool :=
  match field with
  | 0x0 => z
  | 0x1 => !z
  | 0x2 => c
  | 0x3 => !c
  | 0x4 => n
  | 0x5 => !n
  | 0x6 => v
  | 0x7 => !v
  | 0x8 => c && !z
  | 0x9 => !c || z
  | 0xA => n == v
  | 0xB => n != v
  | 0xC => (n == v) && !z
  | 0xD => (n != v) || z
  | _ => true

/-! ## A concrete machine

The witnesses and the counterexamples below are evaluated on this machine. -/

/-- A decoder for the concrete machine: `B`/`BL` (bits 27..25 = 101) is
branch-type, `SWI` (bits 27..24 = 1111) traps. -/
def sampleDecodeARM (opcode : Nat) : ARMInstructionInfo :=
  { branchType := if (opcode >>> 25) &&& 7 = 5 then 1 else 0,
    traps := decide ((opcode >>> 24) &&& 0xF = 0xF) }

/-- A decoder for the concrete machine: the Thumb conditional branch (bits
15..12 = 1101) and the unconditional branch (bits 15..11 = 11100) are
branch-type; `SWI` (bits 15..8 = 11011111) traps. -/
def sampleDecodeThumb (opcode : Nat) : ARMInstructionInfo :=
  { branchType := if opcode >>> 12 = 0xD ∨ opcode >>> 11 = 0x1C then 1 else 0,
    traps := decide (opcode >>> 8 = 0xDF) }

/-- A handler behaviour for the concrete machine: add the table index and the
opcode into `r0` and charge one cycle. -/
def sampleExec (index opcode : Nat) (cpu : ARMCore) : ARMCore :=
  { cpu with
    gprs := Function.update cpu.gprs 0 (wrap32 (cpu.gprs 0 + index + opcode)),
    cycles := cpu.cycles + 1 }

/-- The instruction set collaborators of the concrete machine. -/
def sampleISA : ISA :=
  { decodeARM := sampleDecodeARM,
    decodeThumb := sampleDecodeThumb,
    armExec := sampleExec,
    thumbExec := sampleExec,
    processEvents := fun cpu => cpu }

/-- A region holding the little-endian 32-bit `words` from offset `base` on,
and zero elsewhere. -/
def programRegion (base : Nat) (words : List Nat) : Region :=
  fun a => if a < base then 0 else (words.getD ((a - base) / 4) 0 >>> (8 * ((a - base) % 4))) % 256

/-- A cache as `ARMCacheInit` leaves it. -/
def emptyCache : ARMCache :=
  { block := none, instruction := 0, data := 0, armCache := TableInit, thumbCache := TableInit,
    active := false, blocks := [] }

/-- A core of the concrete machine running from `region` with flags `cpsr`,
its cache as `ARMCacheInit` leaves it. -/
def sampleCore (region : Region) (cpsr : Nat) : ARMCore :=
  { gprs := fun _ => 0,
    cpsr := cpsr,
    spsr := 0,
    cycles := 0,
    nextEvent := 100,
    bankedRegisters := fun _ _ => 0,
    bankedSPSRs := fun _ => 0,
    prefetch := (0, 0),
    executionMode := ExecutionMode.MODE_ARM,
    privilegeMode := 0x1F,
    memory := { activeRegion := region, activeMask := 0x00FFFFFF, activeSeqCycles32 := 2 },
    cache := emptyCache,
    invoked := [] }

/-- A core whose handler cursor sits on the opcode-table handler 7, the
first entry of its only block. -/
def cursorCore (cpsr : Nat) : ARMCore :=
  { sampleCore (programRegion 0 []) cpsr with
    cache := { emptyCache with
      block := some 0,
      blocks := [{ chains := BlockChains.arm
                      { instruction := [ARMInstruction.table 7, ARMInstruction.endBlockARM],
                        data := [0, 0, 0, 0] },
                   nextBlock := none, branch := none, branchAddress := 0xFFFFFFFF }] } }

/-- An ARM program at `0x1000`: two data-processing instructions, an
unconditional branch, and always-executed instructions after it. -/
def branchThenAlways : Region :=
  programRegion 0x1000
    [0xE1A00000, 0xE2800001, 0xEA000010, 0xE1A00000, 0xE1A00000, 0xE1A00000, 0xE1A00000]

/-- An ARM program at `0x1000`: two data-processing instructions, an
unconditional branch, two conditional instructions (`MOVEQ`, `MOVNE`) and
always-executed instructions after them. -/
def branchThenConditional : Region :=
  programRegion 0x1000
    [0xE1A00000, 0xE2800001, 0xEA000010, 0x01A00000, 0x11A00000, 0xE1A00000, 0xE3A01005,
      0xE3A02006]

/-- A Thumb program at `0x2000`: `ADDS`, `ADDS`, `BEQ`, then three more
halfwords. -/
def thumbProgram : Region :=
  programRegion 0x2000 [0x30011C08, 0x3801D0FC, 0x46C01C40]

/-- An ARM program at `0x1000` with two consecutive blocks: `MOV`, `ADD`, `B`,
then `MOV`, `SUB`, `SWI`, then always-executed instructions. -/
def twoBlocks : Region :=
  programRegion 0x1000
    [0xE1A00000, 0xE2800001, 0xEA000010, 0xE1A00000, 0xE2400001, 0xEF000005, 0xE1A00000,
      0xE1A00000, 0xE1A00000]

/-- The concrete core just after `ARMCacheStepARM` fetched for the terminator
at `0x100C` of the block entered at `0x1000`: that block is current and its
`nextBlock` is unset. -/
def atTerminator : ARMCore :=
  { sampleCore twoBlocks 0 with
    gprs := Function.update (fun _ => 0) ARM_PC 0x1014,
    prefetch := (0xE2400001, 0xEF000005),
    cache := { emptyCache with
      block := some 0,
      instruction := 3,
      data := 6,
      armCache := TableInsert TableInit (0x1000 >>> 2) 0,
      blocks := [{ chains := BlockChains.arm
                      { instruction := [ARMInstruction.table 416, ARMInstruction.table 640,
                          ARMInstruction.table 2561, ARMInstruction.endBlockARM],
                        data := [0xE1A00000, 0xE2800001, 0xEA000010, 0xE1A00000, 0xE2400001,
                          0xEF000005] },
                   nextBlock := none, branch := none, branchAddress := 0xFFFFFFFF }] } }

/-- Every register field of the core fits its C type: the unsigned fields are
32-bit words and the two cycle counters are signed 32-bit values. -/
def wellTyped (cpu : ARMCore) : Prop :=
  (∀ i, cpu.gprs i < 2 ^ 32) ∧ cpu.cpsr < 2 ^ 32 ∧ cpu.spsr < 2 ^ 32
    ∧ (-2 ^ 31 ≤ cpu.cycles ∧ cpu.cycles < 2 ^ 31)
    ∧ (-2 ^ 31 ≤ cpu.nextEvent ∧ cpu.nextEvent < 2 ^ 31)
    ∧ (∀ i j, cpu.bankedRegisters i j < 2 ^ 32) ∧ (∀ i, cpu.bankedSPSRs i < 2 ^ 32)
    ∧ cpu.prefetch.1 < 2 ^ 32 ∧ cpu.prefetch.2 < 2 ^ 32

/-- The delegated collaborators of the concrete machine: every subsystem
stores its state verbatim and reads it back verbatim, the region switch keeps
the active region, and the renderer hands out and takes back the video
state. -/
def sampleSubsystems : Subsystems :=
  { GBAMemorySerialize := fun memory => memory.ram,
    GBAIOSerialize := fun gba => gba.ioRegs,
    GBAVideoSerialize := fun video => { eventDiff := video.headD 0, rest := video },
    GBAAudioSerialize := fun audio => audio,
    GBASavedataSerialize := fun savedata => savedata,
    stateSaved := fun rr => rr.headD 0,
    GBAMemoryDeserialize := fun _ block => block,
    GBAIODeserialize := fun _ block => block,
    GBAVideoDeserialize := fun _ block => block.rest,
    GBAAudioDeserialize := fun _ block => block,
    GBASavedataDeserialize := fun _ block => block,
    setActiveRegion := fun gba _ => gba.cpu.memory,
    getPixels := fun video => some video,
    putPixels := fun video _ => video }

/-- The cartridge of the concrete machine. -/
def sampleCartridge : GBACartridge :=
  { id := 0x45564F4C, title := [0x4D, 0x47, 0x42, 0x41, 0x54, 0x45, 0x53, 0x54, 0, 0, 0, 0] }

/-- A concrete machine in ARM state, executing at `pc` with `cycles` on its
cycle counter; its prefetch queue holds `prefetch` and its BIOS prefetch
value is `biosPrefetch`. -/
def sampleGBA (pc : Nat) (cycles : Int) (prefetch : Nat × Nat) (biosPrefetch : Nat) : GBA :=
  { cpu := { sampleCore twoBlocks 0x1F with
      gprs := Function.update (fun i => 0x100 + i.val) ARM_PC pc,
      cycles := cycles,
      prefetch := prefetch },
    memory := { rom := some sampleCartridge, romSize := 0x1000, biosPrefetch := biosPrefetch,
                ram := [1, 2, 3], savedata := [4] },
    ioRegs := [5, 6],
    video := [7],
    audio := [8],
    biosChecksum := 0xBAAE187F,
    romCrc32 := 0x12345678,
    rr := none }

/-- A ring of capacity 3 around `gba`, with one slot already written and the
write cursor on slot 1. -/
def sampleThread (sub : Subsystems) (gba : GBA) : GBAThread :=
  { gba := gba,
    rewindBuffer := some [some (GBASerialize sub gba), none, none],
    rewindScreenBuffer := some [[], [], []],
    rewindBufferCapacity := 3,
    rewindBufferSize := 1,
    rewindBufferWriteOffset := 1,
    rewindBufferInterval := 4,
    rewindBufferNext := 4 }

/-- The ring of the concrete machine: capacity 3, one slot written, around
the machine at `0x08000100` with a non-zero BIOS prefetch value. -/
def sampleRing : GBAThread :=
  sampleThread sampleSubsystems (sampleGBA 0x08000100 10 (0xE1A00000, 0xE2800001) 5)

/-! ## The uncached interpreter and the notions of the equivalence claim -/

/-- Modelled from the spec: one step of the plain interpreter loop, in ARM
state (`ARMStep` of the absent `arm.c`).  It pops the oldest prefetch slot,
advances the program counter by the instruction width, refills the queue from
guest memory at the new program counter, and classifies and executes the
popped opcode under the condition gate of section 4.3. -/
def ARMStep (isa : ISA) (cpu : ARMCore) : ARMCore :=
  let opcode := cpu.prefetch.1
  let cpu := advancePC cpu WORD_SIZE_ARM
  let cpu := { cpu with
    prefetch := (cpu.prefetch.2,
      LOAD_32 cpu.memory.activeRegion (cpu.gprs ARM_PC &&& cpu.memory.activeMask)) }
  let condition := opcode >>> 28
  if condition ≠ 0xE ∧ conditionMet cpu condition = false then
    { cpu with cycles := cpu.cycles + ARM_PREFETCH_CYCLES cpu }
  else
    { isa.armExec (armTableIndex opcode) opcode cpu with
      invoked := cpu.invoked ++ [Invocation.arm (armTableIndex opcode) opcode] }

/-- Modelled from the spec: one step of the plain interpreter loop, in Thumb
state (`ThumbStep` of the absent `arm.c`); Thumb instructions always
execute. -/
def ThumbStep (isa : ISA) (cpu : ARMCore) : ARMCore :=
  let opcode := cpu.prefetch.1
  let cpu := advancePC cpu WORD_SIZE_THUMB
  let cpu := { cpu with
    prefetch := (cpu.prefetch.2,
      LOAD_16 cpu.memory.activeRegion (cpu.gprs ARM_PC &&& cpu.memory.activeMask)) }
  { isa.thumbExec (opcode >>> 6) opcode cpu with
    invoked := cpu.invoked ++ [Invocation.thumb (opcode >>> 6) opcode] }

/-- Modelled from the spec: the plain interpreter loop (`ARMRunLoop` of the
absent `arm.c`), the baseline `ARMCacheRunLoop` delegates to when the cache is
inactive: step while the cycle counter is below the next event, at most
`steps` times, then call the event hook once. -/
def ARMRunLoop (isa : ISA) (steps : Nat) (cpu : ARMCore) : Option ARMCore :=
  let done :=
    if cpu.executionMode = ExecutionMode.MODE_THUMB then
      cacheLoop (fun c => some (ThumbStep isa c)) steps cpu
    else
      cacheLoop (fun c => some (ARMStep isa c)) steps cpu
  match done with
  | none => none
  | some cpu1 => some (isa.processEvents cpu1)

/-- The handlers and the event hook are those of straight-line code: they do
not depend on the cache and leave it alone, and the handlers leave the
program counter, the prefetch queue and the memory view alone. -/
structure StraightLine (isa : ISA) : Prop where
  arm_cache : ∀ (index opcode : Nat) (cpu : ARMCore) (cache : ARMCache),
    isa.armExec index opcode { cpu with cache := cache }
      = { isa.armExec index opcode cpu with cache := cache }
  arm_pc : ∀ (index opcode : Nat) (cpu : ARMCore),
    (isa.armExec index opcode cpu).gprs ARM_PC = cpu.gprs ARM_PC
  arm_prefetch : ∀ (index opcode : Nat) (cpu : ARMCore),
    (isa.armExec index opcode cpu).prefetch = cpu.prefetch
  arm_memory : ∀ (index opcode : Nat) (cpu : ARMCore),
    (isa.armExec index opcode cpu).memory = cpu.memory
  thumb_cache : ∀ (index opcode : Nat) (cpu : ARMCore) (cache : ARMCache),
    isa.thumbExec index opcode { cpu with cache := cache }
      = { isa.thumbExec index opcode cpu with cache := cache }
  thumb_pc : ∀ (index opcode : Nat) (cpu : ARMCore),
    (isa.thumbExec index opcode cpu).gprs ARM_PC = cpu.gprs ARM_PC
  thumb_prefetch : ∀ (index opcode : Nat) (cpu : ARMCore),
    (isa.thumbExec index opcode cpu).prefetch = cpu.prefetch
  thumb_memory : ∀ (index opcode : Nat) (cpu : ARMCore),
    (isa.thumbExec index opcode cpu).memory = cpu.memory
  events_cache : ∀ (cpu : ARMCore) (cache : ARMCache),
    isa.processEvents { cpu with cache := cache }
      = { isa.processEvents cpu with cache := cache }

/-- Position `d` holds the first block-ending word of the ARM stream entered
at `addr`. -/
def FirstEndARM (isa : ISA) (memory : ARMMemory) (addr d : Nat) : Prop :=
  (∀ i, i < d → ¬ endsBlock (isa.decodeARM (fetchARM memory addr i)))
    ∧ endsBlock (isa.decodeARM (fetchARM memory addr d))

/-- Position `d` holds the first block-ending halfword of the Thumb stream
entered at `addr`. -/
def FirstEndThumb (isa : ISA) (memory : ARMMemory) (addr d : Nat) : Prop :=
  (∀ i, i < d → ¬ endsBlock (isa.decodeThumb (fetchThumb memory addr i)))
    ∧ endsBlock (isa.decodeThumb (fetchThumb memory addr d))

/-- The chains the ARM builder produces at `addr` when the first block-ending
word is at `d` and the word after it has condition field `0xE`. -/
def builtARM (memory : ARMMemory) (addr d : Nat) : ARMCacheBlockARM :=
  { instruction :=
      (List.range (d + 1)).map (fun i => ARMInstruction.table (armTableIndex (fetchARM memory addr i)))
        ++ List.replicate 1 ARMInstruction.endBlockARM,
    data := (List.range (d + 4)).map (fun i => fetchARM memory addr i) }

/-- The chains the Thumb builder produces at `addr` when the first
block-ending halfword is at `d`. -/
def builtThumb (memory : ARMMemory) (addr d : Nat) : ARMCacheBlockThumb :=
  { instruction :=
      (List.range (d + 1)).map (fun i => ThumbInstruction.table (fetchThumb memory addr i >>> 6))
        ++ List.replicate 3 ThumbInstruction.endBlockThumb,
    data := (List.range (d + 4)).map (fun i => fetchThumb memory addr i) }

/-- The ARM table and the arena agree with guest memory: every entry is the
block the builder produces for its address, a resolved `nextBlock` is the
table's entry for the fall-through address of the block's terminator, and no
block is entered under two keys. -/
structure CacheOKARM (isa : ISA) (memory : ARMMemory) (table : Table)
    (blocks : List ARMCacheBlock) : Prop where
  built : ∀ (key h : Nat), table key = some h →
    ∃ blk d, blocks[h]? = some blk ∧ FirstEndARM isa memory (4 * key) d
      ∧ blk.chains = BlockChains.arm (builtARM memory (4 * key) d)
  linked : ∀ (key h d next : Nat) (blk : ARMCacheBlock), table key = some h →
    blocks[h]? = some blk → blk.nextBlock = some next → FirstEndARM isa memory (4 * key) d →
    table (wrap32 (4 * key + 4 * (d + 1)) >>> 2) = some next
  injective : ∀ (key key' h : Nat), table key = some h → table key' = some h → key = key'

/-- The Thumb table and the arena agree with guest memory. -/
structure CacheOKThumb (isa : ISA) (memory : ARMMemory) (table : Table)
    (blocks : List ARMCacheBlock) : Prop where
  built : ∀ (key h : Nat), table key = some h →
    ∃ blk d, blocks[h]? = some blk ∧ FirstEndThumb isa memory (2 * key) d
      ∧ blk.chains = BlockChains.thumb (builtThumb memory (2 * key) d)
  linked : ∀ (key h d next : Nat) (blk : ARMCacheBlock), table key = some h →
    blocks[h]? = some blk → blk.nextBlock = some next → FirstEndThumb isa memory (2 * key) d →
    table (wrap32 (2 * key + 2 * (d + 1)) >>> 1) = some next
  injective : ∀ (key key' h : Nat), table key = some h → table key' = some h → key = key'

/-- The ARM pipeline is consistent with the fetch cursor: the cache agrees
with guest memory, the current block is the table's entry for some word
address `4 * key`, the handler cursor is on an entry `i` up to the block's
terminator, the data cursor is two entries ahead, the prefetch queue holds
the words of entries `i` and `i + 1`, and the program counter is one
instruction past entry `i`. -/
def SyncARM (isa : ISA) (cpu : ARMCore) : Prop :=
  CacheOKARM isa cpu.memory cpu.cache.armCache cpu.cache.blocks
    ∧ ∃ key b d i, cpu.cache.armCache key = some b ∧ cpu.cache.block = some b
      ∧ FirstEndARM isa cpu.memory (4 * key) d ∧ i ≤ d + 1
      ∧ cpu.cache.instruction = i ∧ cpu.cache.data = i + 2
      ∧ cpu.gprs ARM_PC = wrap32 (4 * key + 4 * i + 4)
      ∧ cpu.prefetch = (fetchARM cpu.memory (4 * key) i, fetchARM cpu.memory (4 * key) (i + 1))

/-- The Thumb pipeline is consistent with the fetch cursor. -/
def SyncThumb (isa : ISA) (cpu : ARMCore) : Prop :=
  CacheOKThumb isa cpu.memory cpu.cache.thumbCache cpu.cache.blocks
    ∧ ∃ key b d i, cpu.cache.thumbCache key = some b ∧ cpu.cache.block = some b
      ∧ FirstEndThumb isa cpu.memory (2 * key) d ∧ i ≤ d + 1
      ∧ cpu.cache.instruction = i ∧ cpu.cache.data = i + 2
      ∧ cpu.gprs ARM_PC = wrap32 (2 * key + 2 * i + 2)
      ∧ cpu.prefetch
          = (fetchThumb cpu.memory (2 * key) i, fetchThumb cpu.memory (2 * key) (i + 1))

/-- The prefetch pipeline is consistent with the fetch cursor of the current
block, in the execution mode of the core. -/
def Synchronised (isa : ISA) (cpu : ARMCore) : Prop :=
  if cpu.executionMode = ExecutionMode.MODE_THUMB then SyncThumb isa cpu else SyncARM isa cpu

/-- Every block build terminates within the fuel: from every address the
stream reaches a block-ending opcode early enough, in the execution mode of
the core; in ARM state, moreover, every block-ending word is followed by a
word with condition field `0xE`. -/
def BuildsTerminate (isa : ISA) (cpu : ARMCore) (fuel : Nat) : Prop :=
  if cpu.executionMode = ExecutionMode.MODE_THUMB then
    ∀ addr, ∃ d, d + 4 ≤ fuel ∧ endsBlock (isa.decodeThumb (fetchThumb cpu.memory addr d))
  else
    (∀ addr, ∃ d, d + 4 ≤ fuel ∧ endsBlock (isa.decodeARM (fetchARM cpu.memory addr d)))
      ∧ ∀ addr i, endsBlock (isa.decodeARM (fetchARM cpu.memory addr i)) →
          fetchARM cpu.memory addr (i + 1) >>> 28 = 0xE

/-- The core after the fetch stage of a step: the program counter advanced by
`width` and the queue shifted, with `word` in the vacated slot. -/
def fetched (cpu : ARMCore) (width word : Nat) : ARMCore :=
  { advancePC cpu width with prefetch := (cpu.prefetch.2, word) }

/-- A guest image of zero bytes: every ARM word is `0x00000000`
(`ANDEQ r0, r0, r0`), neither branch-type nor trapping for the concrete
decoder. -/
def zeroRegion : Region := fun _ => 0

/-- A core over the branch-free image, with the `Z` flag set so that the
words execute, the program counter one instruction past address 0, an event
due after three cycles, and the cache active and otherwise as `ARMCacheInit`
leaves it. -/
def branchFreeCore : ARMCore :=
  { sampleCore zeroRegion 0x40000000 with
    gprs := Function.update (fun _ => 0) ARM_PC 4,
    nextEvent := 3,
    cache := { emptyCache with active := true } }

/-- A guest image whose every ARM word is `0xEF000000` (`SWI 0`, condition
field `0xE`), a trap for the concrete decoder. -/
def trapRegion : Region := fun a => if a % 4 = 3 then 0xEF else 0

/-- A core over the image of traps, about to execute the word at address 0
out of the block the builder makes for that address: the pipeline holds the
words at 0 and 4, the handler cursor is on the first entry and the data
cursor two entries ahead, an event is due after three cycles. -/
def trapCore : ARMCore :=
  { sampleCore trapRegion 0 with
    gprs := Function.update (fun _ => 0) ARM_PC 4,
    nextEvent := 3,
    prefetch := (0xEF000000, 0xEF000000),
    cache :=
      { block := some 0, instruction := 0, data := 2,
        armCache := TableInsert TableInit 0 0, thumbCache := TableInit, active := true,
        blocks := [{ chains := BlockChains.arm
                       { instruction := [ARMInstruction.table 0xF00, ARMInstruction.endBlockARM],
                         data := [0xEF000000, 0xEF000000, 0xEF000000, 0xEF000000] },
                     nextBlock := none, branch := none, branchAddress := 0xFFFFFFFF }] } }

/-! ## Notions of the ring-buffer claims -/

/-- The request after the clamp at the head of `GBARewind`. -/
def rewindCount (thread : GBAThread) (nStates : Int) : Int :=
  if nStates > thread.rewindBufferSize ∨ nStates < 0 then thread.rewindBufferSize else nStates

/-- The slot index `GBARewind` computes for a clamped request `nStates`. -/
def rewindOffset (thread : GBAThread) (nStates : Int) : Int :=
  let offset := thread.rewindBufferWriteOffset - nStates
  if offset < 0 then offset + thread.rewindBufferCapacity else offset

/-- The machine `GBARewind` leaves after it has deserialized `state` and handed
the frame of slot `offset` to the renderer. -/
def rewindMachine (sub : Subsystems) (thread : GBAThread) (state : GBASerializedState)
    (offset : Int) : GBA :=
  let gba := (GBADeserialize sub thread.gba state).2
  match thread.rewindScreenBuffer with
  | none => gba
  | some frames => { gba with video := sub.putPixels gba.video (frames.getD offset.toNat []) }

/-- The pointer `thread->rewindBuffer[i]`, `none` for `NULL` and outside the
array. -/
def slotAt (thread : GBAThread) (i : Int) : Option GBASerializedState :=
  match thread.rewindBuffer with
  | none => none
  | some buffer => if 0 ≤ i then buffer.getD i.toNat none else none

/-- The slot array of the ring is allocated with `capacity` entries. -/
def SlotsAllocated (thread : GBAThread) : Prop :=
  ∃ buffer, thread.rewindBuffer = some buffer
    ∧ (buffer.length : Int) = thread.rewindBufferCapacity

/-- The ring-buffer invariant: the logical size is within `0 .. capacity`, and
the write cursor is a valid slot index whenever the capacity is positive. -/
def RingInvariant (thread : GBAThread) : Prop :=
  (0 ≤ thread.rewindBufferSize ∧ thread.rewindBufferSize ≤ thread.rewindBufferCapacity)
    ∧ (thread.rewindBufferCapacity > 0 →
        0 ≤ thread.rewindBufferWriteOffset
          ∧ thread.rewindBufferWriteOffset < thread.rewindBufferCapacity)

/-- A ring in use: positive capacity, the slot array allocated, the ring
invariant, and a snapshot in each of the `size` slots behind the write
cursor. -/
structure RingInUse (thread : GBAThread) : Prop where
  slots : SlotsAllocated thread
  size : 0 ≤ thread.rewindBufferSize ∧ thread.rewindBufferSize ≤ thread.rewindBufferCapacity
  cursor : 0 ≤ thread.rewindBufferWriteOffset
    ∧ thread.rewindBufferWriteOffset < thread.rewindBufferCapacity
  filled : ∀ k : Int, 1 ≤ k → k ≤ thread.rewindBufferSize →
    ∃ state, slotAt thread ((thread.rewindBufferWriteOffset - k) % thread.rewindBufferCapacity)
      = some state

/-- The rings reached by record and rewind operations: from an empty ring of
positive capacity (every slot `NULL`, size 0, the cursor on a slot), by
`GBARecordFrame`, by `GBARewind` for any request, and by the machine running
in between. -/
inductive Reached (sub : Subsystems) : GBAThread → Prop
  | empty (thread : GBAThread) :
      0 < thread.rewindBufferCapacity →
      thread.rewindBuffer = some (List.replicate thread.rewindBufferCapacity.toNat none) →
      thread.rewindBufferSize = 0 →
      0 ≤ thread.rewindBufferWriteOffset →
      thread.rewindBufferWriteOffset < thread.rewindBufferCapacity →
      Reached sub thread
  | run (thread : GBAThread) (gba : GBA) :
      Reached sub thread → Reached sub { thread with gba := gba }
  | record (thread recorded : GBAThread) :
      Reached sub thread → GBARecordFrame sub thread = some recorded → Reached sub recorded
  | rewind (thread rewound : GBAThread) (nStates count : Int) :
      Reached sub thread → GBARewind sub thread nStates = some (rewound, count) →
      Reached sub rewound

/-- `GBARecordFrame` called `n` times in a row. -/
def recordFrames (sub : Subsystems) : Nat → GBAThread → Option GBAThread
  | 0, thread => some thread
  | n + 1, thread =>
    match GBARecordFrame sub thread with
    | none => none
    | some recorded => recordFrames sub n recorded

/-- An empty ring of capacity 10 around the concrete machine, as
`GBARewindSettingsChanged` allocates it. -/
def emptyRing : GBAThread :=
  { gba := sampleGBA 0x08000100 10 (0xE1A00000, 0xE2800001) 5,
    rewindBuffer := some (List.replicate 10 none),
    rewindScreenBuffer := some (List.replicate 10 []),
    rewindBufferCapacity := 10,
    rewindBufferSize := 0,
    rewindBufferWriteOffset := 0,
    rewindBufferInterval := 4,
    rewindBufferNext := 4 }

/-! ## Notions of the snapshot claims -/

/-- The cartridge test of `GBADeserialize`: the snapshot is for a different
game, or for a game while none is loaded. -/
def identityMismatch (gba : GBA) (state : GBASerializedState) : Prop :=
  match gba.memory.rom with
  | some cart => state.id ≠ cart.id ∨ state.title ≠ cart.title
  | none => state.id ≠ 0

/-- The ROM-size test of `GBADeserialize`, the last of its validation pass,
for a ROM of `romSize` bytes and the stored program counter `pc`. -/
def romSizeGate (romSize pc : Nat) : Prop :=
  (toI32 pc >>> BASE_OFFSET = REGION_CART0 ∨ toI32 pc >>> BASE_OFFSET = REGION_CART1
      ∨ toI32 pc >>> BASE_OFFSET = REGION_CART2)
    ∧ (toU32 (toI32 pc - WORD_SIZE_ARM) &&& SIZE_CART0) ≥ sizeSub romSize WORD_SIZE_ARM

/-- The backward-compatibility path of `GBADeserialize`: the prefetch queue
re-fetched from the active region at `PC - width` and `PC`. -/
def refetchPrefetch (cpu : ARMCore) : Nat × Nat :=
  if psrT cpu.cpsr = true then
    (LOAD_16 cpu.memory.activeRegion
        (wrap32 (cpu.gprs ARM_PC + 2 ^ 32 - WORD_SIZE_THUMB) &&& cpu.memory.activeMask),
      LOAD_16 cpu.memory.activeRegion (cpu.gprs ARM_PC &&& cpu.memory.activeMask))
  else
    (LOAD_32 cpu.memory.activeRegion
        (wrap32 (cpu.gprs ARM_PC + 2 ^ 32 - WORD_SIZE_ARM) &&& cpu.memory.activeMask),
      LOAD_32 cpu.memory.activeRegion (cpu.gprs ARM_PC &&& cpu.memory.activeMask))

/-- The snapshot `state` with the stored cycle counter replaced. -/
def withCycles (state : GBASerializedState) (cycles : Nat) : GBASerializedState :=
  { state with cpu := { state.cpu with cycles := cycles } }

/-- The snapshot `state` with the cartridge identity replaced. -/
def withIdentity (state : GBASerializedState) (id : Nat) (title : List Nat) :
    GBASerializedState :=
  { state with id := id, title := title }

/-- The ROM-size condition as the specification words it: the stored program
counter lies in a cartridge region and the offset of the executing
instruction (`PC - 4`) within the cartridge window of `SIZE_CART0` bytes is at
or beyond `romSize - 4`. -/
def romSizeGateSpec (romSize pc : Nat) : Prop :=
  (toI32 pc >>> BASE_OFFSET = REGION_CART0 ∨ toI32 pc >>> BASE_OFFSET = REGION_CART1
      ∨ toI32 pc >>> BASE_OFFSET = REGION_CART2)
    ∧ toU32 (toI32 pc - WORD_SIZE_ARM) % SIZE_CART0 ≥ sizeSub romSize WORD_SIZE_ARM

/-- The concrete machine with no cartridge loaded, executing from work
memory. -/
def bareGBA : GBA :=
  { sampleGBA 0x03000100 10 (0xE1A00000, 0xE2800001) 5 with
    memory := { rom := none, romSize := 0, biosPrefetch := 5, ram := [1, 2, 3],
                savedata := [4] } }

/-! ## Iterations of the build loops -/

/-- One iteration of the `while (true)` loop of `ARMCacheFindBlockARM`: the
locals after the iteration, and whether the iteration left through
`break`. -/
def buildStepARM (isa : ISA) (memory : ARMMemory) (addr : Nat) (st : BuildARM) :
    BuildARM × Bool :=
  let chainSize := if st.chainUsed = st.chainSize then st.chainSize * 2 else st.chainSize
  let opcode := fetchARM memory addr st.chainUsed
  let dchain := st.dchain ++ [opcode]
  if st.blockEnded = 0 then
    let ichain := st.ichain ++ [ARMInstruction.table (armTableIndex opcode)]
    let info := isa.decodeARM opcode
    let blockEnded := if info.branchType ≠ 0 ∨ info.traps = true then 1 else st.blockEnded
    ({ ichain := ichain, dchain := dchain, chainUsed := st.chainUsed + 1,
       chainSize := chainSize, blockEnded := blockEnded }, false)
  else if st.blockEnded = 1 then
    let ichain := st.ichain ++ [ARMInstruction.endBlockARM]
    let condition := opcode >>> 28
    let blockEnded := if condition = 0xE then 2 else st.blockEnded
    ({ ichain := ichain, dchain := dchain, chainUsed := st.chainUsed + 1,
       chainSize := chainSize, blockEnded := blockEnded }, false)
  else
    let blockEnded := st.blockEnded + 1
    if blockEnded = 4 then
      ({ ichain := st.ichain, dchain := dchain, chainUsed := st.chainUsed,
         chainSize := chainSize, blockEnded := blockEnded }, true)
    else
      ({ ichain := st.ichain, dchain := dchain, chainUsed := st.chainUsed + 1,
         chainSize := chainSize, blockEnded := blockEnded }, false)

/-- One iteration of the `while (true)` loop of `ARMCacheFindBlockThumb`. -/
def buildStepThumb (isa : ISA) (memory : ARMMemory) (addr : Nat) (st : BuildThumb) :
    BuildThumb × Bool :=
  let chainSize := if st.chainUsed = st.chainSize then st.chainSize * 2 else st.chainSize
  let opcode := fetchThumb memory addr st.chainUsed
  let dchain := st.dchain ++ [opcode]
  if st.blockEnded = 0 then
    let ichain := st.ichain ++ [ThumbInstruction.table (opcode >>> 6)]
    let info := isa.decodeThumb opcode
    let blockEnded := if info.branchType ≠ 0 ∨ info.traps = true then 1 else st.blockEnded
    ({ ichain := ichain, dchain := dchain, chainUsed := st.chainUsed + 1,
       chainSize := chainSize, blockEnded := blockEnded }, false)
  else
    let ichain := st.ichain ++ [ThumbInstruction.endBlockThumb]
    let blockEnded := st.blockEnded + 1
    if blockEnded = 4 then
      ({ ichain := ichain, dchain := dchain, chainUsed := st.chainUsed,
         chainSize := chainSize, blockEnded := blockEnded }, true)
    else
      ({ ichain := ichain, dchain := dchain, chainUsed := st.chainUsed + 1,
         chainSize := chainSize, blockEnded := blockEnded }, false)

/-- The locals of the ARM build loop on entry to its iteration number `n`
(counting from 0), `none` when the loop has left through `break` before. -/
def buildIterARM (isa : ISA) (memory : ARMMemory) (addr : Nat) : Nat → BuildARM → Option BuildARM
  | 0, st => some st
  | n + 1, st =>
    if (buildStepARM isa memory addr st).2 = true then none
    else buildIterARM isa memory addr n (buildStepARM isa memory addr st).1

/-- The locals of the Thumb build loop on entry to its iteration number
`n`. -/
def buildIterThumb (isa : ISA) (memory : ARMMemory) (addr : Nat) :
    Nat → BuildThumb → Option BuildThumb
  | 0, st => some st
  | n + 1, st =>
    if (buildStepThumb isa memory addr st).2 = true then none
    else buildIterThumb isa memory addr n (buildStepThumb isa memory addr st).1

/-- The capacity of the two arrays of the ARM builder when an iteration
entered with locals `st` writes: `chainSize` after the `realloc` at the head
of the iteration. -/
def capacityARM (st : BuildARM) : Nat :=
  if st.chainUsed = st.chainSize then st.chainSize * 2 else st.chainSize

/-- The capacity of the two arrays of the Thumb builder when an iteration
entered with locals `st` writes. -/
def capacityThumb (st : BuildThumb) : Nat :=
  if st.chainUsed = st.chainSize then st.chainSize * 2 else st.chainSize

/-- A call on the rewind ring: `GBARecordFrame`, `GBARewind` with a request,
or the machine running on to another state between two calls. -/
inductive RingOp where
  | record
  | rewind (nStates : Int)
  | run (gba : GBA)

/-- The ring after one call; `none` when the call reads outside the slot
array. -/
def applyRingOp (sub : Subsystems) : RingOp → GBAThread → Option GBAThread
  | RingOp.record, thread => GBARecordFrame sub thread
  | RingOp.rewind nStates, thread => (GBARewind sub thread nStates).map (fun r => r.1)
  | RingOp.run gba, thread => some { thread with gba := gba }

/-- The ring after a sequence of calls. -/
def applyRingOps (sub : Subsystems) : List RingOp → GBAThread → Option GBAThread
  | [], thread => some thread
  | op :: ops, thread =>
    match applyRingOp sub op thread with
    | none => none
    | some next => applyRingOps sub ops next

/-! ## Save slots (`GBAGetState`, `VDirOptionalOpenFile`) -/

/-- The platform constant `PATH_MAX` of `limits.h` (4096 here). -/
def PATH_MAX : Nat := 4096

/-- The text `snprintf(buffer, size, ...)` of the C library leaves in
`buffer`, given the full formatted text: its first `size - 1` characters. -/
def snprintf (size : Nat) (text : List Char) : List Char := text.take (size - 1)

/-- The text `%d` of the C library produces for an `int`. -/
def formatDecimal (value : Int) : List Char :=
  if value < 0 then '-' :: Nat.toDigits 10 value.natAbs else Nat.toDigits 10 value.toNat

/-- The C library's `strrchr`: the offset of the last occurrence of `c` in the
string, `none` for a `NULL` result. -/
def strrchr (text : List Char) (c : Char) : Option Nat :=
  match text.reverse.indexOf? c with
  | none => none
  | some fromEnd => some (text.length - 1 - fromEnd)

/-- Translation of `VDirOptionalOpenFile`: the name of the resource it opens
(through `dir->openFile` when a directory is given, through `VFileOpen`
otherwise), `none` when it returns 0 before opening.  A `NULL` pointer
compares below every pointer into the string. -/
def VDirOptionalOpenFile (dir : Bool) (realPath : Option (List Char))
    (stem suffix : List Char) : Option (List Char) :=
  if dir = false then
    match realPath with
    | none => none
    | some realPath =>
      match strrchr realPath '.' with
      | some dotPoint =>
        if dotPoint + 1 ≥ PATH_MAX - 1 then none
        else
          let afterSeparator :=
            match strrchr realPath '/' with
            | none => true
            | some separator => decide (dotPoint > separator)
          if afterSeparator = true then
            some (realPath.take dotPoint ++ suffix.take (PATH_MAX - dotPoint - 1))
          else some (snprintf (PATH_MAX - 1) (realPath ++ suffix))
      | none => some (snprintf (PATH_MAX - 1) (realPath ++ suffix))
  else some (snprintf (PATH_MAX - 1) (stem ++ suffix))

/-- The array `suffix` of `GBAGetState` after its `snprintf(suffix,
sizeof(suffix), ".ss%d", slot)`, with `sizeof(suffix) = 5`. -/
def slotSuffix (slot : Int) : List Char :=
  snprintf 5 (['.', 's', 's'] ++ formatDecimal slot)

/-- Translation of `GBAGetState`: the name of the resource opened for `slot`.
`activeFile` is `gba->activeFile`; the flag `write` only selects the open
mode. -/
def GBAGetState (dir : Bool) (activeFile : Option (List Char)) (slot : Int) :
    Option (List Char) :=
  VDirOptionalOpenFile dir activeFile ['s', 'a', 'v', 'e', 's', 't', 'a', 't', 'e']
    (slotSuffix slot)

/-- Handlers of the loop scenario.  A branch (`B`, bits 27..25 = 101) writes
the program counter and refills the prefetch queue from the target, leaving
the program counter one word past the target, as a write to the program
counter does in the plain interpreter; `SUBS r0, r0, #1` (`0xE2500001`)
decrements `r0` and sets the `Z` flag when the result is zero; every handler
charges one cycle. -/
def loopExec (_index opcode : Nat) (cpu : ARMCore) : ARMCore :=
  if (opcode >>> 25) &&& 7 = 5 then
    let offset := (opcode &&& 0xFFFFFF) * 4 + (if opcode.testBit 23 then 0xFC000000 else 0)
    let target := wrap32 (cpu.gprs ARM_PC + offset)
    { cpu with
      gprs := Function.update cpu.gprs ARM_PC (wrap32 (target + WORD_SIZE_ARM)),
      prefetch := (LOAD_32 cpu.memory.activeRegion (target &&& cpu.memory.activeMask),
        LOAD_32 cpu.memory.activeRegion
          (wrap32 (target + WORD_SIZE_ARM) &&& cpu.memory.activeMask)),
      cycles := cpu.cycles + 1 }
  else if opcode = 0xE2500001 then
    let result := wrap32 (cpu.gprs 0 + 2 ^ 32 - 1)
    { cpu with
      gprs := Function.update cpu.gprs 0 result,
      cpsr := if result = 0 then cpu.cpsr ||| 0x40000000 else cpu.cpsr &&& 0xBFFFFFFF,
      cycles := cpu.cycles + 1 }
  else { cpu with cycles := cpu.cycles + 1 }

/-- The instruction set collaborators of the loop scenario. -/
def loopISA : ISA :=
  { decodeARM := sampleDecodeARM,
    decodeThumb := sampleDecodeThumb,
    armExec := loopExec,
    thumbExec := sampleExec,
    processEvents := fun cpu => cpu }

/-- An ARM loop at `0x1000`: `SUBS r0, r0, #1`, `BNE 0x1000`, then three
`MOV` instructions, an `SWI` and more `MOV` instructions. -/
def loopProgram : Region :=
  programRegion 0x1000
    [0xE2500001, 0x1AFFFFFD, 0xE1A00000, 0xE1A00000, 0xE1A00000, 0xEF000005, 0xE1A00000,
      0xE1A00000, 0xE1A00000]

/-- The core about to execute the loop with `r0 = 2` and an event due at
cycle 6: its block at `0x1000` is the one `ARMCacheFindBlockARM` builds on the
empty cache, the pipeline holds the first two words and the data cursor is
past them. -/
def loopCore : ARMCore :=
  let base : ARMCore :=
    { sampleCore loopProgram 0x1F with
      gprs := Function.update (Function.update (fun _ => 0) 0 2) ARM_PC 0x1004,
      nextEvent := 6,
      prefetch := (0xE2500001, 0x1AFFFFFD),
      cache := { emptyCache with active := true } }
  match ARMCacheFindBlockARM loopISA 16 base 0x1000 with
  | some cpu => advanceData cpu 2
  | none => base

/-- The core as the terminator receives it when the step taken from `cpu`
calls it: after the fetch stage of `ARMCacheStepARM` and the cursor increment
of `_runARM`. -/
def terminatorEntryARM (cpu : ARMCore) : Option ARMCore :=
  match currentARMData (advancePC cpu WORD_SIZE_ARM) with
  | none => none
  | some word => some (advanceInstruction (advanceData (fetched cpu WORD_SIZE_ARM word) 1))

/-- An ARM program at `0x1000`: `B 0x1010`, three `MOV` instructions, then at
the branch target `0x1010` a conditional `MOVEQ`, two `MOV` instructions, an
`SWI` and more `MOV` instructions. -/
def skipProgram : Region :=
  programRegion 0x1000
    [0xEA000002, 0xE1A00000, 0xE1A00000, 0xE1A00000, 0x01A00000, 0xE1A00000, 0xE1A00000,
      0xEF000005, 0xE1A00000, 0xE1A00000, 0xE1A00000]

/-- The core about to execute the branch at `0x1000` with the `Z` flag clear
and an event due at cycle 4: its block at `0x1000` is the one
`ARMCacheFindBlockARM` builds on the empty cache, the pipeline holds the first
two words and the data cursor is past them. -/
def skipCore : ARMCore :=
  let base : ARMCore :=
    { sampleCore skipProgram 0x1F with
      gprs := Function.update (fun _ => 0) ARM_PC 0x1004,
      nextEvent := 4,
      prefetch := (0xEA000002, 0xE1A00000),
      cache := { emptyCache with active := true } }
  match ARMCacheFindBlockARM loopISA 16 base 0x1000 with
  | some cpu => advanceData cpu 2
  | none => base

/-! # Theorems -/

/-! ## Condition evaluator -/

/-- For a condition field up to `0xE`, the gate of `_runARM` (the field is
`0xE`, or the `switch` sets `conditionMet`) is the canonical predicate on the
four flags of the current status word. -/
theorem gate_eq_canonical (cpu : ARMCore) (field : Nat) (h : field ≤ 0xE) :
    (decide (field = 0xE) || conditionMet cpu field)
      = canonicalCondition field (psrN cpu.cpsr) (psrZ cpu.cpsr) (psrC cpu.cpsr)
          (psrV cpu.cpsr) := by
  interval_cases field <;>
    simp [conditionMet, canonicalCondition, ARM_COND_EQ, ARM_COND_NE, ARM_COND_CS, ARM_COND_CC,
      ARM_COND_MI, ARM_COND_PL, ARM_COND_VS, ARM_COND_VC, ARM_COND_HI, ARM_COND_LS, ARM_COND_GE,
      ARM_COND_LT, ARM_COND_GT, ARM_COND_LE]

/-- C5. Condition truth table: for every opcode whose condition field
(bits 31..28) is in `0x0..0xE` and every status word, `_runARM` with its
cursor on an opcode-table handler calls that handler on the opcode exactly
when the canonical ARM predicate of the field holds for the N, Z, C, V flags:
the recorded call sequence gains the pair (handler, opcode) in that case and
is unchanged otherwise. -/
theorem runARM_condition_table (isa : ISA) (endBlock : ARMCore → Nat → Option ARMCore)
    (cpu : ARMCore) (opcode index : Nat) (hfield : opcode >>> 28 ≤ 0xE)
    (hcur : currentARMInstruction cpu = some (ARMInstruction.table index)) :
    (_runARM isa endBlock cpu opcode).map (fun c => c.invoked)
      = some (if canonicalCondition (opcode >>> 28) (psrN cpu.cpsr) (psrZ cpu.cpsr)
                  (psrC cpu.cpsr) (psrV cpu.cpsr) = true
              then cpu.invoked ++ [Invocation.arm index opcode] else cpu.invoked) := by
  rw [← gate_eq_canonical cpu _ hfield]
  unfold _runARM
  by_cases h14 : opcode >>> 28 = 0xE
  · simp [h14, hcur, callARM, advanceInstruction]
  · cases hc : conditionMet cpu (opcode >>> 28) <;>
      simp [h14, hc, hcur, callARM, advanceInstruction]

/-- Witness for C5: with Z set and C clear, `BLS` (field `0x9`) runs its
handler. -/
theorem runARM_condition_table_witness :
    (0x9A000000 >>> 28 ≤ 0xE)
      ∧ currentARMInstruction (cursorCore 0x40000000) = some (ARMInstruction.table 7)
      ∧ (_runARM sampleISA (fun _ _ => none) (cursorCore 0x40000000) 0x9A000000).map
            (fun c => c.invoked)
          = some (if canonicalCondition (0x9A000000 >>> 28) (psrN (cursorCore 0x40000000).cpsr)
                      (psrZ (cursorCore 0x40000000).cpsr) (psrC (cursorCore 0x40000000).cpsr)
                      (psrV (cursorCore 0x40000000).cpsr) = true
                  then (cursorCore 0x40000000).invoked ++ [Invocation.arm 7 0x9A000000]
                  else (cursorCore 0x40000000).invoked) :=
  ⟨by decide, rfl,
    runARM_condition_table sampleISA (fun _ _ => none) (cursorCore 0x40000000) 0x9A000000 7
      (by decide) rfl⟩

/-- Counterexample to C6: with every flag clear, `_runARM` given an opcode
whose condition field is `0xF` calls no handler (it charges the prefetch
cycles and advances the cursor), while the same opcode with field `0xE`
calls the handler at the cursor. -/
theorem runARM_field_F_counterexample :
    (0xF1A00000 >>> 28 = 0xF)
      ∧ (_runARM sampleISA (fun _ _ => none) (cursorCore 0) 0xF1A00000).map
            (fun c => (c.invoked, c.cycles, c.cache.instruction))
          = some ([], 3, 1)
      ∧ (_runARM sampleISA (fun _ _ => none) (cursorCore 0) 0xE1A00000).map
            (fun c => (c.invoked, c.cycles, c.cache.instruction))
          = some ([Invocation.arm 7 0xE1A00000], 1, 1) := by
  refine ⟨by decide, ?_, ?_⟩ <;> rfl

/-- C6 (amended). For every opcode whose condition field is `0xF` and every
status word, `_runARM` calls no handler: it adds `ARM_PREFETCH_CYCLES` to the
cycle counter, advances the handler cursor by one entry and changes nothing
else, exactly as for a failed condition. -/
theorem runARM_field_F_never (isa : ISA) (endBlock : ARMCore → Nat → Option ARMCore)
    (cpu : ARMCore) (opcode : Nat) (hfield : opcode >>> 28 = 0xF) :
    _runARM isa endBlock cpu opcode
      = some { cpu with
          cycles := cpu.cycles + ARM_PREFETCH_CYCLES cpu,
          cache := { cpu.cache with instruction := cpu.cache.instruction + 1 } } := by
  unfold _runARM
  simp [hfield, conditionMet, advanceInstruction]

/-- Witness for C6 (amended): the opcode `0xF1A00000` on the concrete
machine. -/
theorem runARM_field_F_never_witness :
    (0xF1A00000 >>> 28 = 0xF)
      ∧ _runARM sampleISA (fun _ _ => none) (cursorCore 0) 0xF1A00000
          = some { cursorCore 0 with
              cycles := (cursorCore 0).cycles + ARM_PREFETCH_CYCLES (cursorCore 0),
              cache := { (cursorCore 0).cache with
                instruction := (cursorCore 0).cache.instruction + 1 } } :=
  ⟨by decide, runARM_field_F_never sampleISA (fun _ _ => none) (cursorCore 0) 0xF1A00000
    (by decide)⟩

/-! ## Block builder -/

/-- Mapping over `range (n + 1)` peels the image of `0` off the front. -/
theorem range_succ_map_shift {α : Type} (f : Nat → α) (n : Nat) :
    (List.range (n + 1)).map f = f 0 :: (List.range n).map (fun i => f (i + 1)) := by
  rw [List.range_succ_eq_map]
  simp [List.map_map, Function.comp_def]

/-- Closing phase of the Thumb builder: from `blockEnded = 4 - n` the loop
writes `n` terminators and `n` halfwords and stops. -/
theorem buildLoopThumb_closing (isa : ISA) (memory : ARMMemory) (addr : Nat) :
    ∀ (n fuel : Nat) (st : BuildThumb), 1 ≤ n → st.blockEnded + n = 4 → 1 ≤ st.blockEnded →
      n ≤ fuel →
      ∃ st', buildLoopThumb isa memory addr fuel st = some st'
        ∧ st'.ichain = st.ichain ++ List.replicate n ThumbInstruction.endBlockThumb
        ∧ st'.dchain = st.dchain
            ++ (List.range n).map (fun i => fetchThumb memory addr (st.chainUsed + i)) := by
  intro n
  induction n with
  | zero => intro fuel st h; omega
  | succ n ih =>
    intro fuel st _ hsum hpos hfuel
    obtain ⟨fuel, rfl⟩ : ∃ f, fuel = f + 1 := ⟨fuel - 1, by omega⟩
    have hne : ¬ st.blockEnded = 0 := by omega
    rw [buildLoopThumb]
    simp only [hne, if_false]
    by_cases hn : n = 0
    · subst hn
      have h3 : st.blockEnded + 1 = 4 := by omega
      simp only [h3, if_true]
      exact ⟨_, rfl, rfl, rfl⟩
    · have h3 : ¬ st.blockEnded + 1 = 4 := by omega
      simp only [h3, if_false]
      obtain ⟨st', h1, h2, h4⟩ := ih fuel
        { ichain := st.ichain ++ [ThumbInstruction.endBlockThumb],
          dchain := st.dchain ++ [fetchThumb memory addr st.chainUsed],
          chainUsed := st.chainUsed + 1,
          chainSize := if st.chainUsed = st.chainSize then st.chainSize * 2 else st.chainSize,
          blockEnded := st.blockEnded + 1 } (by omega) (by dsimp only; omega) (by dsimp only; omega)
        (by omega)
      dsimp only at h2 h4
      refine ⟨st', h1, ?_, ?_⟩
      · rw [h2]; simp [List.replicate_succ]
      · rw [h4, range_succ_map_shift]
        simp [Nat.add_assoc, Nat.add_comm 1]

/-- Live phase of the Thumb builder: when the first block-ending halfword is
`d` positions ahead, the loop writes `d + 1` table handlers, three
terminators and `d + 4` halfwords, and stops. -/
theorem buildLoopThumb_live (isa : ISA) (memory : ARMMemory) (addr : Nat) :
    ∀ (d fuel : Nat) (st : BuildThumb), st.blockEnded = 0 →
      (∀ i, i < d → ¬ endsBlock (isa.decodeThumb (fetchThumb memory addr (st.chainUsed + i)))) →
      endsBlock (isa.decodeThumb (fetchThumb memory addr (st.chainUsed + d))) →
      d + 4 ≤ fuel →
      ∃ st', buildLoopThumb isa memory addr fuel st = some st'
        ∧ st'.ichain = st.ichain
            ++ (List.range (d + 1)).map
                (fun i => ThumbInstruction.table (fetchThumb memory addr (st.chainUsed + i) >>> 6))
            ++ List.replicate 3 ThumbInstruction.endBlockThumb
        ∧ st'.dchain = st.dchain
            ++ (List.range (d + 4)).map (fun i => fetchThumb memory addr (st.chainUsed + i)) := by
  intro d
  induction d with
  | zero =>
    intro fuel st h0 _ hend hfuel
    obtain ⟨fuel, rfl⟩ : ∃ f, fuel = f + 1 := ⟨fuel - 1, by omega⟩
    rw [buildLoopThumb]
    simp only [Nat.add_zero] at hend
    have hend' := hend
    simp only [endsBlock] at hend'
    simp only [h0, if_true, hend']
    obtain ⟨st', h1, h2, h4⟩ := buildLoopThumb_closing isa memory addr 3 fuel
      { ichain := st.ichain ++ [ThumbInstruction.table (fetchThumb memory addr st.chainUsed >>> 6)],
        dchain := st.dchain ++ [fetchThumb memory addr st.chainUsed],
        chainUsed := st.chainUsed + 1,
        chainSize := if st.chainUsed = st.chainSize then st.chainSize * 2 else st.chainSize,
        blockEnded := 1 } (by omega) rfl (by dsimp only; omega) (by omega)
    dsimp only at h2 h4
    refine ⟨st', h1, ?_, ?_⟩
    · rw [h2]; simp [List.range_succ]
    · rw [h4]; simp [List.range_succ, Nat.add_assoc]
  | succ d ih =>
    intro fuel st h0 hlive hend hfuel
    obtain ⟨fuel, rfl⟩ : ∃ f, fuel = f + 1 := ⟨fuel - 1, by omega⟩
    rw [buildLoopThumb]
    have hfirst := hlive 0 (by omega)
    simp only [Nat.add_zero, endsBlock] at hfirst
    simp only [h0, if_true, hfirst, if_false]
    obtain ⟨st', h1, h2, h4⟩ := ih fuel
      { ichain := st.ichain ++ [ThumbInstruction.table (fetchThumb memory addr st.chainUsed >>> 6)],
        dchain := st.dchain ++ [fetchThumb memory addr st.chainUsed],
        chainUsed := st.chainUsed + 1,
        chainSize := if st.chainUsed = st.chainSize then st.chainSize * 2 else st.chainSize,
        blockEnded := 0 } rfl
      (by intro i hi; have := hlive (i + 1) (by omega); simpa [Nat.add_assoc, Nat.add_comm 1] using this)
      (by simpa [Nat.add_assoc, Nat.add_comm 1] using hend) (by omega)
    dsimp only at h2 h4
    refine ⟨st', h1, ?_, ?_⟩
    · rw [h2, range_succ_map_shift (n := d + 1)]
      simp [Nat.add_assoc, Nat.add_comm 1]
    · rw [h4, range_succ_map_shift (n := d + 4)]
      simp [Nat.add_assoc, Nat.add_comm 1]

/-- Tail of the ARM builder: from `blockEnded = 2` the loop stores two more
words, writes no handler and stops. -/
theorem buildLoopARM_tail (isa : ISA) (memory : ARMMemory) (addr fuel : Nat) (st : BuildARM)
    (h2 : st.blockEnded = 2) (hfuel : 2 ≤ fuel) :
    ∃ st', buildLoopARM isa memory addr fuel st = some st'
      ∧ st'.ichain = st.ichain
      ∧ st'.dchain = st.dchain
          ++ [fetchARM memory addr st.chainUsed, fetchARM memory addr (st.chainUsed + 1)] := by
  obtain ⟨fuel, rfl⟩ : ∃ f, fuel = f + 2 := ⟨fuel - 2, by omega⟩
  rw [buildLoopARM]
  simp only [h2]
  rw [buildLoopARM]
  exact ⟨_, rfl, rfl, by simp⟩

/-- Closing phase of the ARM builder: from `blockEnded = 1` the loop writes a
terminator on every word up to and including the first one whose condition
field is `0xE`, `e` positions ahead, then stores two more words. -/
theorem buildLoopARM_closing (isa : ISA) (memory : ARMMemory) (addr : Nat) :
    ∀ (e fuel : Nat) (st : BuildARM), st.blockEnded = 1 →
      (∀ i, i < e → fetchARM memory addr (st.chainUsed + i) >>> 28 ≠ 0xE) →
      fetchARM memory addr (st.chainUsed + e) >>> 28 = 0xE →
      e + 3 ≤ fuel →
      ∃ st', buildLoopARM isa memory addr fuel st = some st'
        ∧ st'.ichain = st.ichain ++ List.replicate (e + 1) ARMInstruction.endBlockARM
        ∧ st'.dchain = st.dchain
            ++ (List.range (e + 3)).map (fun i => fetchARM memory addr (st.chainUsed + i)) := by
  intro e
  induction e with
  | zero =>
    intro fuel st h1 _ hal hfuel
    obtain ⟨fuel, rfl⟩ : ∃ f, fuel = f + 1 := ⟨fuel - 1, by omega⟩
    rw [buildLoopARM]
    simp only [Nat.add_zero] at hal
    simp only [h1, hal]
    obtain ⟨st', ha, hb, hc⟩ := buildLoopARM_tail isa memory addr fuel
      { ichain := st.ichain ++ [ARMInstruction.endBlockARM],
        dchain := st.dchain ++ [fetchARM memory addr st.chainUsed],
        chainUsed := st.chainUsed + 1,
        chainSize := if st.chainUsed = st.chainSize then st.chainSize * 2 else st.chainSize,
        blockEnded := 2 } rfl (by omega)
    dsimp only at hb hc
    refine ⟨st', by simpa using ha, ?_, ?_⟩
    · rw [hb]; simp
    · rw [hc]; simp [List.range_succ, Nat.add_assoc]
  | succ e ih =>
    intro fuel st h1 hcond hal hfuel
    obtain ⟨fuel, rfl⟩ : ∃ f, fuel = f + 1 := ⟨fuel - 1, by omega⟩
    rw [buildLoopARM]
    have hfirst := hcond 0 (by omega)
    simp only [Nat.add_zero] at hfirst
    simp only [h1, hfirst]
    obtain ⟨st', ha, hb, hc⟩ := ih fuel
      { ichain := st.ichain ++ [ARMInstruction.endBlockARM],
        dchain := st.dchain ++ [fetchARM memory addr st.chainUsed],
        chainUsed := st.chainUsed + 1,
        chainSize := if st.chainUsed = st.chainSize then st.chainSize * 2 else st.chainSize,
        blockEnded := 1 } rfl
      (by intro i hi; have := hcond (i + 1) (by omega); simpa [Nat.add_assoc, Nat.add_comm 1] using this)
      (by simpa [Nat.add_assoc, Nat.add_comm 1] using hal) (by omega)
    dsimp only at hb hc
    refine ⟨st', by simpa using ha, ?_, ?_⟩
    · rw [hb]; simp [List.replicate_succ]
    · rw [hc, show e + 1 + 3 = (e + 3) + 1 by omega, range_succ_map_shift (n := e + 3)]
      simp [Nat.add_assoc, Nat.add_comm 1]

/-- Live phase of the ARM builder: when the first block-ending word is `d`
positions ahead and the first later word with condition field `0xE` is
`e` positions after it, the loop writes `d + 1` table handlers, `e + 1`
terminators and `d + e + 4` words, and stops. -/
theorem buildLoopARM_live (isa : ISA) (memory : ARMMemory) (addr e : Nat) :
    ∀ (d fuel : Nat) (st : BuildARM), st.blockEnded = 0 →
      (∀ i, i < d → ¬ endsBlock (isa.decodeARM (fetchARM memory addr (st.chainUsed + i)))) →
      endsBlock (isa.decodeARM (fetchARM memory addr (st.chainUsed + d))) →
      (∀ i, i < e → fetchARM memory addr (st.chainUsed + d + 1 + i) >>> 28 ≠ 0xE) →
      fetchARM memory addr (st.chainUsed + d + 1 + e) >>> 28 = 0xE →
      d + e + 4 ≤ fuel →
      ∃ st', buildLoopARM isa memory addr fuel st = some st'
        ∧ st'.ichain = st.ichain
            ++ (List.range (d + 1)).map
                (fun i => ARMInstruction.table (armTableIndex (fetchARM memory addr (st.chainUsed + i))))
            ++ List.replicate (e + 1) ARMInstruction.endBlockARM
        ∧ st'.dchain = st.dchain
            ++ (List.range (d + e + 4)).map (fun i => fetchARM memory addr (st.chainUsed + i)) := by
  intro d
  induction d with
  | zero =>
    intro fuel st h0 _ hend hcond hal hfuel
    obtain ⟨fuel, rfl⟩ : ∃ f, fuel = f + 1 := ⟨fuel - 1, by omega⟩
    rw [buildLoopARM]
    simp only [Nat.add_zero] at hend hcond hal
    have hend' := hend
    simp only [endsBlock] at hend'
    simp only [h0, if_true, hend']
    obtain ⟨st', ha, hb, hc⟩ := buildLoopARM_closing isa memory addr e fuel
      { ichain := st.ichain ++ [ARMInstruction.table (armTableIndex (fetchARM memory addr st.chainUsed))],
        dchain := st.dchain ++ [fetchARM memory addr st.chainUsed],
        chainUsed := st.chainUsed + 1,
        chainSize := if st.chainUsed = st.chainSize then st.chainSize * 2 else st.chainSize,
        blockEnded := 1 } rfl hcond hal (by omega)
    dsimp only at hb hc
    refine ⟨st', ha, ?_, ?_⟩
    · rw [hb]; simp [List.range_succ]
    · rw [hc, show 0 + e + 4 = (e + 3) + 1 by omega, range_succ_map_shift (n := e + 3)]
      simp [Nat.add_assoc, Nat.add_comm 1]
  | succ d ih =>
    intro fuel st h0 hlive hend hcond hal hfuel
    obtain ⟨fuel, rfl⟩ : ∃ f, fuel = f + 1 := ⟨fuel - 1, by omega⟩
    rw [buildLoopARM]
    have hfirst := hlive 0 (by omega)
    simp only [Nat.add_zero, endsBlock] at hfirst
    simp only [h0, if_true, hfirst, if_false]
    obtain ⟨st', ha, hb, hc⟩ := ih fuel
      { ichain := st.ichain ++ [ARMInstruction.table (armTableIndex (fetchARM memory addr st.chainUsed))],
        dchain := st.dchain ++ [fetchARM memory addr st.chainUsed],
        chainUsed := st.chainUsed + 1,
        chainSize := if st.chainUsed = st.chainSize then st.chainSize * 2 else st.chainSize,
        blockEnded := 0 } rfl
      (by intro i hi; have := hlive (i + 1) (by omega); simpa [Nat.add_assoc, Nat.add_comm 1] using this)
      (by simpa [Nat.add_assoc, Nat.add_comm 1] using hend)
      (by intro i hi; have := hcond i hi; simpa [Nat.add_assoc, Nat.add_comm 1, Nat.add_left_comm] using this)
      (by simpa [Nat.add_assoc, Nat.add_comm 1, Nat.add_left_comm] using hal) (by omega)
    dsimp only at hb hc
    refine ⟨st', ha, ?_, ?_⟩
    · rw [hb, range_succ_map_shift (n := d + 1)]
      simp [Nat.add_assoc, Nat.add_comm 1]
    · rw [hc, show d + 1 + e + 4 = (d + e + 4) + 1 by omega, range_succ_map_shift (n := d + e + 4)]
      simp [Nat.add_assoc, Nat.add_comm 1]

/-- On a miss, `ARMCacheFindBlockARM` appends the built block to the arena,
inserts it under `addr >> 2` and puts the cursor at its start. -/
theorem findBlockARM_miss (isa : ISA) (fuel : Nat) (cpu : ARMCore) (addr : Nat) (st : BuildARM)
    (hmiss : TableLookup cpu.cache.armCache (addr >>> 2) = none)
    (hbuild : buildLoopARM isa cpu.memory addr fuel BuildARM.init = some st) :
    ARMCacheFindBlockARM isa fuel cpu addr
      = some (setCursor
          { cpu with cache := { cpu.cache with
              blocks := cpu.cache.blocks ++
                [{ chains := BlockChains.arm { instruction := st.ichain, data := st.dchain },
                   nextBlock := none, branch := none, branchAddress := 0xFFFFFFFF }],
              armCache := TableInsert cpu.cache.armCache (addr >>> 2) cpu.cache.blocks.length } }
          cpu.cache.blocks.length) := by
  unfold ARMCacheFindBlockARM
  rw [hmiss]
  simp only [hbuild]

/-- On a miss, `ARMCacheFindBlockThumb` appends the built block to the arena,
inserts it under `addr >> 1` and puts the cursor at its start. -/
theorem findBlockThumb_miss (isa : ISA) (fuel : Nat) (cpu : ARMCore) (addr : Nat)
    (st : BuildThumb)
    (hmiss : TableLookup cpu.cache.thumbCache (addr >>> 1) = none)
    (hbuild : buildLoopThumb isa cpu.memory addr fuel BuildThumb.init = some st) :
    ARMCacheFindBlockThumb isa fuel cpu addr
      = some (setCursor
          { cpu with cache := { cpu.cache with
              blocks := cpu.cache.blocks ++
                [{ chains := BlockChains.thumb { instruction := st.ichain, data := st.dchain },
                   nextBlock := none, branch := none, branchAddress := 0xFFFFFFFF }],
              thumbCache :=
                TableInsert cpu.cache.thumbCache (addr >>> 1) cpu.cache.blocks.length } }
          cpu.cache.blocks.length) := by
  unfold ARMCacheFindBlockThumb
  rw [hmiss]
  simp only [hbuild]

/-- The block under the cursor after a block was appended to the arena and
the cursor set to it. -/
theorem currentBlock_appended (cpu : ARMCore) (cache : ARMCache) (blocks : List ARMCacheBlock)
    (b : ARMCacheBlock) (h : cache.blocks = blocks ++ [b]) :
    currentBlock (setCursor { cpu with cache := cache } blocks.length) = some b := by
  simp [currentBlock, setCursor, h]

/-- Counterexample to C7: words at `0x1000`, `0x1004` that are neither
branch-type nor trap, an unconditional branch at `0x1008` and an
always-executed word at `0x100C`.  The block built by
`ARMCacheFindBlockARM(cpu, 0x1000)` has four handler entries, three table
handlers and one terminator, not six. -/
theorem findBlockARM_six_counterexample :
    ¬ endsBlock (sampleISA.decodeARM (fetchARM (sampleCore branchThenAlways 0).memory 0x1000 0))
      ∧ ¬ endsBlock
          (sampleISA.decodeARM (fetchARM (sampleCore branchThenAlways 0).memory 0x1000 1))
      ∧ endsBlock (sampleISA.decodeARM (fetchARM (sampleCore branchThenAlways 0).memory 0x1000 2))
      ∧ fetchARM (sampleCore branchThenAlways 0).memory 0x1000 2 >>> 28 = 0xE
      ∧ ((ARMCacheFindBlockARM sampleISA 16 (sampleCore branchThenAlways 0) 0x1000).bind
            currentBlock).map (fun b => b.chains)
          = some (BlockChains.arm
              { instruction := [ARMInstruction.table 416, ARMInstruction.table 640,
                  ARMInstruction.table 2561, ARMInstruction.endBlockARM],
                data := [0xE1A00000, 0xE2800001, 0xEA000010, 0xE1A00000, 0xE1A00000,
                  0xE1A00000] }) := by
  refine ⟨by decide, by decide, by decide, by decide, ?_⟩
  rfl

/-- C7 (amended). ARM block shape: when the words fetched at positions 0 and 1
of the block entered at `0x1000` are neither branch-type nor trap, the word at
position 2 is branch-type or trap, and position `3 + e` is the first one after
it whose word has condition field `0xE`, the block built by
`ARMCacheFindBlockARM(cpu, 0x1000)` holds the 3 table handlers of the real
instructions followed by exactly `e + 1` terminators, and `e + 6` opcode
words; the handler sequence has 6 entries exactly when `e = 2`. -/
theorem findBlockARM_shape (isa : ISA) (cpu : ARMCore) (fuel e : Nat)
    (hmiss : TableLookup cpu.cache.armCache (0x1000 >>> 2) = none)
    (h0 : ¬ endsBlock (isa.decodeARM (fetchARM cpu.memory 0x1000 0)))
    (h1 : ¬ endsBlock (isa.decodeARM (fetchARM cpu.memory 0x1000 1)))
    (h2 : endsBlock (isa.decodeARM (fetchARM cpu.memory 0x1000 2)))
    (hcond : ∀ i, i < e → fetchARM cpu.memory 0x1000 (3 + i) >>> 28 ≠ 0xE)
    (hal : fetchARM cpu.memory 0x1000 (3 + e) >>> 28 = 0xE)
    (hfuel : e + 6 ≤ fuel) :
    ∃ cpu', ARMCacheFindBlockARM isa fuel cpu 0x1000 = some cpu'
      ∧ currentBlock cpu' = some
          { chains := BlockChains.arm
              { instruction :=
                  [ARMInstruction.table (armTableIndex (fetchARM cpu.memory 0x1000 0)),
                    ARMInstruction.table (armTableIndex (fetchARM cpu.memory 0x1000 1)),
                    ARMInstruction.table (armTableIndex (fetchARM cpu.memory 0x1000 2))]
                  ++ List.replicate (e + 1) ARMInstruction.endBlockARM,
                data := (List.range (e + 6)).map (fun i => fetchARM cpu.memory 0x1000 i) },
            nextBlock := none, branch := none, branchAddress := 0xFFFFFFFF }
      ∧ (3 + (e + 1) = 6 ↔ e = 2) := by
  obtain ⟨st', ha, hb, hc⟩ := buildLoopARM_live isa cpu.memory 0x1000 e 2 fuel BuildARM.init rfl
    (by
      intro i hi
      have hi' : i = 0 ∨ i = 1 := by omega
      rcases hi' with rfl | rfl
      · simpa [BuildARM.init] using h0
      · simpa [BuildARM.init] using h1)
    (by simpa [BuildARM.init] using h2)
    (by intro i hi; simpa [BuildARM.init] using hcond i hi)
    (by simpa [BuildARM.init] using hal) (by omega)
  simp only [BuildARM.init, List.nil_append, Nat.zero_add] at hb hc
  refine ⟨_, findBlockARM_miss isa fuel cpu 0x1000 st' hmiss ha, ?_, by omega⟩
  rw [currentBlock_appended _ _ _ _ rfl, hb, hc, show 2 + e + 4 = e + 6 by omega]
  simp [List.range_succ]

/-- Witness for C7 (amended): the program `branchThenConditional`, whose block
at `0x1000` has `e = 2` and so six handler entries. -/
theorem findBlockARM_shape_witness :
    ∃ cpu', ARMCacheFindBlockARM sampleISA 16 (sampleCore branchThenConditional 0) 0x1000
        = some cpu'
      ∧ currentBlock cpu' = some
          { chains := BlockChains.arm
              { instruction :=
                  [ARMInstruction.table (armTableIndex
                      (fetchARM (sampleCore branchThenConditional 0).memory 0x1000 0)),
                    ARMInstruction.table (armTableIndex
                      (fetchARM (sampleCore branchThenConditional 0).memory 0x1000 1)),
                    ARMInstruction.table (armTableIndex
                      (fetchARM (sampleCore branchThenConditional 0).memory 0x1000 2))]
                  ++ List.replicate (2 + 1) ARMInstruction.endBlockARM,
                data := (List.range (2 + 6)).map
                  (fun i => fetchARM (sampleCore branchThenConditional 0).memory 0x1000 i) },
            nextBlock := none, branch := none, branchAddress := 0xFFFFFFFF }
      ∧ (3 + (2 + 1) = 6 ↔ 2 = 2) :=
  findBlockARM_shape sampleISA (sampleCore branchThenConditional 0) 16 2 rfl (by decide)
    (by decide) (by decide)
    (by
      intro i hi
      have hi' : i = 0 ∨ i = 1 := by omega
      rcases hi' with rfl | rfl <;> decide)
    (by decide) (by decide)

/-- C8. Thumb block shape: when the first halfword classified as branch-type
or trap, counting from the entry address, is at index `k`, the block built by
`ARMCacheFindBlockThumb` has exactly `k + 4` (handler, opcode) pairs: the
handler of entry `i ≤ k` is `_thumbTable[opcode_i >> 6]`, the handlers of
entries `k + 1 .. k + 3` are the terminator, and the opcode of every entry
`i ≤ k + 3` is the halfword read at `(addr + 2 * i) & activeMask`. -/
theorem findBlockThumb_shape (isa : ISA) (cpu : ARMCore) (addr fuel k : Nat)
    (hmiss : TableLookup cpu.cache.thumbCache (addr >>> 1) = none)
    (hlive : ∀ i, i < k → ¬ endsBlock (isa.decodeThumb (fetchThumb cpu.memory addr i)))
    (hend : endsBlock (isa.decodeThumb (fetchThumb cpu.memory addr k)))
    (hfuel : k + 4 ≤ fuel) :
    ∃ cpu' chains, ARMCacheFindBlockThumb isa fuel cpu addr = some cpu'
      ∧ currentBlock cpu' = some
          { chains := BlockChains.thumb chains,
            nextBlock := none, branch := none, branchAddress := 0xFFFFFFFF }
      ∧ chains.instruction
          = (List.range (k + 1)).map
              (fun i => ThumbInstruction.table (fetchThumb cpu.memory addr i >>> 6))
            ++ List.replicate 3 ThumbInstruction.endBlockThumb
      ∧ chains.data
          = (List.range (k + 4)).map
              (fun i => LOAD_16 cpu.memory.activeRegion
                ((addr + 2 * i) &&& cpu.memory.activeMask))
      ∧ chains.instruction.length = k + 4 ∧ chains.data.length = k + 4 := by
  obtain ⟨st', ha, hb, hc⟩ := buildLoopThumb_live isa cpu.memory addr k fuel BuildThumb.init rfl
    (by intro i hi; simpa [BuildThumb.init] using hlive i hi)
    (by simpa [BuildThumb.init] using hend) hfuel
  simp only [BuildThumb.init, List.nil_append, Nat.zero_add] at hb hc
  refine ⟨_, { instruction := st'.ichain, data := st'.dchain },
    findBlockThumb_miss isa fuel cpu addr st' hmiss ha, currentBlock_appended _ _ _ _ rfl, hb,
    ?_, ?_, ?_⟩
  · rw [hc]; rfl
  · simp [hb]
  · simp [hc]

/-- Witness for C8: the program `thumbProgram`, whose first branch-type
halfword from `0x2000` is at index 2. -/
theorem findBlockThumb_shape_witness :
    ∃ cpu' chains, ARMCacheFindBlockThumb sampleISA 16 (sampleCore thumbProgram 0) 0x2000
        = some cpu'
      ∧ currentBlock cpu' = some
          { chains := BlockChains.thumb chains,
            nextBlock := none, branch := none, branchAddress := 0xFFFFFFFF }
      ∧ chains.instruction
          = (List.range (2 + 1)).map
              (fun i => ThumbInstruction.table
                (fetchThumb (sampleCore thumbProgram 0).memory 0x2000 i >>> 6))
            ++ List.replicate 3 ThumbInstruction.endBlockThumb
      ∧ chains.data
          = (List.range (2 + 4)).map
              (fun i => LOAD_16 (sampleCore thumbProgram 0).memory.activeRegion
                ((0x2000 + 2 * i) &&& (sampleCore thumbProgram 0).memory.activeMask))
      ∧ chains.instruction.length = 2 + 4 ∧ chains.data.length = 2 + 4 :=
  findBlockThumb_shape sampleISA (sampleCore thumbProgram 0) 0x2000 16 2 rfl
    (by
      intro i hi
      have hi' : i = 0 ∨ i = 1 := by omega
      rcases hi' with rfl | rfl <;> decide)
    (by decide) (by decide)

/-- What a successful `ARMCacheFindBlockARM` leaves: a current block that is
the table's entry for the address, cursors at its start, and every field
outside the cache, the Thumb table and the earlier arena entries as before. -/
theorem findBlockARM_result (isa : ISA) (fuel : Nat) (cpu cpu1 : ARMCore) (addr : Nat)
    (h : ARMCacheFindBlockARM isa fuel cpu addr = some cpu1) :
    ∃ b, cpu1.cache.block = some b
      ∧ TableLookup cpu1.cache.armCache (addr >>> 2) = some b
      ∧ cpu1.cache.instruction = 0 ∧ cpu1.cache.data = 0
      ∧ cpu1.cache.thumbCache = cpu.cache.thumbCache
      ∧ cpu1 = { cpu with cache := cpu1.cache }
      ∧ (∀ (i : Nat) (x : ARMCacheBlock), cpu.cache.blocks[i]? = some x → cpu1.cache.blocks[i]? = some x) := by
  unfold ARMCacheFindBlockARM at h
  cases hl : TableLookup cpu.cache.armCache (addr >>> 2) with
  | some b =>
    rw [hl] at h
    simp only [Option.some.injEq] at h
    subst h
    exact ⟨b, rfl, hl, rfl, rfl, rfl, rfl, fun i x hx => hx⟩
  | none =>
    rw [hl] at h
    cases hbuild : buildLoopARM isa cpu.memory addr fuel BuildARM.init with
    | none => simp [hbuild] at h
    | some st =>
      simp only [hbuild, Option.some.injEq] at h
      subst h
      refine ⟨cpu.cache.blocks.length, rfl, ?_, rfl, rfl, rfl, rfl, ?_⟩
      · simp [setCursor, TableLookup, TableInsert]
      · intro i x hx
        have hi : i < cpu.cache.blocks.length := by
          rcases Nat.lt_or_ge i cpu.cache.blocks.length with hlt | hge
          · exact hlt
          · rw [List.getElem?_eq_none hge] at hx; cases hx
        simp [setCursor, List.getElem?_append_left hi, hx]

/-- What a successful `ARMCacheFindBlockThumb` leaves. -/
theorem findBlockThumb_result (isa : ISA) (fuel : Nat) (cpu cpu1 : ARMCore) (addr : Nat)
    (h : ARMCacheFindBlockThumb isa fuel cpu addr = some cpu1) :
    ∃ b, cpu1.cache.block = some b
      ∧ TableLookup cpu1.cache.thumbCache (addr >>> 1) = some b
      ∧ cpu1.cache.instruction = 0 ∧ cpu1.cache.data = 0
      ∧ cpu1.cache.armCache = cpu.cache.armCache
      ∧ cpu1 = { cpu with cache := cpu1.cache }
      ∧ (∀ (i : Nat) (x : ARMCacheBlock), cpu.cache.blocks[i]? = some x → cpu1.cache.blocks[i]? = some x) := by
  unfold ARMCacheFindBlockThumb at h
  cases hl : TableLookup cpu.cache.thumbCache (addr >>> 1) with
  | some b =>
    rw [hl] at h
    simp only [Option.some.injEq] at h
    subst h
    exact ⟨b, rfl, hl, rfl, rfl, rfl, rfl, fun i x hx => hx⟩
  | none =>
    rw [hl] at h
    cases hbuild : buildLoopThumb isa cpu.memory addr fuel BuildThumb.init with
    | none => simp [hbuild] at h
    | some st =>
      simp only [hbuild, Option.some.injEq] at h
      subst h
      refine ⟨cpu.cache.blocks.length, rfl, ?_, rfl, rfl, rfl, rfl, ?_⟩
      · simp [setCursor, TableLookup, TableInsert]
      · intro i x hx
        have hi : i < cpu.cache.blocks.length := by
          rcases Nat.lt_or_ge i cpu.cache.blocks.length with hlt | hge
          · exact hlt
          · rw [List.getElem?_eq_none hge] at hx; cases hx
        simp [setCursor, List.getElem?_append_left hi, hx]

/-- Setting the cursor to the start of the block it is already at the start
of changes nothing. -/
theorem setCursor_self (cpu : ARMCore) (b : Nat) (h1 : cpu.cache.block = some b)
    (h2 : cpu.cache.instruction = 0) (h3 : cpu.cache.data = 0) : setCursor cpu b = cpu := by
  obtain ⟨gprs, cpsr, spsr, cycles, nextEvent, br, bs, prefetch, em, pm, memory, cache, inv⟩ := cpu
  obtain ⟨block, instruction, data, armCache, thumbCache, active, blocks⟩ := cache
  simp only at h1 h2 h3
  subst h1 h2 h3
  rfl

/-- A hit of `ARMCacheFindBlockARM` only moves the cursor. -/
theorem findBlockARM_hit (isa : ISA) (fuel : Nat) (cpu : ARMCore) (addr b : Nat)
    (h : TableLookup cpu.cache.armCache (addr >>> 2) = some b) :
    ARMCacheFindBlockARM isa fuel cpu addr = some (setCursor cpu b) := by
  unfold ARMCacheFindBlockARM
  rw [h]

/-- A hit of `ARMCacheFindBlockThumb` only moves the cursor. -/
theorem findBlockThumb_hit (isa : ISA) (fuel : Nat) (cpu : ARMCore) (addr b : Nat)
    (h : TableLookup cpu.cache.thumbCache (addr >>> 1) = some b) :
    ARMCacheFindBlockThumb isa fuel cpu addr = some (setCursor cpu b) := by
  unfold ARMCacheFindBlockThumb
  rw [h]

/-- `ARMCacheFindBlockARM` returns when the table holds the address, and also
when the stream entered at the address has its first block-ending word at `k`
and its first later word with condition field `0xE` at `m`, with `m + 3`
units of fuel for the build loop. -/
theorem findBlockARM_returns (isa : ISA) (fuel : Nat) (cpu : ARMCore) (addr k m : Nat)
    (h : TableLookup cpu.cache.armCache (addr >>> 2) ≠ none
      ∨ (FirstEndARM isa cpu.memory addr k ∧ k < m
          ∧ (∀ j, k < j → j < m → fetchARM cpu.memory addr j >>> 28 ≠ 0xE)
          ∧ fetchARM cpu.memory addr m >>> 28 = 0xE ∧ m + 3 ≤ fuel)) :
    ∃ cpu1, ARMCacheFindBlockARM isa fuel cpu addr = some cpu1 := by
  cases hl : TableLookup cpu.cache.armCache (addr >>> 2) with
  | some x => exact ⟨_, findBlockARM_hit isa fuel cpu addr x hl⟩
  | none =>
    rcases h with h | ⟨hfirst, hkm, hcond, hal, hfuel⟩
    · exact absurd hl h
    · obtain ⟨e, rfl⟩ : ∃ e, m = k + 1 + e := ⟨m - k - 1, by omega⟩
      obtain ⟨st, ha, _, _⟩ := buildLoopARM_live isa cpu.memory addr e k fuel BuildARM.init rfl
        (by intro i hi; simpa [BuildARM.init] using hfirst.1 i hi)
        (by simpa [BuildARM.init] using hfirst.2)
        (by
          intro i hi
          simpa [BuildARM.init] using hcond (k + 1 + i) (by omega) (by omega))
        (by simpa [BuildARM.init] using hal) (by omega)
      exact ⟨_, findBlockARM_miss isa fuel cpu addr st hl ha⟩

/-- `ARMCacheFindBlockThumb` returns when the table holds the address, and
also when the stream entered at the address has its first block-ending
halfword at `k`, with `k + 4` units of fuel for the build loop. -/
theorem findBlockThumb_returns (isa : ISA) (fuel : Nat) (cpu : ARMCore) (addr k : Nat)
    (h : TableLookup cpu.cache.thumbCache (addr >>> 1) ≠ none
      ∨ (FirstEndThumb isa cpu.memory addr k ∧ k + 4 ≤ fuel)) :
    ∃ cpu1, ARMCacheFindBlockThumb isa fuel cpu addr = some cpu1 := by
  cases hl : TableLookup cpu.cache.thumbCache (addr >>> 1) with
  | some x => exact ⟨_, findBlockThumb_hit isa fuel cpu addr x hl⟩
  | none =>
    rcases h with h | ⟨hfirst, hfuel⟩
    · exact absurd hl h
    · obtain ⟨st, ha, _, _⟩ := buildLoopThumb_live isa cpu.memory addr k fuel BuildThumb.init rfl
        (by intro i hi; simpa [BuildThumb.init] using hfirst.1 i hi)
        (by simpa [BuildThumb.init] using hfirst.2) hfuel
      exact ⟨_, findBlockThumb_miss isa fuel cpu addr st hl ha⟩

/-- The block a returned `ARMCacheFindBlockARM` selects: the table's entry on
a hit, the next free arena slot on a miss. -/
theorem findBlockARM_selected (isa : ISA) (fuel : Nat) (cpu cpu1 : ARMCore) (addr : Nat)
    (h : ARMCacheFindBlockARM isa fuel cpu addr = some cpu1) :
    (∀ x, TableLookup cpu.cache.armCache (addr >>> 2) = some x →
        cpu1.cache.block = some x ∧ cpu1.cache.armCache = cpu.cache.armCache
          ∧ cpu1.cache.blocks = cpu.cache.blocks)
      ∧ (TableLookup cpu.cache.armCache (addr >>> 2) = none →
        cpu1.cache.block = some cpu.cache.blocks.length
          ∧ cpu1.cache.blocks.length = cpu.cache.blocks.length + 1) := by
  unfold ARMCacheFindBlockARM at h
  cases hl : TableLookup cpu.cache.armCache (addr >>> 2) with
  | some b =>
    rw [hl] at h
    simp only [Option.some.injEq] at h
    subst h
    constructor
    · intro x hx
      cases hx
      exact ⟨rfl, rfl, rfl⟩
    · intro hn
      cases hn
  | none =>
    rw [hl] at h
    cases hbuild : buildLoopARM isa cpu.memory addr fuel BuildARM.init with
    | none => simp [hbuild] at h
    | some st =>
      simp only [hbuild, Option.some.injEq] at h
      subst h
      constructor
      · intro x hx
        cases hx
      · intro _
        exact ⟨rfl, by simp [setCursor]⟩

/-- The block a returned `ARMCacheFindBlockThumb` selects. -/
theorem findBlockThumb_selected (isa : ISA) (fuel : Nat) (cpu cpu1 : ARMCore) (addr : Nat)
    (h : ARMCacheFindBlockThumb isa fuel cpu addr = some cpu1) :
    (∀ x, TableLookup cpu.cache.thumbCache (addr >>> 1) = some x →
        cpu1.cache.block = some x ∧ cpu1.cache.thumbCache = cpu.cache.thumbCache
          ∧ cpu1.cache.blocks = cpu.cache.blocks)
      ∧ (TableLookup cpu.cache.thumbCache (addr >>> 1) = none →
        cpu1.cache.block = some cpu.cache.blocks.length
          ∧ cpu1.cache.blocks.length = cpu.cache.blocks.length + 1) := by
  unfold ARMCacheFindBlockThumb at h
  cases hl : TableLookup cpu.cache.thumbCache (addr >>> 1) with
  | some b =>
    rw [hl] at h
    simp only [Option.some.injEq] at h
    subst h
    constructor
    · intro x hx
      cases hx
      exact ⟨rfl, rfl, rfl⟩
    · intro hn
      cases hn
  | none =>
    rw [hl] at h
    cases hbuild : buildLoopThumb isa cpu.memory addr fuel BuildThumb.init with
    | none => simp [hbuild] at h
    | some st =>
      simp only [hbuild, Option.some.injEq] at h
      subst h
      constructor
      · intro x hx
        cases hx
      · intro _
        exact ⟨rfl, by simp [setCursor]⟩

/-- C9. findBlock is idempotent on a hit, for each address space on its own.
Once `ARMCacheFindBlockARM(cpu, a)` has returned, a call for the same address,
in any later state with the same ARM table, whatever guest memory holds and
with no fuel for a build, returns with both tables and the arena unchanged,
the current block the one the first call selected and both cursors at its
start; in particular the call repeated on the state the first one left
returns that very state; and the first call left the Thumb table as it was.
The same holds for `ARMCacheFindBlockThumb`, with the tables exchanged. -/
theorem findBlock_hit_idempotent (isa : ISA) (fuel addr : Nat) (cpu : ARMCore) :
    (∀ cpuA : ARMCore, ARMCacheFindBlockARM isa fuel cpu addr = some cpuA →
        (∀ (fuel2 : Nat) (cpu2 : ARMCore), cpu2.cache.armCache = cpuA.cache.armCache →
          ARMCacheFindBlockARM isa fuel2 cpu2 addr
            = some { cpu2 with cache := { cpu2.cache with
                block := cpuA.cache.block, instruction := 0, data := 0 } })
        ∧ (∀ fuel2 : Nat, ARMCacheFindBlockARM isa fuel2 cpuA addr = some cpuA)
        ∧ cpuA.cache.thumbCache = cpu.cache.thumbCache)
      ∧ (∀ cpuT : ARMCore, ARMCacheFindBlockThumb isa fuel cpu addr = some cpuT →
        (∀ (fuel2 : Nat) (cpu2 : ARMCore), cpu2.cache.thumbCache = cpuT.cache.thumbCache →
          ARMCacheFindBlockThumb isa fuel2 cpu2 addr
            = some { cpu2 with cache := { cpu2.cache with
                block := cpuT.cache.block, instruction := 0, data := 0 } })
        ∧ (∀ fuel2 : Nat, ARMCacheFindBlockThumb isa fuel2 cpuT addr = some cpuT)
        ∧ cpuT.cache.armCache = cpu.cache.armCache) := by
  constructor
  · intro cpuA hA
    obtain ⟨a, ha1, ha2, ha3, ha4, ha5, _, _⟩ := findBlockARM_result isa fuel cpu cpuA addr hA
    refine ⟨?_, ?_, ha5⟩
    · intro fuel2 cpu2 h2
      rw [findBlockARM_hit isa fuel2 cpu2 addr a (by rw [h2]; exact ha2), ha1]
      rfl
    · intro fuel2
      rw [findBlockARM_hit isa fuel2 cpuA addr a ha2, setCursor_self cpuA a ha1 ha3 ha4]
  · intro cpuT hT
    obtain ⟨t, ht1, ht2, ht3, ht4, ht5, _, _⟩ := findBlockThumb_result isa fuel cpu cpuT addr hT
    refine ⟨?_, ?_, ht5⟩
    · intro fuel2 cpu2 h2
      rw [findBlockThumb_hit isa fuel2 cpu2 addr t (by rw [h2]; exact ht2), ht1]
      rfl
    · intro fuel2
      rw [findBlockThumb_hit isa fuel2 cpuT addr t ht2, setCursor_self cpuT t ht1 ht3 ht4]

/-- Witness for C9: the ARM lookup of `0x1000` on the image `trapRegion`,
where the Thumb lookup of the same address does not return on the same fuel,
and the Thumb lookup of `0x1000` on the program `twoBlocks`. -/
theorem findBlock_hit_idempotent_witness :
    ARMCacheFindBlockThumb sampleISA 16 (sampleCore trapRegion 0) 0x1000 = none
    ∧ (∃ cpuA,
      ARMCacheFindBlockARM sampleISA 16 (sampleCore trapRegion 0) 0x1000 = some cpuA
      ∧ (∀ (fuel2 : Nat) (cpu2 : ARMCore), cpu2.cache.armCache = cpuA.cache.armCache →
          ARMCacheFindBlockARM sampleISA fuel2 cpu2 0x1000
            = some { cpu2 with cache := { cpu2.cache with
                block := cpuA.cache.block, instruction := 0, data := 0 } })
      ∧ (∀ fuel2 : Nat, ARMCacheFindBlockARM sampleISA fuel2 cpuA 0x1000 = some cpuA)
      ∧ cpuA.cache.thumbCache = (sampleCore trapRegion 0).cache.thumbCache)
    ∧ (∃ cpuT,
      ARMCacheFindBlockThumb sampleISA 16 (sampleCore twoBlocks 0) 0x1000 = some cpuT
      ∧ (∀ (fuel2 : Nat) (cpu2 : ARMCore), cpu2.cache.thumbCache = cpuT.cache.thumbCache →
          ARMCacheFindBlockThumb sampleISA fuel2 cpu2 0x1000
            = some { cpu2 with cache := { cpu2.cache with
                block := cpuT.cache.block, instruction := 0, data := 0 } })
      ∧ (∀ fuel2 : Nat, ARMCacheFindBlockThumb sampleISA fuel2 cpuT 0x1000 = some cpuT)
      ∧ cpuT.cache.armCache = (sampleCore twoBlocks 0).cache.armCache) := by
  have hfindA : ∃ c, ARMCacheFindBlockARM sampleISA 16 (sampleCore trapRegion 0) 0x1000
      = some c := ⟨_, rfl⟩
  have hfindT : ∃ c, ARMCacheFindBlockThumb sampleISA 16 (sampleCore twoBlocks 0) 0x1000
      = some c := ⟨_, rfl⟩
  obtain ⟨cpuA, hA⟩ := hfindA
  obtain ⟨cpuT, hT⟩ := hfindT
  exact ⟨rfl, ⟨cpuA, hA,
      (findBlock_hit_idempotent sampleISA 16 0x1000 (sampleCore trapRegion 0)).1 cpuA hA⟩,
    ⟨cpuT, hT,
      (findBlock_hit_idempotent sampleISA 16 0x1000 (sampleCore twoBlocks 0)).2 cpuT hT⟩⟩

/-- The arena entry `setNextBlock` writes. -/
theorem setNextBlock_entry (cpu : ARMCore) (b : Nat) (blk : ARMCacheBlock) (next : Option Nat)
    (hblk : cpu.cache.blocks[b]? = some blk) :
    setNextBlock cpu b next
      = { cpu with cache := { cpu.cache with
            blocks := cpu.cache.blocks.set b { blk with nextBlock := next } } } := by
  unfold setNextBlock
  rw [hblk]

/-- The state `_endBlockARM` hands to `_runARM` after a lookup that returned
`cpu1` from `cpu`, whose current block `b` had no successor. -/
theorem successor_state (cpu cpu1 : ARMCore) (b next : Nat) (blk : ARMCacheBlock)
    (hblk : cpu.cache.blocks[b]? = some blk)
    (h1 : cpu1.cache.block = some next)
    (h3 : cpu1.cache.instruction = 0) (h4 : cpu1.cache.data = 0)
    (h6 : cpu1 = { cpu with cache := cpu1.cache })
    (h7 : ∀ (i : Nat) (x : ARMCacheBlock), cpu.cache.blocks[i]? = some x →
      cpu1.cache.blocks[i]? = some x) :
    ((advanceData (setNextBlock cpu1 b cpu1.cache.block) 3).cache.blocks[b]?).map
        (fun x => x.nextBlock) = some (some next)
      ∧ (advanceData (setNextBlock cpu1 b cpu1.cache.block) 3).cache.block = some next
      ∧ (advanceData (setNextBlock cpu1 b cpu1.cache.block) 3).cache.instruction = 0
      ∧ (advanceData (setNextBlock cpu1 b cpu1.cache.block) 3).cache.data = 3
      ∧ (advanceData (setNextBlock cpu1 b cpu1.cache.block) 3).cache.armCache
          = cpu1.cache.armCache
      ∧ (advanceData (setNextBlock cpu1 b cpu1.cache.block) 3).cache.thumbCache
          = cpu1.cache.thumbCache
      ∧ advanceData (setNextBlock cpu1 b cpu1.cache.block) 3
          = { cpu with cache := (advanceData (setNextBlock cpu1 b cpu1.cache.block) 3).cache } := by
  have hblk1 := h7 b blk hblk
  have hlt : b < cpu1.cache.blocks.length := by
    rcases Nat.lt_or_ge b cpu1.cache.blocks.length with hlt | hge
    · exact hlt
    · rw [List.getElem?_eq_none hge] at hblk1; cases hblk1
  rw [setNextBlock_entry cpu1 b blk _ hblk1]
  refine ⟨?_, h1, h3, ?_, rfl, rfl, ?_⟩
  · rw [h1]; simp [advanceData, hlt]
  · simp [advanceData, h4]
  · conv_lhs => rw [h6]
    rfl

/-- C10. Successor resolution on a miss, for each instruction set on its own.
A terminator runs in a block `B` whose `nextBlock` is unset.  ARM: when the
ARM table holds `PC - 8` (modulo 2^32), or the stream entered there has its
first branch-type or trap word at `k` and its first later word of condition
field `0xE` at `m` and the fuel covers the `m + 3` iterations of the build,
the lookup returns, and `_endBlockARM` continues with `_runARM` on the same
opcode in a state where the block `next` the lookup selected (the table's
entry on a hit, a new arena slot on a miss) is what the table holds for that
address, `B.nextBlock` is `next`, `next` is current with the handler cursor
at its entry 0 and the data cursor at its entry 3, and every field outside
the cache is as before.  Thumb: the same for `_endBlockThumb`, `PC - 4`, the
Thumb table and a stream with its first branch-type or trap halfword at `k`
and fuel for `k + 4` iterations. -/
theorem endBlock_resolves_on_miss (isa : ISA) (fuel : Nat) (cpu : ARMCore)
    (opcode b : Nat) (blk : ARMCacheBlock)
    (hb : cpu.cache.block = some b) (hblk : cpu.cache.blocks[b]? = some blk)
    (hnext : blk.nextBlock = none) :
    (∀ k m : Nat,
        (TableLookup cpu.cache.armCache (wrap32 (cpu.gprs ARM_PC + 2 ^ 32 - 8) >>> 2) ≠ none
          ∨ (FirstEndARM isa cpu.memory (wrap32 (cpu.gprs ARM_PC + 2 ^ 32 - 8)) k ∧ k < m
            ∧ (∀ j, k < j → j < m →
                fetchARM cpu.memory (wrap32 (cpu.gprs ARM_PC + 2 ^ 32 - 8)) j >>> 28 ≠ 0xE)
            ∧ fetchARM cpu.memory (wrap32 (cpu.gprs ARM_PC + 2 ^ 32 - 8)) m >>> 28 = 0xE
            ∧ m + 3 ≤ fuel + 1)) →
        ∃ next cpu2,
          (ARMCacheFindBlockARM isa (fuel + 1) cpu (wrap32 (cpu.gprs ARM_PC + 2 ^ 32 - 8))).map
              (fun c => c.cache.block) = some (some next)
          ∧ (∀ x, TableLookup cpu.cache.armCache (wrap32 (cpu.gprs ARM_PC + 2 ^ 32 - 8) >>> 2)
                = some x → next = x)
          ∧ (TableLookup cpu.cache.armCache (wrap32 (cpu.gprs ARM_PC + 2 ^ 32 - 8) >>> 2) = none →
                next = cpu.cache.blocks.length)
          ∧ TableLookup cpu2.cache.armCache (wrap32 (cpu.gprs ARM_PC + 2 ^ 32 - 8) >>> 2)
              = some next
          ∧ (cpu2.cache.blocks[b]?).map (fun x => x.nextBlock) = some (some next)
          ∧ cpu2.cache.block = some next ∧ cpu2.cache.instruction = 0 ∧ cpu2.cache.data = 3
          ∧ cpu2 = { cpu with cache := cpu2.cache }
          ∧ _endBlockARM isa (fuel + 1) cpu opcode
              = _runARM isa (_endBlockARM isa fuel) cpu2 opcode)
      ∧ (∀ k : Nat,
        (TableLookup cpu.cache.thumbCache (wrap32 (cpu.gprs ARM_PC + 2 ^ 32 - 4) >>> 1) ≠ none
          ∨ (FirstEndThumb isa cpu.memory (wrap32 (cpu.gprs ARM_PC + 2 ^ 32 - 4)) k
            ∧ k + 4 ≤ fuel + 1)) →
        ∃ next cpu2,
          (ARMCacheFindBlockThumb isa (fuel + 1) cpu
              (wrap32 (cpu.gprs ARM_PC + 2 ^ 32 - 4))).map
              (fun c => c.cache.block) = some (some next)
          ∧ (∀ x, TableLookup cpu.cache.thumbCache (wrap32 (cpu.gprs ARM_PC + 2 ^ 32 - 4) >>> 1)
                = some x → next = x)
          ∧ (TableLookup cpu.cache.thumbCache (wrap32 (cpu.gprs ARM_PC + 2 ^ 32 - 4) >>> 1)
                = none → next = cpu.cache.blocks.length)
          ∧ TableLookup cpu2.cache.thumbCache (wrap32 (cpu.gprs ARM_PC + 2 ^ 32 - 4) >>> 1)
              = some next
          ∧ (cpu2.cache.blocks[b]?).map (fun x => x.nextBlock) = some (some next)
          ∧ cpu2.cache.block = some next ∧ cpu2.cache.instruction = 0 ∧ cpu2.cache.data = 3
          ∧ cpu2 = { cpu with cache := cpu2.cache }
          ∧ _endBlockThumb isa (fuel + 1) cpu opcode
              = _runThumb isa (_endBlockThumb isa fuel) cpu2 opcode) := by
  constructor
  · intro k m hres
    obtain ⟨cpuA, hA⟩ := findBlockARM_returns isa (fuel + 1) cpu _ k m hres
    obtain ⟨next, h1, h2, h3, h4, _, h6, h7⟩ := findBlockARM_result isa (fuel + 1) cpu cpuA _ hA
    obtain ⟨hhit, hmiss⟩ := findBlockARM_selected isa (fuel + 1) cpu cpuA _ hA
    obtain ⟨s1, s2, s3, s4, s5, _, s7⟩ := successor_state cpu cpuA b next blk hblk h1 h3 h4 h6 h7
    refine ⟨next, advanceData (setNextBlock cpuA b cpuA.cache.block) 3, ?_, ?_, ?_, ?_, s1, s2,
      s3, s4, s7, ?_⟩
    · rw [hA]; simp [h1]
    · intro x hx
      have := (hhit x hx).1
      rw [h1] at this
      exact Option.some.inj this
    · intro hn
      have := (hmiss hn).1
      rw [h1] at this
      exact Option.some.inj this
    · rw [s5]; exact h2
    · have hA' : ARMCacheFindBlockARM isa (fuel + 1) cpu
          (wrap32 (cpu.gprs ARM_PC + 2 ^ 32 - WORD_SIZE_ARM * 2)) = some cpuA := hA
      rw [_endBlockARM]
      simp only [successorARM, hb, hblk, hnext, hA']
  · intro k hres
    obtain ⟨cpuT, hT⟩ := findBlockThumb_returns isa (fuel + 1) cpu _ k hres
    obtain ⟨next, h1, h2, h3, h4, _, h6, h7⟩ :=
      findBlockThumb_result isa (fuel + 1) cpu cpuT _ hT
    obtain ⟨hhit, hmiss⟩ := findBlockThumb_selected isa (fuel + 1) cpu cpuT _ hT
    obtain ⟨s1, s2, s3, s4, _, s6, s7⟩ := successor_state cpu cpuT b next blk hblk h1 h3 h4 h6 h7
    refine ⟨next, advanceData (setNextBlock cpuT b cpuT.cache.block) 3, ?_, ?_, ?_, ?_, s1, s2,
      s3, s4, s7, ?_⟩
    · rw [hT]; simp [h1]
    · intro x hx
      have := (hhit x hx).1
      rw [h1] at this
      exact Option.some.inj this
    · intro hn
      have := (hmiss hn).1
      rw [h1] at this
      exact Option.some.inj this
    · rw [s6]; exact h2
    · have hT' : ARMCacheFindBlockThumb isa (fuel + 1) cpu
          (wrap32 (cpu.gprs ARM_PC + 2 ^ 32 - WORD_SIZE_THUMB * 2)) = some cpuT := hT
      rw [_endBlockThumb]
      simp only [successorThumb, hb, hblk, hnext, hT']

/-- Witness for C10: the terminator at `0x100C` of the block entered at
`0x1000` on the concrete machine.  The ARM stream at `PC - 8 = 0x100C` has its
trap at index 2 and an always-executed word at index 3; the Thumb stream at
`PC - 4 = 0x1010` has its first branch-type halfword at index 1. -/
theorem endBlock_resolves_on_miss_witness :
    ∃ blk,
      atTerminator.cache.block = some 0 ∧ atTerminator.cache.blocks[0]? = some blk
      ∧ blk.nextBlock = none
      ∧ (FirstEndARM sampleISA atTerminator.memory
            (wrap32 (atTerminator.gprs ARM_PC + 2 ^ 32 - 8)) 2 ∧ 2 < 3
          ∧ (∀ j, 2 < j → j < 3 →
              fetchARM atTerminator.memory (wrap32 (atTerminator.gprs ARM_PC + 2 ^ 32 - 8)) j
                >>> 28 ≠ 0xE)
          ∧ fetchARM atTerminator.memory (wrap32 (atTerminator.gprs ARM_PC + 2 ^ 32 - 8)) 3
              >>> 28 = 0xE
          ∧ 3 + 3 ≤ 15 + 1)
      ∧ (FirstEndThumb sampleISA atTerminator.memory
            (wrap32 (atTerminator.gprs ARM_PC + 2 ^ 32 - 4)) 1 ∧ 1 + 4 ≤ 15 + 1)
      ∧ (∃ next cpu2,
          (ARMCacheFindBlockARM sampleISA (15 + 1) atTerminator
              (wrap32 (atTerminator.gprs ARM_PC + 2 ^ 32 - 8))).map
              (fun c => c.cache.block) = some (some next)
          ∧ TableLookup cpu2.cache.armCache
              (wrap32 (atTerminator.gprs ARM_PC + 2 ^ 32 - 8) >>> 2) = some next
          ∧ (cpu2.cache.blocks[0]?).map (fun x => x.nextBlock) = some (some next)
          ∧ cpu2.cache.block = some next ∧ cpu2.cache.instruction = 0 ∧ cpu2.cache.data = 3
          ∧ cpu2 = { atTerminator with cache := cpu2.cache }
          ∧ _endBlockARM sampleISA (15 + 1) atTerminator 0xE1A00000
              = _runARM sampleISA (_endBlockARM sampleISA 15) cpu2 0xE1A00000)
      ∧ (∃ next cpu2,
          (ARMCacheFindBlockThumb sampleISA (15 + 1) atTerminator
              (wrap32 (atTerminator.gprs ARM_PC + 2 ^ 32 - 4))).map
              (fun c => c.cache.block) = some (some next)
          ∧ TableLookup cpu2.cache.thumbCache
              (wrap32 (atTerminator.gprs ARM_PC + 2 ^ 32 - 4) >>> 1) = some next
          ∧ (cpu2.cache.blocks[0]?).map (fun x => x.nextBlock) = some (some next)
          ∧ cpu2.cache.block = some next ∧ cpu2.cache.instruction = 0 ∧ cpu2.cache.data = 3
          ∧ cpu2 = { atTerminator with cache := cpu2.cache }
          ∧ _endBlockThumb sampleISA (15 + 1) atTerminator 0xE1A00000
              = _runThumb sampleISA (_endBlockThumb sampleISA 15) cpu2 0xE1A00000) := by
  have hARM : FirstEndARM sampleISA atTerminator.memory
        (wrap32 (atTerminator.gprs ARM_PC + 2 ^ 32 - 8)) 2 ∧ 2 < 3
      ∧ (∀ j, 2 < j → j < 3 →
          fetchARM atTerminator.memory (wrap32 (atTerminator.gprs ARM_PC + 2 ^ 32 - 8)) j
            >>> 28 ≠ 0xE)
      ∧ fetchARM atTerminator.memory (wrap32 (atTerminator.gprs ARM_PC + 2 ^ 32 - 8)) 3
          >>> 28 = 0xE
      ∧ 3 + 3 ≤ 15 + 1 := by
    refine ⟨⟨?_, by decide⟩, by decide, ?_, by decide, by decide⟩
    · intro i hi
      have hi' : i = 0 ∨ i = 1 := by omega
      rcases hi' with rfl | rfl <;> decide
    · intro j hj1 hj2
      omega
  have hThumb : FirstEndThumb sampleISA atTerminator.memory
        (wrap32 (atTerminator.gprs ARM_PC + 2 ^ 32 - 4)) 1 ∧ 1 + 4 ≤ 15 + 1 := by
    refine ⟨⟨?_, by decide⟩, by decide⟩
    intro i hi
    have hi' : i = 0 := by omega
    subst hi'
    decide
  obtain ⟨nA, cA, a1, _, _, a4, a5, a6, a7, a8, a9, a10⟩ :=
    (endBlock_resolves_on_miss sampleISA 15 atTerminator 0xE1A00000 0 _ rfl rfl rfl).1 2 3
      (Or.inr hARM)
  obtain ⟨nT, cT, t1, _, _, t4, t5, t6, t7, t8, t9, t10⟩ :=
    (endBlock_resolves_on_miss sampleISA 15 atTerminator 0xE1A00000 0 _ rfl rfl rfl).2 1
      (Or.inr hThumb)
  exact ⟨_, rfl, rfl, rfl, hARM, hThumb, ⟨nA, cA, a1, a4, a5, a6, a7, a8, a9, a10⟩,
    ⟨nT, cT, t1, t4, t5, t6, t7, t8, t9, t10⟩⟩

/-! ## Serializer -/

/-- A 32-bit word survives `STORE_32`. -/
theorem STORE_32_of_lt (x : Nat) (h : x < 2 ^ 32) : STORE_32 x = x := by
  unfold STORE_32 wrap32
  exact Nat.mod_eq_of_lt h

/-- A signed 32-bit value survives the trip through its bit pattern. -/
theorem toI32_toU32 (i : Int) (h1 : -2 ^ 31 ≤ i) (h2 : i < 2 ^ 31) : toI32 (toU32 i) = i := by
  unfold toI32 toU32
  split_ifs <;> omega

/-- The register block `GBADeserialize` commits is the snapshot's. -/
theorem deserializeCommit_registers (sub : Subsystems) (gba : GBA) (state : GBASerializedState) :
    (deserializeCommit sub gba state).cpu.gprs = state.cpu.gprs
      ∧ (deserializeCommit sub gba state).cpu.cpsr = state.cpu.cpsr
      ∧ (deserializeCommit sub gba state).cpu.spsr = state.cpu.spsr
      ∧ (deserializeCommit sub gba state).cpu.cycles = toI32 state.cpu.cycles
      ∧ (deserializeCommit sub gba state).cpu.nextEvent = toI32 state.cpu.nextEvent
      ∧ (deserializeCommit sub gba state).cpu.bankedRegisters = state.cpu.bankedRegisters
      ∧ (deserializeCommit sub gba state).cpu.bankedSPSRs = state.cpu.bankedSPSRs :=
  ⟨rfl, rfl, rfl, rfl, rfl, rfl, rfl⟩

/-- The register block of a snapshot of a well-typed machine holds the
machine's register values. -/
theorem serialize_registers (sub : Subsystems) (gba : GBA) (h : wellTyped gba.cpu) :
    (GBASerialize sub gba).cpu.gprs = gba.cpu.gprs
      ∧ (GBASerialize sub gba).cpu.cpsr = gba.cpu.cpsr
      ∧ (GBASerialize sub gba).cpu.spsr = gba.cpu.spsr
      ∧ toI32 (GBASerialize sub gba).cpu.cycles = gba.cpu.cycles
      ∧ toI32 (GBASerialize sub gba).cpu.nextEvent = gba.cpu.nextEvent
      ∧ (GBASerialize sub gba).cpu.bankedRegisters = gba.cpu.bankedRegisters
      ∧ (GBASerialize sub gba).cpu.bankedSPSRs = gba.cpu.bankedSPSRs := by
  obtain ⟨hg, hc, hs, hcy, hne, hb, hbs, _, _⟩ := h
  refine ⟨?_, STORE_32_of_lt _ hc, STORE_32_of_lt _ hs, toI32_toU32 _ hcy.1 hcy.2,
    toI32_toU32 _ hne.1 hne.2, ?_, ?_⟩
  · funext i; exact STORE_32_of_lt _ (hg i)
  · funext i j; exact STORE_32_of_lt _ (hb i j)
  · funext i; exact STORE_32_of_lt _ (hbs i)

/-- C2. Register-file round trip: for every machine state `S` (its register
fields fitting their C types) whose snapshot `GBASerialize(S)` is accepted by
`GBADeserialize` on a live machine, the call sets all 16 general registers,
the current and saved status words, the cycle counter, the next-event target,
all 6x7 banked registers and all 6 banked saved-status words of the live
machine to the values they have in `S`. -/
theorem register_round_trip (sub : Subsystems) (S live : GBA) (htyped : wellTyped S.cpu)
    (haccepted : (GBADeserialize sub live (GBASerialize sub S)).1 = true) :
    (GBADeserialize sub live (GBASerialize sub S)).2.cpu.gprs = S.cpu.gprs
      ∧ (GBADeserialize sub live (GBASerialize sub S)).2.cpu.cpsr = S.cpu.cpsr
      ∧ (GBADeserialize sub live (GBASerialize sub S)).2.cpu.spsr = S.cpu.spsr
      ∧ (GBADeserialize sub live (GBASerialize sub S)).2.cpu.cycles = S.cpu.cycles
      ∧ (GBADeserialize sub live (GBASerialize sub S)).2.cpu.nextEvent = S.cpu.nextEvent
      ∧ (GBADeserialize sub live (GBASerialize sub S)).2.cpu.bankedRegisters
          = S.cpu.bankedRegisters
      ∧ (GBADeserialize sub live (GBASerialize sub S)).2.cpu.bankedSPSRs = S.cpu.bankedSPSRs := by
  have herr : deserializeError live (GBASerialize sub S) = false := by
    cases h : deserializeError live (GBASerialize sub S) with
    | false => rfl
    | true => simp [GBADeserialize, h] at haccepted
  have hcommit : (GBADeserialize sub live (GBASerialize sub S)).2
      = deserializeCommit sub live (GBASerialize sub S) := by
    simp [GBADeserialize, herr]
  rw [hcommit]
  obtain ⟨c1, c2, c3, c4, c5, c6, c7⟩ := deserializeCommit_registers sub live (GBASerialize sub S)
  obtain ⟨s1, s2, s3, s4, s5, s6, s7⟩ := serialize_registers sub S htyped
  exact ⟨c1.trans s1, c2.trans s2, c3.trans s3, c4.trans s4, c5.trans s5, c6.trans s6,
    c7.trans s7⟩


/-- The concrete machine is well-typed. -/
theorem sampleGBA_wellTyped : wellTyped (sampleGBA 0x08000100 10 (0xE1A00000, 0xE2800001) 0).cpu := by
  refine ⟨by decide, by decide, by decide, by decide, by decide, by decide, by decide, by decide,
    by decide⟩

/-- Witness for C2: the snapshot of the concrete machine at `0x08000100`,
loaded into the same machine after it has moved on to `0x08000200`. -/
theorem register_round_trip_witness :
    wellTyped (sampleGBA 0x08000100 10 (0xE1A00000, 0xE2800001) 0).cpu
      ∧ (GBADeserialize sampleSubsystems (sampleGBA 0x08000200 77 (1, 2) 5)
          (GBASerialize sampleSubsystems
            (sampleGBA 0x08000100 10 (0xE1A00000, 0xE2800001) 0))).1 = true
      ∧ ((GBADeserialize sampleSubsystems (sampleGBA 0x08000200 77 (1, 2) 5)
            (GBASerialize sampleSubsystems
              (sampleGBA 0x08000100 10 (0xE1A00000, 0xE2800001) 0))).2.cpu.gprs
          = (sampleGBA 0x08000100 10 (0xE1A00000, 0xE2800001) 0).cpu.gprs
        ∧ (GBADeserialize sampleSubsystems (sampleGBA 0x08000200 77 (1, 2) 5)
            (GBASerialize sampleSubsystems
              (sampleGBA 0x08000100 10 (0xE1A00000, 0xE2800001) 0))).2.cpu.cpsr
          = (sampleGBA 0x08000100 10 (0xE1A00000, 0xE2800001) 0).cpu.cpsr
        ∧ (GBADeserialize sampleSubsystems (sampleGBA 0x08000200 77 (1, 2) 5)
            (GBASerialize sampleSubsystems
              (sampleGBA 0x08000100 10 (0xE1A00000, 0xE2800001) 0))).2.cpu.spsr
          = (sampleGBA 0x08000100 10 (0xE1A00000, 0xE2800001) 0).cpu.spsr
        ∧ (GBADeserialize sampleSubsystems (sampleGBA 0x08000200 77 (1, 2) 5)
            (GBASerialize sampleSubsystems
              (sampleGBA 0x08000100 10 (0xE1A00000, 0xE2800001) 0))).2.cpu.cycles
          = (sampleGBA 0x08000100 10 (0xE1A00000, 0xE2800001) 0).cpu.cycles
        ∧ (GBADeserialize sampleSubsystems (sampleGBA 0x08000200 77 (1, 2) 5)
            (GBASerialize sampleSubsystems
              (sampleGBA 0x08000100 10 (0xE1A00000, 0xE2800001) 0))).2.cpu.nextEvent
          = (sampleGBA 0x08000100 10 (0xE1A00000, 0xE2800001) 0).cpu.nextEvent
        ∧ (GBADeserialize sampleSubsystems (sampleGBA 0x08000200 77 (1, 2) 5)
            (GBASerialize sampleSubsystems
              (sampleGBA 0x08000100 10 (0xE1A00000, 0xE2800001) 0))).2.cpu.bankedRegisters
          = (sampleGBA 0x08000100 10 (0xE1A00000, 0xE2800001) 0).cpu.bankedRegisters
        ∧ (GBADeserialize sampleSubsystems (sampleGBA 0x08000200 77 (1, 2) 5)
            (GBASerialize sampleSubsystems
              (sampleGBA 0x08000100 10 (0xE1A00000, 0xE2800001) 0))).2.cpu.bankedSPSRs
          = (sampleGBA 0x08000100 10 (0xE1A00000, 0xE2800001) 0).cpu.bankedSPSRs) :=
  ⟨sampleGBA_wellTyped, by decide,
    register_round_trip sampleSubsystems (sampleGBA 0x08000100 10 (0xE1A00000, 0xE2800001) 0)
      (sampleGBA 0x08000200 77 (1, 2) 5) sampleGBA_wellTyped (by decide)⟩

/-- C3. Deserialize is all-or-nothing: whenever `GBADeserialize` returns
false, the live machine after the call is the live machine before it, in
every field. -/
theorem deserialize_all_or_nothing (sub : Subsystems) (gba : GBA) (state : GBASerializedState)
    (hrejected : (GBADeserialize sub gba state).1 = false) :
    (GBADeserialize sub gba state).2 = gba := by
  unfold GBADeserialize at hrejected ⊢
  by_cases herr : deserializeError gba state = true
  · simp [herr]
  · simp [herr] at hrejected

/-- Witness for C3: a snapshot of the concrete machine whose magic word is
corrupted. -/
theorem deserialize_all_or_nothing_witness :
    (GBADeserialize sampleSubsystems (sampleGBA 0x08000200 77 (1, 2) 5)
        { GBASerialize sampleSubsystems (sampleGBA 0x08000100 10 (0xE1A00000, 0xE2800001) 0)
          with versionMagic := 0x02000000 }).1 = false
      ∧ (GBADeserialize sampleSubsystems (sampleGBA 0x08000200 77 (1, 2) 5)
        { GBASerialize sampleSubsystems (sampleGBA 0x08000100 10 (0xE1A00000, 0xE2800001) 0)
          with versionMagic := 0x02000000 }).2 = sampleGBA 0x08000200 77 (1, 2) 5 :=
  ⟨by decide, deserialize_all_or_nothing sampleSubsystems (sampleGBA 0x08000200 77 (1, 2) 5) _
    (by decide)⟩

/-! ## Rewind ring buffer -/

/-- On a ring whose slot array has `capacity > 0` entries and whose write
cursor is a valid slot index, `GBARecordFrame` returns: it stores the
snapshot of the machine in the slot at the write cursor, counts it and
advances the cursor. -/
theorem recordFrame_result (sub : Subsystems) (thread : GBAThread)
    (buffer : List (Option GBASerializedState))
    (hbuffer : thread.rewindBuffer = some buffer)
    (hlength : (buffer.length : Int) = thread.rewindBufferCapacity)
    (hoffset : 0 ≤ thread.rewindBufferWriteOffset
      ∧ thread.rewindBufferWriteOffset < thread.rewindBufferCapacity) :
    ∃ recorded, GBARecordFrame sub thread = some recorded
      ∧ recorded.rewindBuffer
          = some (buffer.set thread.rewindBufferWriteOffset.toNat
              (some (GBASerialize sub thread.gba)))
      ∧ recorded.rewindBufferCapacity = thread.rewindBufferCapacity
      ∧ recorded.rewindBufferSize
          = (if thread.rewindBufferSize = thread.rewindBufferCapacity
              then thread.rewindBufferCapacity else thread.rewindBufferSize + 1)
      ∧ recorded.rewindBufferWriteOffset
          = (thread.rewindBufferWriteOffset + 1) % thread.rewindBufferCapacity := by
  have hin : 0 ≤ thread.rewindBufferWriteOffset
      ∧ thread.rewindBufferWriteOffset.toNat < buffer.length := by
    constructor
    · exact hoffset.1
    · omega
  have hcap : ¬ thread.rewindBufferCapacity = 0 := by omega
  have hmod : Int.tmod (thread.rewindBufferWriteOffset + 1) thread.rewindBufferCapacity
      = (thread.rewindBufferWriteOffset + 1) % thread.rewindBufferCapacity :=
    Int.tmod_eq_emod (by omega) (by omega)
  unfold GBARecordFrame
  simp only [hbuffer, hin, and_self, if_true, hcap, if_false]
  exact ⟨_, rfl, rfl, rfl, rfl, hmod⟩


/-- When the request `n` is within `1 .. size` and the target slot
`(writeCursor - n) mod capacity` holds a snapshot, `GBARewind` returns `n`,
subtracts `n` from the size, moves the write cursor to the target slot, keeps
the slot array and deserializes that snapshot into the live machine; the
renderer call touches the video state only. -/
theorem rewind_result (sub : Subsystems) (thread : GBAThread)
    (buffer : List (Option GBASerializedState)) (state : GBASerializedState) (n : Int)
    (target : Nat)
    (hbuffer : thread.rewindBuffer = some buffer)
    (hn : 1 ≤ n ∧ n ≤ thread.rewindBufferSize)
    (htarget : (target : Int)
      = if thread.rewindBufferWriteOffset - n < 0
        then thread.rewindBufferWriteOffset - n + thread.rewindBufferCapacity
        else thread.rewindBufferWriteOffset - n)
    (hin : target < buffer.length) (hslot : buffer[target]? = some (some state)) :
    ∃ rewound, GBARewind sub thread n = some (rewound, n)
      ∧ rewound.rewindBufferSize = thread.rewindBufferSize - n
      ∧ rewound.rewindBufferWriteOffset = target
      ∧ rewound.rewindBuffer = some buffer
      ∧ rewound.rewindBufferCapacity = thread.rewindBufferCapacity
      ∧ rewound.gba.cpu = (GBADeserialize sub thread.gba state).2.cpu
      ∧ rewound.gba.memory = (GBADeserialize sub thread.gba state).2.memory := by
  have hclamp : ¬ (n > thread.rewindBufferSize ∨ n < 0) := by omega
  have hn0 : ¬ n = 0 := by omega
  have hge : (0 : Int) ≤ (target : Int) := Int.ofNat_nonneg _
  unfold GBARewind
  simp only [hclamp, if_false, hn0, hbuffer, ← htarget, Int.toNat_ofNat, hin, hge, and_self,
    if_true, List.getD_eq_getElem?_getD, hslot, Option.getD_some]
  cases hs : thread.rewindScreenBuffer with
  | none => exact ⟨_, rfl, rfl, rfl, rfl, rfl, rfl, rfl⟩
  | some frames => exact ⟨_, rfl, rfl, rfl, rfl, rfl, rfl, rfl⟩


/-- Masking a halfword to 16 bits leaves it as it is. -/
theorem and_halfword (x : Nat) (h : x < 2 ^ 16) : x &&& 0xFFFF = x := by
  have h16 : (0xFFFF : Nat) = 2 ^ 16 - 1 := by norm_num
  rw [h16, Nat.and_pow_two_sub_one_eq_mod]
  exact Nat.mod_eq_of_lt h

/-- The commit phase takes the prefetch queue from the snapshot when both
stored words are non-zero and, in Thumb state, fit 16 bits. -/
theorem deserializeCommit_prefetch (sub : Subsystems) (gba : GBA) (state : GBASerializedState)
    (h1 : state.cpuPrefetch.1 ≠ 0) (h2 : state.cpuPrefetch.2 ≠ 0)
    (hthumb : psrT state.cpu.cpsr = true →
      state.cpuPrefetch.1 < 2 ^ 16 ∧ state.cpuPrefetch.2 < 2 ^ 16) :
    (deserializeCommit sub gba state).cpu.prefetch = state.cpuPrefetch := by
  show restorePrefetch _ state = state.cpuPrefetch
  unfold restorePrefetch
  by_cases ht : psrT state.cpu.cpsr = true
  · obtain ⟨ha, hb⟩ := hthumb ht
    simp only [ht, h1, h2, ne_eq, not_false_eq_true, and_self, if_true, and_halfword _ ha,
      and_halfword _ hb]
  · simp [ht, h1, h2]

/-- The commit phase takes the BIOS prefetch value from the snapshot when the
stored value is non-zero. -/
theorem deserializeCommit_biosPrefetch (sub : Subsystems) (gba : GBA)
    (state : GBASerializedState) (h : state.biosPrefetch ≠ 0) :
    (deserializeCommit sub gba state).memory.biosPrefetch = state.biosPrefetch := by
  simp [deserializeCommit, h]

/-- Counterexample to C4, on the concrete machine with a ring of capacity 3.
(1) `S` has BIOS prefetch value 0; after the live machine has changed,
`GBARewind(thread, 1)` returns 1 and leaves the live value `0xE129F000`.
(2) `S` has a zero in its prefetch queue; the rewind returns 1 and leaves a
queue re-fetched from the live memory, not the queue of `S`.
(3) `S` executes at `0x0A000100`; its snapshot is rejected, and the rewind
returns 1 with the live program counter still `0x08000200`. -/
theorem record_then_rewind_counterexample :
    (sampleGBA 0x08000100 10 (0xE1A00000, 0xE2800001) 0).memory.biosPrefetch = 0
      ∧ ((GBARecordFrame sampleSubsystems
            (sampleThread sampleSubsystems
              (sampleGBA 0x08000100 10 (0xE1A00000, 0xE2800001) 0))).bind
          (fun t => GBARewind sampleSubsystems
            { t with gba := sampleGBA 0x08000200 77 (1, 2) 0xE129F000 } 1)).map
          (fun r => (r.2, r.1.gba.memory.biosPrefetch)) = some (1, 0xE129F000)
      ∧ (sampleGBA 0x08000100 10 (0, 0xE2800001) 5).cpu.prefetch = (0, 0xE2800001)
      ∧ ((GBARecordFrame sampleSubsystems
            (sampleThread sampleSubsystems (sampleGBA 0x08000100 10 (0, 0xE2800001) 5))).bind
          (fun t => GBARewind sampleSubsystems
            { t with gba := sampleGBA 0x08000200 77 (1, 2) 0xE129F000 } 1)).map
          (fun r => (r.2, r.1.gba.cpu.prefetch)) = some (1, (0, 0))
      ∧ (sampleGBA 0x0A000100 10 (0xE1A00000, 0xE2800001) 5).cpu.gprs ARM_PC = 0x0A000100
      ∧ ((GBARecordFrame sampleSubsystems
            (sampleThread sampleSubsystems
              (sampleGBA 0x0A000100 10 (0xE1A00000, 0xE2800001) 5))).bind
          (fun t => GBARewind sampleSubsystems
            { t with gba := sampleGBA 0x08000200 77 (1, 2) 0xE129F000 } 1)).map
          (fun r => (r.2, r.1.gba.cpu.gprs ARM_PC)) = some (1, 0x08000200) := by
  refine ⟨rfl, ?_, rfl, ?_, rfl, ?_⟩ <;> decide

/-- C4 (amended). Rewind after record: for every machine state `S` (register
fields fitting their C types) and every ring of capacity > 0 whose slot array
has `capacity` entries, with `0 ≤ size ≤ capacity` and the write cursor a
valid slot index, `GBARecordFrame` in state `S` returns, and then, whatever
the live machine has become, `GBARewind(thread, 1)` returns 1.  If the
recorded snapshot passes the validation pass against that live machine, the
general registers, status words, cycle counter, next-event target, banked
registers and banked saved-status words are those of `S`; the prefetch queue
is that of `S` when both its entries are non-zero (and fit 16 bits in Thumb
state); the BIOS prefetch value is that of `S` when it is non-zero. -/
theorem record_then_rewind (sub : Subsystems) (thread : GBAThread)
    (buffer : List (Option GBASerializedState))
    (htyped : wellTyped thread.gba.cpu)
    (hbuffer : thread.rewindBuffer = some buffer)
    (hlength : (buffer.length : Int) = thread.rewindBufferCapacity)
    (hsize : 0 ≤ thread.rewindBufferSize
      ∧ thread.rewindBufferSize ≤ thread.rewindBufferCapacity)
    (hoffset : 0 ≤ thread.rewindBufferWriteOffset
      ∧ thread.rewindBufferWriteOffset < thread.rewindBufferCapacity) :
    ∃ recorded, GBARecordFrame sub thread = some recorded
      ∧ ∀ live : GBA, ∃ rewound,
          GBARewind sub { recorded with gba := live } 1 = some (rewound, 1)
          ∧ (deserializeError live (GBASerialize sub thread.gba) = false →
              rewound.gba.cpu.gprs = thread.gba.cpu.gprs
              ∧ rewound.gba.cpu.cpsr = thread.gba.cpu.cpsr
              ∧ rewound.gba.cpu.spsr = thread.gba.cpu.spsr
              ∧ rewound.gba.cpu.cycles = thread.gba.cpu.cycles
              ∧ rewound.gba.cpu.nextEvent = thread.gba.cpu.nextEvent
              ∧ rewound.gba.cpu.bankedRegisters = thread.gba.cpu.bankedRegisters
              ∧ rewound.gba.cpu.bankedSPSRs = thread.gba.cpu.bankedSPSRs
              ∧ (thread.gba.cpu.prefetch.1 ≠ 0 → thread.gba.cpu.prefetch.2 ≠ 0 →
                  (psrT thread.gba.cpu.cpsr = true →
                    thread.gba.cpu.prefetch.1 < 2 ^ 16 ∧ thread.gba.cpu.prefetch.2 < 2 ^ 16) →
                  rewound.gba.cpu.prefetch = thread.gba.cpu.prefetch)
              ∧ (thread.gba.memory.biosPrefetch ≠ 0 →
                  rewound.gba.memory.biosPrefetch = thread.gba.memory.biosPrefetch)) := by
  obtain ⟨recorded, hrec, hbuf', hcap', hsize', hoff'⟩ :=
    recordFrame_result sub thread buffer hbuffer hlength hoffset
  refine ⟨recorded, hrec, ?_⟩
  intro live
  have hlt : thread.rewindBufferWriteOffset.toNat < buffer.length := by omega
  obtain ⟨rewound, hrw, _, _, _, _, hcpu, hmem⟩ :=
    rewind_result sub { recorded with gba := live }
      (buffer.set thread.rewindBufferWriteOffset.toNat (some (GBASerialize sub thread.gba)))
      (GBASerialize sub thread.gba) 1 thread.rewindBufferWriteOffset.toNat hbuf'
      (by
        refine ⟨le_refl _, ?_⟩
        show 1 ≤ recorded.rewindBufferSize
        rw [hsize']
        split_ifs <;> omega)
      (by
        show _ = if recorded.rewindBufferWriteOffset - 1 < 0
          then recorded.rewindBufferWriteOffset - 1 + recorded.rewindBufferCapacity
          else recorded.rewindBufferWriteOffset - 1
        rw [hoff', hcap']
        have h0 : (thread.rewindBufferWriteOffset.toNat : Int) = thread.rewindBufferWriteOffset :=
          Int.toNat_of_nonneg hoffset.1
        rw [h0]
        by_cases hw : thread.rewindBufferWriteOffset + 1 = thread.rewindBufferCapacity
        · rw [hw, Int.emod_self]
          simp only [Int.zero_sub, Int.reduceNeg, Int.reduceLT, if_true]
          omega
        · rw [Int.emod_eq_of_lt (by omega) (by omega)]
          have : ¬ thread.rewindBufferWriteOffset + 1 - 1 < 0 := by omega
          simp only [this, if_false]
          omega)
      (by simpa using hlt)
      (List.getElem?_set_self hlt)
  refine ⟨rewound, hrw, ?_⟩
  intro herr
  have hcommit : (GBADeserialize sub live (GBASerialize sub thread.gba)).2
      = deserializeCommit sub live (GBASerialize sub thread.gba) := by
    simp [GBADeserialize, herr]
  simp only [hcommit] at hcpu hmem
  obtain ⟨c1, c2, c3, c4, c5, c6, c7⟩ :=
    deserializeCommit_registers sub live (GBASerialize sub thread.gba)
  obtain ⟨s1, s2, s3, s4, s5, s6, s7⟩ := serialize_registers sub thread.gba htyped
  obtain ⟨_, hc, _, _, _, _, _, hp1, hp2⟩ := htyped
  have hq1 : (GBASerialize sub thread.gba).cpuPrefetch.1 = thread.gba.cpu.prefetch.1 :=
    STORE_32_of_lt _ hp1
  have hq2 : (GBASerialize sub thread.gba).cpuPrefetch.2 = thread.gba.cpu.prefetch.2 :=
    STORE_32_of_lt _ hp2
  rw [hcpu, hmem]
  refine ⟨c1.trans s1, c2.trans s2, c3.trans s3, c4.trans s4, c5.trans s5, c6.trans s6,
    c7.trans s7, ?_, ?_⟩
  · intro h1 h2 ht
    rw [deserializeCommit_prefetch sub live _ (by rw [hq1]; exact h1) (by rw [hq2]; exact h2)
      (by rw [s2, hq1, hq2]; exact ht)]
    exact Prod.ext hq1 hq2
  · intro hb
    exact deserializeCommit_biosPrefetch sub live _ hb


/-- The machine of the concrete ring is well-typed. -/
theorem sampleRing_wellTyped : wellTyped sampleRing.gba.cpu := by
  refine ⟨by decide, by decide, by decide, by decide, by decide, by decide, by decide, by decide,
    by decide⟩

/-- Witness for C4 (amended): the concrete ring. -/
theorem record_then_rewind_witness :
    wellTyped sampleRing.gba.cpu
      ∧ sampleRing.rewindBuffer = some [some (GBASerialize sampleSubsystems sampleRing.gba),
          none, none]
      ∧ (0 ≤ sampleRing.rewindBufferSize
          ∧ sampleRing.rewindBufferSize ≤ sampleRing.rewindBufferCapacity)
      ∧ (0 ≤ sampleRing.rewindBufferWriteOffset
          ∧ sampleRing.rewindBufferWriteOffset < sampleRing.rewindBufferCapacity)
      ∧ ∃ recorded, GBARecordFrame sampleSubsystems sampleRing = some recorded
        ∧ ∀ live : GBA, ∃ rewound,
            GBARewind sampleSubsystems { recorded with gba := live } 1 = some (rewound, 1)
            ∧ (deserializeError live (GBASerialize sampleSubsystems sampleRing.gba) = false →
                rewound.gba.cpu.gprs = sampleRing.gba.cpu.gprs
                ∧ rewound.gba.cpu.cpsr = sampleRing.gba.cpu.cpsr
                ∧ rewound.gba.cpu.spsr = sampleRing.gba.cpu.spsr
                ∧ rewound.gba.cpu.cycles = sampleRing.gba.cpu.cycles
                ∧ rewound.gba.cpu.nextEvent = sampleRing.gba.cpu.nextEvent
                ∧ rewound.gba.cpu.bankedRegisters = sampleRing.gba.cpu.bankedRegisters
                ∧ rewound.gba.cpu.bankedSPSRs = sampleRing.gba.cpu.bankedSPSRs
                ∧ (sampleRing.gba.cpu.prefetch.1 ≠ 0 → sampleRing.gba.cpu.prefetch.2 ≠ 0 →
                    (psrT sampleRing.gba.cpu.cpsr = true →
                      sampleRing.gba.cpu.prefetch.1 < 2 ^ 16
                        ∧ sampleRing.gba.cpu.prefetch.2 < 2 ^ 16) →
                    rewound.gba.cpu.prefetch = sampleRing.gba.cpu.prefetch)
                ∧ (sampleRing.gba.memory.biosPrefetch ≠ 0 →
                    rewound.gba.memory.biosPrefetch = sampleRing.gba.memory.biosPrefetch)) :=
  ⟨sampleRing_wellTyped, rfl, by decide, by decide,
    record_then_rewind sampleSubsystems sampleRing _ sampleRing_wellTyped rfl (by decide)
      (by decide) (by decide)⟩

/-! ## No-cache equivalence -/

/-- Masking with a 32-bit mask only sees the low 32 bits. -/
theorem and_mask_mod (x m : Nat) (hm : m < 2 ^ 32) : (x % 2 ^ 32) &&& m = x &&& m := by
  apply Nat.eq_of_testBit_eq
  intro i
  rw [Nat.testBit_and, Nat.testBit_and, Nat.testBit_mod_two_pow]
  by_cases hi : i < 32
  · simp [hi]
  · have hm' : m.testBit i = false := by
      apply Nat.testBit_lt_two_pow
      calc m < 2 ^ 32 := hm
        _ ≤ 2 ^ i := Nat.pow_le_pow_right (by decide) (by omega)
    simp [hi, hm']

/-- The address the ARM builder fetches from does not change when the entry
address is reduced to 32 bits. -/
theorem fetchARM_wrap (memory : ARMMemory) (hm : memory.activeMask < 2 ^ 32) (a i j : Nat) :
    fetchARM memory (wrap32 (a + 4 * i)) j = fetchARM memory a (i + j) := by
  unfold fetchARM wrap32 WORD_SIZE_ARM
  rw [← and_mask_mod ((a + 4 * i) % 2 ^ 32 + 4 * j) _ hm, ← and_mask_mod (a + 4 * (i + j)) _ hm]
  congr 2
  omega

/-- The word the plain interpreter fetches at the program counter is the word
of the fetch stream two positions past the executing one. -/
theorem load_at_pc_ARM (memory : ARMMemory) (hm : memory.activeMask < 2 ^ 32) (a i : Nat) :
    LOAD_32 memory.activeRegion (wrap32 (wrap32 (a + 4 * i + 4) + WORD_SIZE_ARM) &&& memory.activeMask)
      = fetchARM memory a (i + 2) := by
  unfold fetchARM wrap32 WORD_SIZE_ARM
  rw [← and_mask_mod (a + 4 * (i + 2)) _ hm,
    ← and_mask_mod (((a + 4 * i + 4) % 2 ^ 32 + 4) % 2 ^ 32) _ hm]
  congr 2
  omega

/-- The first block-ending position of a stream is unique. -/
theorem FirstEndARM_unique (isa : ISA) (memory : ARMMemory) (addr d d' : Nat)
    (h : FirstEndARM isa memory addr d) (h' : FirstEndARM isa memory addr d') : d = d' := by
  rcases Nat.lt_trichotomy d d' with hlt | heq | hgt
  · exact absurd h.2 (h'.1 d hlt)
  · exact heq
  · exact absurd h'.2 (h.1 d' hgt)

/-- A stream that reaches a block-ending word has a first one, no later. -/
theorem FirstEndARM_exists (isa : ISA) (memory : ARMMemory) (addr n : Nat)
    (h : endsBlock (isa.decodeARM (fetchARM memory addr n))) :
    ∃ d, d ≤ n ∧ FirstEndARM isa memory addr d := by
  classical
  have hex : ∃ k, endsBlock (isa.decodeARM (fetchARM memory addr k)) := ⟨n, h⟩
  refine ⟨Nat.find hex, Nat.find_min' hex h, ?_, Nat.find_spec hex⟩
  intro i hi
  exact Nat.find_min hex hi

/-- Entries of the opcode chain of a built ARM block. -/
theorem builtARM_data (memory : ARMMemory) (addr d j : Nat) (hj : j < d + 4) :
    (builtARM memory addr d).data[j]? = some (fetchARM memory addr j) := by
  simp [builtARM, List.getElem?_map, List.getElem?_range hj]

/-- Real entries of the handler chain of a built ARM block. -/
theorem builtARM_instruction_table (memory : ARMMemory) (addr d j : Nat) (hj : j ≤ d) :
    (builtARM memory addr d).instruction[j]?
      = some (ARMInstruction.table (armTableIndex (fetchARM memory addr j))) := by
  have hlt : j < d + 1 := by omega
  simp [builtARM, List.getElem?_append_left, List.getElem?_map, List.getElem?_range hlt, hlt]

/-- The terminator entry of the handler chain of a built ARM block. -/
theorem builtARM_instruction_end (memory : ARMMemory) (addr d : Nat) :
    (builtARM memory addr d).instruction[d + 1]? = some ARMInstruction.endBlockARM := by
  simp [builtARM, List.getElem?_append_right]

/-- The ARM builder, on a stream whose first block-ending word is at `d` and
is followed by a word with condition field `0xE`, produces `builtARM`. -/
theorem buildLoopARM_built (isa : ISA) (memory : ARMMemory) (addr d fuel : Nat)
    (hfirst : FirstEndARM isa memory addr d)
    (hal : fetchARM memory addr (d + 1) >>> 28 = 0xE) (hfuel : d + 4 ≤ fuel) :
    ∃ st, buildLoopARM isa memory addr fuel BuildARM.init = some st
      ∧ st.ichain = (builtARM memory addr d).instruction
      ∧ st.dchain = (builtARM memory addr d).data := by
  obtain ⟨st, ha, hb, hc⟩ := buildLoopARM_live isa memory addr 0 d fuel BuildARM.init rfl
    (by intro i hi; simpa [BuildARM.init] using hfirst.1 i hi)
    (by simpa [BuildARM.init] using hfirst.2)
    (by intro i hi; omega)
    (by simpa [BuildARM.init] using hal) (by omega)
  refine ⟨st, ha, ?_, ?_⟩
  · rw [hb]; simp [BuildARM.init, builtARM]
  · rw [hc]; simp [BuildARM.init, builtARM]

/-- A handle the table holds points into the arena. -/
theorem cacheOKARM_handle_lt {isa : ISA} {memory : ARMMemory} {table : Table}
    {blocks : List ARMCacheBlock} (hok : CacheOKARM isa memory table blocks) (key h : Nat)
    (hkey : table key = some h) : h < blocks.length := by
  obtain ⟨blk, d, hblk, _, _⟩ := hok.built key h hkey
  rcases Nat.lt_or_ge h blocks.length with hlt | hge
  · exact hlt
  · rw [List.getElem?_eq_none hge] at hblk; cases hblk

/-- Entering a freshly built block under a key that missed keeps the ARM
table and the arena in agreement with guest memory. -/
theorem cacheOKARM_insert {isa : ISA} {memory : ARMMemory} {table : Table}
    {blocks : List ARMCacheBlock} (hok : CacheOKARM isa memory table blocks) (key d : Nat)
    (hmiss : table key = none) (hfirst : FirstEndARM isa memory (4 * key) d) :
    CacheOKARM isa memory (TableInsert table key blocks.length)
      (blocks ++ [{ chains := BlockChains.arm (builtARM memory (4 * key) d),
                    nextBlock := none, branch := none, branchAddress := 0xFFFFFFFF }]) := by
  constructor
  · intro K h hK
    unfold TableInsert at hK
    by_cases hKk : K = key
    · subst hKk
      simp only [if_true, Option.some.injEq] at hK
      subst hK
      exact ⟨{ chains := BlockChains.arm (builtARM memory (4 * K) d),
                nextBlock := none, branch := none, branchAddress := 0xFFFFFFFF }, d, by simp,
        hfirst, rfl⟩
    · simp only [hKk, if_false] at hK
      obtain ⟨blk, d0, hblk, hf, hc⟩ := hok.built K h hK
      have hlt := cacheOKARM_handle_lt hok K h hK
      exact ⟨blk, d0, by rw [List.getElem?_append_left hlt]; exact hblk, hf, hc⟩
  · intro K h d0 next blk hK hblk hnext hf
    unfold TableInsert at hK ⊢
    by_cases hKk : K = key
    · subst hKk
      simp only [if_true, Option.some.injEq] at hK
      subst hK
      simp at hblk
      subst hblk
      cases hnext
    · simp only [hKk, if_false] at hK
      have hlt := cacheOKARM_handle_lt hok K h hK
      rw [List.getElem?_append_left hlt] at hblk
      have hl := hok.linked K h d0 next blk hK hblk hnext hf
      by_cases hs : wrap32 (4 * K + 4 * (d0 + 1)) >>> 2 = key
      · rw [hs, hmiss] at hl; cases hl
      · simp only [hs, if_false]; exact hl
  · intro K K' h hK hK'
    unfold TableInsert at hK hK'
    by_cases hKk : K = key <;> by_cases hKk' : K' = key
    · rw [hKk, hKk']
    · simp only [hKk, if_true, Option.some.injEq] at hK
      simp only [hKk', if_false] at hK'
      have := cacheOKARM_handle_lt hok K' h hK'
      omega
    · simp only [hKk', if_true, Option.some.injEq] at hK'
      simp only [hKk, if_false] at hK
      have := cacheOKARM_handle_lt hok K h hK
      omega
    · simp only [hKk, if_false] at hK
      simp only [hKk', if_false] at hK'
      exact hok.injective K K' h hK hK'

/-- Storing in a block's `nextBlock` the table's entry for the fall-through
address of its terminator keeps the ARM table and the arena in agreement with
guest memory. -/
theorem cacheOKARM_setNext {isa : ISA} {memory : ARMMemory} {table : Table}
    {blocks : List ARMCacheBlock} (hok : CacheOKARM isa memory table blocks)
    (key b d next : Nat) (blk : ARMCacheBlock)
    (hkey : table key = some b) (hblk : blocks[b]? = some blk)
    (hfirst : FirstEndARM isa memory (4 * key) d)
    (hnext : table (wrap32 (4 * key + 4 * (d + 1)) >>> 2) = some next) :
    CacheOKARM isa memory table (blocks.set b { blk with nextBlock := some next }) := by
  have hb := cacheOKARM_handle_lt hok key b hkey
  constructor
  · intro K h hK
    obtain ⟨blk0, d0, hblk0, hf, hc⟩ := hok.built K h hK
    by_cases hh : h = b
    · subst hh
      rw [hblk] at hblk0
      simp only [Option.some.injEq] at hblk0
      subst hblk0
      exact ⟨_, d0, List.getElem?_set_self hb, hf, hc⟩
    · refine ⟨blk0, d0, ?_, hf, hc⟩
      rw [List.getElem?_set_ne (Ne.symm hh)]
      exact hblk0
  · intro K h d0 nb blk' hK hblk' hnb hf
    by_cases hh : h = b
    · subst hh
      rw [List.getElem?_set_self hb] at hblk'
      simp only [Option.some.injEq] at hblk'
      subst hblk'
      simp only [Option.some.injEq] at hnb
      subst hnb
      have hKk := hok.injective K key h hK hkey
      subst hKk
      have hd := FirstEndARM_unique isa memory _ _ _ hf hfirst
      subst hd
      exact hnext
    · rw [List.getElem?_set_ne (Ne.symm hh)] at hblk'
      exact hok.linked K h d0 nb blk' hK hblk' hnb hf
  · exact hok.injective

/-- A lookup by `ARMCacheFindBlockARM` at a word address, on a cache that
agrees with guest memory whose builds terminate, returns with the cursor at
the start of the table's block for that address and keeps the agreement; old
table entries and arena entries stay. -/
theorem findBlockARM_sync (isa : ISA) (fuel : Nat) (cpu : ARMCore) (key : Nat)
    (hok : CacheOKARM isa cpu.memory cpu.cache.armCache cpu.cache.blocks)
    (hterm : ∀ addr, ∃ d, d + 4 ≤ fuel ∧ endsBlock (isa.decodeARM (fetchARM cpu.memory addr d)))
    (hal : ∀ addr i, endsBlock (isa.decodeARM (fetchARM cpu.memory addr i)) →
      fetchARM cpu.memory addr (i + 1) >>> 28 = 0xE) :
    ∃ cpu1 next, ARMCacheFindBlockARM isa fuel cpu (4 * key) = some cpu1
      ∧ cpu1 = { cpu with cache := cpu1.cache }
      ∧ CacheOKARM isa cpu.memory cpu1.cache.armCache cpu1.cache.blocks
      ∧ cpu1.cache.armCache key = some next
      ∧ cpu1.cache.block = some next ∧ cpu1.cache.instruction = 0 ∧ cpu1.cache.data = 0
      ∧ (∀ (K h : Nat), cpu.cache.armCache K = some h → cpu1.cache.armCache K = some h)
      ∧ (∀ (i : Nat) (x : ARMCacheBlock), cpu.cache.blocks[i]? = some x →
          cpu1.cache.blocks[i]? = some x) := by
  have hshift : (4 * key) >>> 2 = key := by
    rw [Nat.shiftRight_eq_div_pow]; omega
  cases hl : cpu.cache.armCache key with
  | some next =>
    refine ⟨setCursor cpu next, next, ?_, rfl, hok, hl, rfl, rfl, rfl, fun K h hK => hK,
      fun i x hx => hx⟩
    exact findBlockARM_hit isa fuel cpu (4 * key) next (by rw [hshift]; exact hl)
  | none =>
    obtain ⟨n, hn, hend⟩ := hterm (4 * key)
    obtain ⟨d, hdn, hfirst⟩ := FirstEndARM_exists isa cpu.memory (4 * key) n hend
    obtain ⟨st, hbuild, hi, hd⟩ := buildLoopARM_built isa cpu.memory (4 * key) d fuel hfirst
      (hal _ _ hfirst.2) (by omega)
    have hfind := findBlockARM_miss isa fuel cpu (4 * key) st (by rw [hshift]; exact hl) hbuild
    rw [hshift, hi, hd] at hfind
    refine ⟨_, cpu.cache.blocks.length, hfind, rfl, ?_, ?_, rfl, rfl, rfl, ?_, ?_⟩
    · exact cacheOKARM_insert hok key d hl hfirst
    · simp [setCursor, TableInsert]
    · intro K h hK
      have hne : K ≠ key := by
        intro h'; rw [h', hl] at hK; cases hK
      simp [setCursor, TableInsert, hne, hK]
    · intro i x hx
      have hlt : i < cpu.cache.blocks.length := by
        rcases Nat.lt_or_ge i cpu.cache.blocks.length with hlt | hge
        · exact hlt
        · rw [List.getElem?_eq_none hge] at hx; cases hx
      simp [setCursor, List.getElem?_append_left hlt, hx]

/-- The successor resolution of `_endBlockARM`, run at the terminator of the
current block on a cache that agrees with guest memory: it returns with the
cursor at the start of the table's block for the fall-through address and
keeps the agreement. -/
theorem successorARM_sync (isa : ISA) (fuel : Nat) (cpu : ARMCore) (key b d : Nat)
    (hok : CacheOKARM isa cpu.memory cpu.cache.armCache cpu.cache.blocks)
    (hkey : cpu.cache.armCache key = some b) (hcur : cpu.cache.block = some b)
    (hfirst : FirstEndARM isa cpu.memory (4 * key) d)
    (hpc : cpu.gprs ARM_PC = wrap32 (4 * key + 4 * (d + 1) + 8))
    (hterm : ∀ addr, ∃ d, d + 4 ≤ fuel ∧ endsBlock (isa.decodeARM (fetchARM cpu.memory addr d)))
    (hal : ∀ addr i, endsBlock (isa.decodeARM (fetchARM cpu.memory addr i)) →
      fetchARM cpu.memory addr (i + 1) >>> 28 = 0xE) :
    ∃ cpu1 next, successorARM isa fuel cpu = some cpu1
      ∧ cpu1 = { cpu with cache := cpu1.cache }
      ∧ CacheOKARM isa cpu.memory cpu1.cache.armCache cpu1.cache.blocks
      ∧ cpu1.cache.armCache (wrap32 (4 * key + 4 * (d + 1)) >>> 2) = some next
      ∧ cpu1.cache.block = some next ∧ cpu1.cache.instruction = 0 ∧ cpu1.cache.data = 0 := by
  obtain ⟨blk, d0, hblk, hf0, _⟩ := hok.built key b hkey
  have haddr : wrap32 (cpu.gprs ARM_PC + 2 ^ 32 - WORD_SIZE_ARM * 2)
      = 4 * (wrap32 (4 * key + 4 * (d + 1)) >>> 2) := by
    rw [hpc, Nat.shiftRight_eq_div_pow]
    unfold wrap32 WORD_SIZE_ARM
    omega
  unfold successorARM
  simp only [hcur, hblk]
  cases hnb : blk.nextBlock with
  | some next =>
    have hl := hok.linked key b d next blk hkey hblk hnb hfirst
    exact ⟨setCursor cpu next, next, rfl, rfl, hok, hl, rfl, rfl, rfl⟩
  | none =>
    obtain ⟨cpu1, next, hfind, hsame, hok1, htab, hblock, hins, hdat, hmono, hblocks⟩ :=
      findBlockARM_sync isa fuel cpu (wrap32 (4 * key + 4 * (d + 1)) >>> 2) hok hterm hal
    simp only [haddr, hfind]
    have hblk1 := hblocks b blk hblk
    rw [setNextBlock_entry cpu1 b blk _ hblk1, hblock]
    refine ⟨_, next, rfl, ?_, ?_, htab, hblock, hins, hdat⟩
    · conv_lhs => rw [hsame]
    · exact cacheOKARM_setNext hok1 key b d next blk (hmono key b hkey) hblk1 hfirst htab

/-- The handler under the cursor of a core whose current block is an ARM
block. -/
theorem currentARMInstruction_eq (cpu : ARMCore) (b : Nat) (blk : ARMCacheBlock)
    (chains : ARMCacheBlockARM) (hcur : cpu.cache.block = some b)
    (hblk : cpu.cache.blocks[b]? = some blk) (hch : blk.chains = BlockChains.arm chains) :
    currentARMInstruction cpu = chains.instruction[cpu.cache.instruction]? := by
  obtain ⟨c, n, br, ba⟩ := blk
  simp only at hch
  subst hch
  simp [currentARMInstruction, currentBlock, hcur, hblk]

/-- The word under the data cursor of a core whose current block is an ARM
block. -/
theorem currentARMData_eq (cpu : ARMCore) (b : Nat) (blk : ARMCacheBlock)
    (chains : ARMCacheBlockARM) (hcur : cpu.cache.block = some b)
    (hblk : cpu.cache.blocks[b]? = some blk) (hch : blk.chains = BlockChains.arm chains) :
    currentARMData cpu = chains.data[cpu.cache.data]? := by
  obtain ⟨c, n, br, ba⟩ := blk
  simp only at hch
  subst hch
  simp [currentARMData, currentBlock, hcur, hblk]

/-- `_runARM` on a failed condition. -/
theorem runARM_skip (isa : ISA) (endBlock : ARMCore → Nat → Option ARMCore) (cpu : ARMCore)
    (opcode : Nat)
    (hgate : opcode >>> 28 ≠ 0xE ∧ conditionMet cpu (opcode >>> 28) = false) :
    _runARM isa endBlock cpu opcode
      = some (advanceInstruction { cpu with cycles := cpu.cycles + ARM_PREFETCH_CYCLES cpu }) := by
  unfold _runARM
  simp only [hgate, ne_eq, not_false_eq_true, and_self, if_true]

/-- `_runARM` on a met condition with the cursor on a table handler. -/
theorem runARM_table (isa : ISA) (endBlock : ARMCore → Nat → Option ARMCore) (cpu : ARMCore)
    (opcode index : Nat)
    (hgate : ¬ (opcode >>> 28 ≠ 0xE ∧ conditionMet cpu (opcode >>> 28) = false))
    (hcur : currentARMInstruction cpu = some (ARMInstruction.table index)) :
    _runARM isa endBlock cpu opcode
      = some { isa.armExec index opcode (advanceInstruction cpu) with
          invoked := cpu.invoked ++ [Invocation.arm index opcode] } := by
  unfold _runARM
  simp only [hgate, if_false, hcur, callARM]
  rfl

/-- `_runARM` on a met condition with the cursor on the terminator. -/
theorem runARM_end (isa : ISA) (endBlock : ARMCore → Nat → Option ARMCore) (cpu : ARMCore)
    (opcode : Nat)
    (hgate : ¬ (opcode >>> 28 ≠ 0xE ∧ conditionMet cpu (opcode >>> 28) = false))
    (hcur : currentARMInstruction cpu = some ARMInstruction.endBlockARM) :
    _runARM isa endBlock cpu opcode = endBlock (advanceInstruction cpu) opcode := by
  unfold _runARM
  simp only [hgate, if_false, hcur, callARM]

/-- The condition gate reads the status word only. -/
theorem conditionMet_congr (a b : ARMCore) (h : a.cpsr = b.cpsr) (condition : Nat) :
    conditionMet a condition = conditionMet b condition := by
  unfold conditionMet ARM_COND_EQ ARM_COND_NE ARM_COND_CS ARM_COND_CC ARM_COND_MI ARM_COND_PL
    ARM_COND_VS ARM_COND_VC ARM_COND_HI ARM_COND_LS ARM_COND_GE ARM_COND_LT ARM_COND_GT
    ARM_COND_LE
  rw [h]

/-- The plain ARM step commutes with replacing the cache. -/
theorem ARMStep_cache (isa : ISA) (hline : StraightLine isa) (cpu : ARMCore) (cache : ARMCache) :
    ARMStep isa { cpu with cache := cache } = { ARMStep isa cpu with cache := cache } := by
  unfold ARMStep
  simp only [advancePC]
  split_ifs with h1 h2 h2
  · rfl
  · exact absurd h1 h2
  · exact absurd h2 h1
  · have := hline.arm_cache (armTableIndex cpu.prefetch.1) cpu.prefetch.1
      { cpu with
        gprs := Function.update cpu.gprs ARM_PC (wrap32 (cpu.gprs ARM_PC + WORD_SIZE_ARM)),
        prefetch := (cpu.prefetch.2,
          LOAD_32 cpu.memory.activeRegion
            (Function.update cpu.gprs ARM_PC (wrap32 (cpu.gprs ARM_PC + WORD_SIZE_ARM)) ARM_PC
              &&& cpu.memory.activeMask)) } cache
    simp only at this
    rw [this]

/-- The plain ARM step, with the fetch stage named. -/
theorem ARMStep_eq (isa : ISA) (cpu : ARMCore) :
    ARMStep isa cpu
      = if cpu.prefetch.1 >>> 28 ≠ 0xE
            ∧ conditionMet (fetched cpu WORD_SIZE_ARM
                (LOAD_32 cpu.memory.activeRegion
                  (wrap32 (cpu.gprs ARM_PC + WORD_SIZE_ARM) &&& cpu.memory.activeMask)))
                (cpu.prefetch.1 >>> 28) = false
        then
          { fetched cpu WORD_SIZE_ARM
              (LOAD_32 cpu.memory.activeRegion
                (wrap32 (cpu.gprs ARM_PC + WORD_SIZE_ARM) &&& cpu.memory.activeMask)) with
            cycles := cpu.cycles + ARM_PREFETCH_CYCLES cpu }
        else
          { isa.armExec (armTableIndex cpu.prefetch.1) cpu.prefetch.1
              (fetched cpu WORD_SIZE_ARM
                (LOAD_32 cpu.memory.activeRegion
                  (wrap32 (cpu.gprs ARM_PC + WORD_SIZE_ARM) &&& cpu.memory.activeMask))) with
            invoked := cpu.invoked
              ++ [Invocation.arm (armTableIndex cpu.prefetch.1) cpu.prefetch.1] } := by
  unfold ARMStep fetched
  simp only [advancePC, Function.update_same]
  rfl

/-- The cached ARM step, with the fetch stage named, when the data cursor is
on a word of the current block. -/
theorem ARMCacheStepARM_eq (isa : ISA) (fuel : Nat) (cpu : ARMCore) (word : Nat)
    (hdata : currentARMData cpu = some word) :
    ARMCacheStepARM isa fuel cpu
      = _runARM isa (_endBlockARM isa fuel)
          (advanceData (fetched cpu WORD_SIZE_ARM word) 1) cpu.prefetch.1 := by
  unfold ARMCacheStepARM
  have h : currentARMData (advancePC cpu WORD_SIZE_ARM) = some word := hdata
  simp only [h]
  rfl

/-- One cached ARM step from a synchronised state, under the hypotheses of the
equivalence: the step returns, the state stays synchronised over the same
memory, and outside the cache the result is the plain interpreter's. -/
theorem stepARM_sim (isa : ISA) (fuel : Nat) (cpu : ARMCore) (hline : StraightLine isa)
    (hmask : cpu.memory.activeMask < 2 ^ 32) (hsync : SyncARM isa cpu)
    (hterm : ∀ addr, ∃ d, d + 4 ≤ fuel ∧ endsBlock (isa.decodeARM (fetchARM cpu.memory addr d)))
    (hal : ∀ addr i, endsBlock (isa.decodeARM (fetchARM cpu.memory addr i)) →
      fetchARM cpu.memory addr (i + 1) >>> 28 = 0xE) :
    ∃ cpu', ARMCacheStepARM isa fuel cpu = some cpu' ∧ SyncARM isa cpu'
      ∧ cpu'.memory = cpu.memory ∧ cpu' = { ARMStep isa cpu with cache := cpu'.cache } := by
  obtain ⟨hok, key, b, d, i, hkey, hcur, hfirst, hi, hins, hdat, hpc, hpre⟩ := hsync
  obtain ⟨blk, d0, hblk, hf0, hchains⟩ := hok.built key b hkey
  have hd0 := FirstEndARM_unique isa cpu.memory _ _ _ hf0 hfirst
  subst hd0
  -- the fetch stage
  have hword : currentARMData cpu = some (fetchARM cpu.memory (4 * key) (i + 2)) := by
    rw [currentARMData_eq cpu b blk _ hcur hblk hchains, hdat]
    exact builtARM_data cpu.memory (4 * key) d0 (i + 2) (by omega)
  have hload : LOAD_32 cpu.memory.activeRegion
      (wrap32 (cpu.gprs ARM_PC + WORD_SIZE_ARM) &&& cpu.memory.activeMask)
      = fetchARM cpu.memory (4 * key) (i + 2) := by
    rw [hpc]; exact load_at_pc_ARM cpu.memory hmask (4 * key) i
  have hop : cpu.prefetch.1 = fetchARM cpu.memory (4 * key) i := by rw [hpre]
  have hp2 : cpu.prefetch.2 = fetchARM cpu.memory (4 * key) (i + 1) := by rw [hpre]
  rw [ARMCacheStepARM_eq isa fuel cpu _ hword, ARMStep_eq, hload]
  -- the state handed to `_runARM`
  have hBcur : (advanceData (fetched cpu WORD_SIZE_ARM (fetchARM cpu.memory (4 * key) (i + 2))) 1).cache.block
      = some b := hcur
  have hBblk : (advanceData (fetched cpu WORD_SIZE_ARM (fetchARM cpu.memory (4 * key) (i + 2))) 1).cache.blocks[b]?
      = some blk := hblk
  have hBins : currentARMInstruction
      (advanceData (fetched cpu WORD_SIZE_ARM (fetchARM cpu.memory (4 * key) (i + 2))) 1)
      = (builtARM cpu.memory (4 * key) d0).instruction[i]? := by
    rw [currentARMInstruction_eq _ b blk _ hBcur hBblk hchains]
    show _ = _
    rw [← hins]; rfl
  have hpcB : (fetched cpu WORD_SIZE_ARM (fetchARM cpu.memory (4 * key) (i + 2))).gprs ARM_PC
      = wrap32 (4 * key + 4 * (i + 1) + 4) := by
    simp only [fetched, advancePC, Function.update_same, hpc]
    unfold wrap32 WORD_SIZE_ARM
    omega
  have hgateB : ∀ c : Nat,
      conditionMet (advanceData (fetched cpu WORD_SIZE_ARM (fetchARM cpu.memory (4 * key) (i + 2))) 1) c
        = conditionMet (fetched cpu WORD_SIZE_ARM (fetchARM cpu.memory (4 * key) (i + 2))) c :=
    fun c => conditionMet_congr _ _ rfl c
  by_cases hgate : cpu.prefetch.1 >>> 28 ≠ 0xE
      ∧ conditionMet (fetched cpu WORD_SIZE_ARM (fetchARM cpu.memory (4 * key) (i + 2)))
          (cpu.prefetch.1 >>> 28) = false
  · -- failed condition
    have hid : i ≤ d0 := by
      by_contra hcon
      have hi' : i = d0 + 1 := by omega
      have := hal (4 * key) d0 hfirst.2
      rw [hop, hi'] at hgate
      exact hgate.1 this
    rw [runARM_skip isa _ _ _ (by rw [hgateB]; exact hgate), if_pos hgate]
    refine ⟨_, rfl, ?_, rfl, rfl⟩
    refine ⟨hok, key, b, d0, i + 1, hkey, hcur, hfirst, by omega, ?_, ?_, hpcB, ?_⟩
    · show cpu.cache.instruction + 1 = i + 1
      rw [hins]
    · show cpu.cache.data + 1 = i + 1 + 2
      rw [hdat]
    · show (cpu.prefetch.2, _)
        = (fetchARM cpu.memory (4 * key) (i + 1), fetchARM cpu.memory (4 * key) (i + 1 + 1))
      rw [hp2]
  · rw [if_neg hgate]
    by_cases hid : i ≤ d0
    · -- a real instruction
      have hcurB := hBins.trans (builtARM_instruction_table cpu.memory (4 * key) d0 i hid)
      rw [runARM_table isa _ _ _ _ (by rw [hgateB]; exact hgate) hcurB, ← hop]
      have hc := hline.arm_cache (armTableIndex cpu.prefetch.1) cpu.prefetch.1
        (fetched cpu WORD_SIZE_ARM (fetchARM cpu.memory (4 * key) (i + 2)))
        (advanceInstruction
          (advanceData (fetched cpu WORD_SIZE_ARM (fetchARM cpu.memory (4 * key) (i + 2))) 1)).cache
      have hcache : advanceInstruction
          (advanceData (fetched cpu WORD_SIZE_ARM (fetchARM cpu.memory (4 * key) (i + 2))) 1)
          = { fetched cpu WORD_SIZE_ARM (fetchARM cpu.memory (4 * key) (i + 2)) with
              cache := (advanceInstruction
                (advanceData (fetched cpu WORD_SIZE_ARM
                  (fetchARM cpu.memory (4 * key) (i + 2))) 1)).cache } := rfl
      rw [hcache, hc]
      refine ⟨_, rfl, ?_, ?_, rfl⟩
      · refine ⟨?_, key, b, d0, i + 1, ?_, ?_, ?_, by omega, ?_, ?_, ?_, ?_⟩
        · show CacheOKARM isa (isa.armExec _ _ _).memory _ _
          rw [hline.arm_memory]
          exact hok
        · exact hkey
        · exact hcur
        · show FirstEndARM isa (isa.armExec _ _ _).memory _ _
          rw [hline.arm_memory]
          exact hfirst
        · show cpu.cache.instruction + 1 = i + 1
          rw [hins]
        · show cpu.cache.data + 1 = i + 1 + 2
          rw [hdat]
        · show (isa.armExec _ _ _).gprs ARM_PC = _
          rw [hline.arm_pc]
          exact hpcB
        · show (isa.armExec _ _ _).prefetch = (fetchARM (isa.armExec _ _ _).memory _ _, _)
          rw [hline.arm_prefetch, hline.arm_memory]
          show (cpu.prefetch.2, _)
            = (fetchARM cpu.memory (4 * key) (i + 1), fetchARM cpu.memory (4 * key) (i + 1 + 1))
          rw [hp2]
      · show (isa.armExec _ _ _).memory = _
        rw [hline.arm_memory]
        rfl
    · -- the terminator
      have hi' : i = d0 + 1 := by omega
      subst hi'
      have hcurB := hBins.trans (builtARM_instruction_end cpu.memory (4 * key) d0)
      rw [runARM_end isa _ _ _ (by rw [hgateB]; exact hgate) hcurB]
      obtain ⟨fuel', rfl⟩ : ∃ f, fuel = f + 1 := by
        obtain ⟨n, hn, _⟩ := hterm 0
        exact ⟨fuel - 1, by omega⟩
      rw [_endBlockARM]
      obtain ⟨cpu1, next, hsucc, hsame, hok1, htab, hblock, hins1, hdat1⟩ :=
        successorARM_sync isa (fuel' + 1)
          (advanceInstruction
            (advanceData (fetched cpu WORD_SIZE_ARM (fetchARM cpu.memory (4 * key) (d0 + 1 + 2))) 1))
          key b d0 hok hkey hcur hfirst
          (show _ from hpcB.trans (by unfold wrap32; omega))
          hterm hal
      simp only [hsucc]
      have hsame' : cpu1
          = { fetched cpu WORD_SIZE_ARM (fetchARM cpu.memory (4 * key) (d0 + 1 + 2)) with
              cache := cpu1.cache } := hsame
      have hok1' : CacheOKARM isa cpu.memory cpu1.cache.armCache cpu1.cache.blocks := hok1
      generalize cpu1.cache = cache1 at hsame' hok1' htab hblock hins1 hdat1
      subst hsame'
      obtain ⟨blk', d', hblk', hf', hch'⟩ := hok1'.built _ next htab
      have halign : 4 * (wrap32 (4 * key + 4 * (d0 + 1)) >>> 2)
          = wrap32 (4 * key + 4 * (d0 + 1)) := by
        rw [Nat.shiftRight_eq_div_pow]
        unfold wrap32
        omega
      rw [halign] at hf' hch'
      have hfetch : ∀ j, fetchARM cpu.memory (wrap32 (4 * key + 4 * (d0 + 1))) j
          = fetchARM cpu.memory (4 * key) (d0 + 1 + j) :=
        fun j => fetchARM_wrap cpu.memory hmask (4 * key) (d0 + 1) j
      have hcur1 : currentARMInstruction
          (advanceData
            { fetched cpu WORD_SIZE_ARM (fetchARM cpu.memory (4 * key) (d0 + 1 + 2)) with
              cache := cache1 } 3)
          = some (ARMInstruction.table (armTableIndex cpu.prefetch.1)) := by
        rw [currentARMInstruction_eq _ next blk' _ hblock hblk' hch']
        show (builtARM cpu.memory _ d').instruction[cache1.instruction]? = _
        rw [hins1, builtARM_instruction_table _ _ _ 0 (by omega), hfetch 0, hop]
      rw [runARM_table isa _
        (advanceData
          { fetched cpu WORD_SIZE_ARM (fetchARM cpu.memory (4 * key) (d0 + 1 + 2)) with
            cache := cache1 } 3) _ _
        (fun h => hgate ⟨h.1, (conditionMet_congr _ _ rfl _).trans h.2⟩) hcur1]
      have hc := hline.arm_cache (armTableIndex cpu.prefetch.1) cpu.prefetch.1
        (fetched cpu WORD_SIZE_ARM (fetchARM cpu.memory (4 * key) (d0 + 1 + 2)))
        (advanceInstruction
          (advanceData
            { fetched cpu WORD_SIZE_ARM (fetchARM cpu.memory (4 * key) (d0 + 1 + 2)) with
              cache := cache1 } 3)).cache
      have hcache : advanceInstruction
          (advanceData
            { fetched cpu WORD_SIZE_ARM (fetchARM cpu.memory (4 * key) (d0 + 1 + 2)) with
              cache := cache1 } 3)
          = { fetched cpu WORD_SIZE_ARM (fetchARM cpu.memory (4 * key) (d0 + 1 + 2)) with
              cache := (advanceInstruction
                (advanceData
                  { fetched cpu WORD_SIZE_ARM (fetchARM cpu.memory (4 * key) (d0 + 1 + 2)) with
                    cache := cache1 } 3)).cache } := rfl
      rw [hcache, hc]
      refine ⟨_, rfl, ?_, ?_, rfl⟩
      · refine ⟨?_, wrap32 (4 * key + 4 * (d0 + 1)) >>> 2, next, d', 1, ?_, ?_, ?_, by omega,
          ?_, ?_, ?_, ?_⟩
        · show CacheOKARM isa (isa.armExec _ _ _).memory _ _
          rw [hline.arm_memory]
          exact hok1'
        · exact htab
        · exact hblock
        · show FirstEndARM isa (isa.armExec _ _ _).memory _ _
          rw [hline.arm_memory, halign]
          exact hf'
        · show cache1.instruction + 1 = 1
          rw [hins1]
        · show cache1.data + 3 = 1 + 2
          rw [hdat1]
        · show (isa.armExec _ _ _).gprs ARM_PC = _
          rw [hline.arm_pc, halign]
          exact hpcB.trans (by unfold wrap32; omega)
        · show (isa.armExec _ _ _).prefetch = (fetchARM (isa.armExec _ _ _).memory _ _, _)
          rw [hline.arm_prefetch, hline.arm_memory, halign]
          show (cpu.prefetch.2, _)
            = (fetchARM cpu.memory (wrap32 (4 * key + 4 * (d0 + 1))) 1,
                fetchARM cpu.memory (wrap32 (4 * key + 4 * (d0 + 1))) (1 + 1))
          rw [hp2, hfetch 1, hfetch (1 + 1)]
      · show (isa.armExec _ _ _).memory = _
        rw [hline.arm_memory]
        rfl

/-- The address the Thumb builder fetches from does not change when the entry
address is reduced to 32 bits. -/
theorem fetchThumb_wrap (memory : ARMMemory) (hm : memory.activeMask < 2 ^ 32) (a i j : Nat) :
    fetchThumb memory (wrap32 (a + 2 * i)) j = fetchThumb memory a (i + j) := by
  unfold fetchThumb wrap32 WORD_SIZE_THUMB
  rw [← and_mask_mod ((a + 2 * i) % 2 ^ 32 + 2 * j) _ hm, ← and_mask_mod (a + 2 * (i + j)) _ hm]
  congr 2
  omega

/-- The halfword the plain interpreter fetches at the program counter is the
halfword of the fetch stream two positions past the executing one. -/
theorem load_at_pc_Thumb (memory : ARMMemory) (hm : memory.activeMask < 2 ^ 32) (a i : Nat) :
    LOAD_16 memory.activeRegion
        (wrap32 (wrap32 (a + 2 * i + 2) + WORD_SIZE_THUMB) &&& memory.activeMask)
      = fetchThumb memory a (i + 2) := by
  unfold fetchThumb wrap32 WORD_SIZE_THUMB
  rw [← and_mask_mod (a + 2 * (i + 2)) _ hm,
    ← and_mask_mod (((a + 2 * i + 2) % 2 ^ 32 + 2) % 2 ^ 32) _ hm]
  congr 2
  omega

/-- The first block-ending position of a Thumb stream is unique. -/
theorem FirstEndThumb_unique (isa : ISA) (memory : ARMMemory) (addr d d' : Nat)
    (h : FirstEndThumb isa memory addr d) (h' : FirstEndThumb isa memory addr d') : d = d' := by
  rcases Nat.lt_trichotomy d d' with hlt | heq | hgt
  · exact absurd h.2 (h'.1 d hlt)
  · exact heq
  · exact absurd h'.2 (h.1 d' hgt)

/-- A Thumb stream that reaches a block-ending halfword has a first one, no
later. -/
theorem FirstEndThumb_exists (isa : ISA) (memory : ARMMemory) (addr n : Nat)
    (h : endsBlock (isa.decodeThumb (fetchThumb memory addr n))) :
    ∃ d, d ≤ n ∧ FirstEndThumb isa memory addr d := by
  classical
  have hex : ∃ k, endsBlock (isa.decodeThumb (fetchThumb memory addr k)) := ⟨n, h⟩
  refine ⟨Nat.find hex, Nat.find_min' hex h, ?_, Nat.find_spec hex⟩
  intro i hi
  exact Nat.find_min hex hi

/-- Entries of the opcode chain of a built Thumb block. -/
theorem builtThumb_data (memory : ARMMemory) (addr d j : Nat) (hj : j < d + 4) :
    (builtThumb memory addr d).data[j]? = some (fetchThumb memory addr j) := by
  simp [builtThumb, List.getElem?_map, List.getElem?_range hj]

/-- Real entries of the handler chain of a built Thumb block. -/
theorem builtThumb_instruction_table (memory : ARMMemory) (addr d j : Nat) (hj : j ≤ d) :
    (builtThumb memory addr d).instruction[j]?
      = some (ThumbInstruction.table (fetchThumb memory addr j >>> 6)) := by
  have hlt : j < d + 1 := by omega
  simp [builtThumb, List.getElem?_append_left, List.getElem?_map, List.getElem?_range hlt, hlt]

/-- The first terminator entry of the handler chain of a built Thumb
block. -/
theorem builtThumb_instruction_end (memory : ARMMemory) (addr d : Nat) :
    (builtThumb memory addr d).instruction[d + 1]? = some ThumbInstruction.endBlockThumb := by
  have hlen : (List.map (fun i => ThumbInstruction.table (fetchThumb memory addr i >>> 6))
      (List.range (d + 1))).length = d + 1 := by simp
  unfold builtThumb
  simp only
  rw [List.getElem?_append_right (by omega), hlen]
  simp [List.replicate]

/-- The Thumb builder, on a stream whose first block-ending halfword is at
`d`, produces `builtThumb`. -/
theorem buildLoopThumb_built (isa : ISA) (memory : ARMMemory) (addr d fuel : Nat)
    (hfirst : FirstEndThumb isa memory addr d) (hfuel : d + 4 ≤ fuel) :
    ∃ st, buildLoopThumb isa memory addr fuel BuildThumb.init = some st
      ∧ st.ichain = (builtThumb memory addr d).instruction
      ∧ st.dchain = (builtThumb memory addr d).data := by
  obtain ⟨st, ha, hb, hc⟩ := buildLoopThumb_live isa memory addr d fuel BuildThumb.init rfl
    (by intro i hi; simpa [BuildThumb.init] using hfirst.1 i hi)
    (by simpa [BuildThumb.init] using hfirst.2) hfuel
  refine ⟨st, ha, ?_, ?_⟩
  · rw [hb]; simp [BuildThumb.init, builtThumb]
  · rw [hc]; simp [BuildThumb.init, builtThumb]

/-- A handle the Thumb table holds points into the arena. -/
theorem cacheOKThumb_handle_lt {isa : ISA} {memory : ARMMemory} {table : Table}
    {blocks : List ARMCacheBlock} (hok : CacheOKThumb isa memory table blocks) (key h : Nat)
    (hkey : table key = some h) : h < blocks.length := by
  obtain ⟨blk, d, hblk, _, _⟩ := hok.built key h hkey
  rcases Nat.lt_or_ge h blocks.length with hlt | hge
  · exact hlt
  · rw [List.getElem?_eq_none hge] at hblk; cases hblk

/-- Entering a freshly built block under a key that missed keeps the Thumb
table and the arena in agreement with guest memory. -/
theorem cacheOKThumb_insert {isa : ISA} {memory : ARMMemory} {table : Table}
    {blocks : List ARMCacheBlock} (hok : CacheOKThumb isa memory table blocks) (key d : Nat)
    (hmiss : table key = none) (hfirst : FirstEndThumb isa memory (2 * key) d) :
    CacheOKThumb isa memory (TableInsert table key blocks.length)
      (blocks ++ [{ chains := BlockChains.thumb (builtThumb memory (2 * key) d),
                    nextBlock := none, branch := none, branchAddress := 0xFFFFFFFF }]) := by
  constructor
  · intro K h hK
    unfold TableInsert at hK
    by_cases hKk : K = key
    · subst hKk
      simp only [if_true, Option.some.injEq] at hK
      subst hK
      exact ⟨{ chains := BlockChains.thumb (builtThumb memory (2 * K) d),
                nextBlock := none, branch := none, branchAddress := 0xFFFFFFFF }, d, by simp,
        hfirst, rfl⟩
    · simp only [hKk, if_false] at hK
      obtain ⟨blk, d0, hblk, hf, hc⟩ := hok.built K h hK
      have hlt := cacheOKThumb_handle_lt hok K h hK
      exact ⟨blk, d0, by rw [List.getElem?_append_left hlt]; exact hblk, hf, hc⟩
  · intro K h d0 next blk hK hblk hnext hf
    unfold TableInsert at hK ⊢
    by_cases hKk : K = key
    · subst hKk
      simp only [if_true, Option.some.injEq] at hK
      subst hK
      simp at hblk
      subst hblk
      cases hnext
    · simp only [hKk, if_false] at hK
      have hlt := cacheOKThumb_handle_lt hok K h hK
      rw [List.getElem?_append_left hlt] at hblk
      have hl := hok.linked K h d0 next blk hK hblk hnext hf
      by_cases hs : wrap32 (2 * K + 2 * (d0 + 1)) >>> 1 = key
      · rw [hs, hmiss] at hl; cases hl
      · simp only [hs, if_false]; exact hl
  · intro K K' h hK hK'
    unfold TableInsert at hK hK'
    by_cases hKk : K = key <;> by_cases hKk' : K' = key
    · rw [hKk, hKk']
    · simp only [hKk, if_true, Option.some.injEq] at hK
      simp only [hKk', if_false] at hK'
      have := cacheOKThumb_handle_lt hok K' h hK'
      omega
    · simp only [hKk', if_true, Option.some.injEq] at hK'
      simp only [hKk, if_false] at hK
      have := cacheOKThumb_handle_lt hok K h hK
      omega
    · simp only [hKk, if_false] at hK
      simp only [hKk', if_false] at hK'
      exact hok.injective K K' h hK hK'

/-- Storing in a block's `nextBlock` the table's entry for the fall-through
address of its terminator keeps the Thumb table and the arena in agreement
with guest memory. -/
theorem cacheOKThumb_setNext {isa : ISA} {memory : ARMMemory} {table : Table}
    {blocks : List ARMCacheBlock} (hok : CacheOKThumb isa memory table blocks)
    (key b d next : Nat) (blk : ARMCacheBlock)
    (hkey : table key = some b) (hblk : blocks[b]? = some blk)
    (hfirst : FirstEndThumb isa memory (2 * key) d)
    (hnext : table (wrap32 (2 * key + 2 * (d + 1)) >>> 1) = some next) :
    CacheOKThumb isa memory table (blocks.set b { blk with nextBlock := some next }) := by
  have hb := cacheOKThumb_handle_lt hok key b hkey
  constructor
  · intro K h hK
    obtain ⟨blk0, d0, hblk0, hf, hc⟩ := hok.built K h hK
    by_cases hh : h = b
    · subst hh
      rw [hblk] at hblk0
      simp only [Option.some.injEq] at hblk0
      subst hblk0
      exact ⟨_, d0, List.getElem?_set_self hb, hf, hc⟩
    · refine ⟨blk0, d0, ?_, hf, hc⟩
      rw [List.getElem?_set_ne (Ne.symm hh)]
      exact hblk0
  · intro K h d0 nb blk' hK hblk' hnb hf
    by_cases hh : h = b
    · subst hh
      rw [List.getElem?_set_self hb] at hblk'
      simp only [Option.some.injEq] at hblk'
      subst hblk'
      simp only [Option.some.injEq] at hnb
      subst hnb
      have hKk := hok.injective K key h hK hkey
      subst hKk
      have hd := FirstEndThumb_unique isa memory _ _ _ hf hfirst
      subst hd
      exact hnext
    · rw [List.getElem?_set_ne (Ne.symm hh)] at hblk'
      exact hok.linked K h d0 nb blk' hK hblk' hnb hf
  · exact hok.injective

/-- A lookup by `ARMCacheFindBlockThumb` at a halfword address, on a cache
that agrees with guest memory whose builds terminate, returns with the cursor
at the start of the table's block for that address and keeps the agreement;
old table entries and arena entries stay. -/
theorem findBlockThumb_sync (isa : ISA) (fuel : Nat) (cpu : ARMCore) (key : Nat)
    (hok : CacheOKThumb isa cpu.memory cpu.cache.thumbCache cpu.cache.blocks)
    (hterm : ∀ addr, ∃ d, d + 4 ≤ fuel
      ∧ endsBlock (isa.decodeThumb (fetchThumb cpu.memory addr d))) :
    ∃ cpu1 next, ARMCacheFindBlockThumb isa fuel cpu (2 * key) = some cpu1
      ∧ cpu1 = { cpu with cache := cpu1.cache }
      ∧ CacheOKThumb isa cpu.memory cpu1.cache.thumbCache cpu1.cache.blocks
      ∧ cpu1.cache.thumbCache key = some next
      ∧ cpu1.cache.block = some next ∧ cpu1.cache.instruction = 0 ∧ cpu1.cache.data = 0
      ∧ (∀ (K h : Nat), cpu.cache.thumbCache K = some h → cpu1.cache.thumbCache K = some h)
      ∧ (∀ (i : Nat) (x : ARMCacheBlock), cpu.cache.blocks[i]? = some x →
          cpu1.cache.blocks[i]? = some x) := by
  have hshift : (2 * key) >>> 1 = key := by
    rw [Nat.shiftRight_eq_div_pow]; omega
  cases hl : cpu.cache.thumbCache key with
  | some next =>
    refine ⟨setCursor cpu next, next, ?_, rfl, hok, hl, rfl, rfl, rfl, fun K h hK => hK,
      fun i x hx => hx⟩
    exact findBlockThumb_hit isa fuel cpu (2 * key) next (by rw [hshift]; exact hl)
  | none =>
    obtain ⟨n, hn, hend⟩ := hterm (2 * key)
    obtain ⟨d, hdn, hfirst⟩ := FirstEndThumb_exists isa cpu.memory (2 * key) n hend
    obtain ⟨st, hbuild, hi, hd⟩ := buildLoopThumb_built isa cpu.memory (2 * key) d fuel hfirst
      (by omega)
    have hfind := findBlockThumb_miss isa fuel cpu (2 * key) st (by rw [hshift]; exact hl) hbuild
    rw [hshift, hi, hd] at hfind
    refine ⟨_, cpu.cache.blocks.length, hfind, rfl, ?_, ?_, rfl, rfl, rfl, ?_, ?_⟩
    · exact cacheOKThumb_insert hok key d hl hfirst
    · simp [setCursor, TableInsert]
    · intro K h hK
      have hne : K ≠ key := by
        intro h'; rw [h', hl] at hK; cases hK
      simp [setCursor, TableInsert, hne, hK]
    · intro i x hx
      have hlt : i < cpu.cache.blocks.length := by
        rcases Nat.lt_or_ge i cpu.cache.blocks.length with hlt | hge
        · exact hlt
        · rw [List.getElem?_eq_none hge] at hx; cases hx
      simp [setCursor, List.getElem?_append_left hlt, hx]

/-- The successor resolution of `_endBlockThumb`, run at the first terminator
of the current block on a cache that agrees with guest memory: it returns
with the cursor at the start of the table's block for the fall-through
address and keeps the agreement. -/
theorem successorThumb_sync (isa : ISA) (fuel : Nat) (cpu : ARMCore) (key b d : Nat)
    (hok : CacheOKThumb isa cpu.memory cpu.cache.thumbCache cpu.cache.blocks)
    (hkey : cpu.cache.thumbCache key = some b) (hcur : cpu.cache.block = some b)
    (hfirst : FirstEndThumb isa cpu.memory (2 * key) d)
    (hpc : cpu.gprs ARM_PC = wrap32 (2 * key + 2 * (d + 1) + 4))
    (hterm : ∀ addr, ∃ d, d + 4 ≤ fuel
      ∧ endsBlock (isa.decodeThumb (fetchThumb cpu.memory addr d))) :
    ∃ cpu1 next, successorThumb isa fuel cpu = some cpu1
      ∧ cpu1 = { cpu with cache := cpu1.cache }
      ∧ CacheOKThumb isa cpu.memory cpu1.cache.thumbCache cpu1.cache.blocks
      ∧ cpu1.cache.thumbCache (wrap32 (2 * key + 2 * (d + 1)) >>> 1) = some next
      ∧ cpu1.cache.block = some next ∧ cpu1.cache.instruction = 0 ∧ cpu1.cache.data = 0 := by
  obtain ⟨blk, d0, hblk, hf0, _⟩ := hok.built key b hkey
  have haddr : wrap32 (cpu.gprs ARM_PC + 2 ^ 32 - WORD_SIZE_THUMB * 2)
      = 2 * (wrap32 (2 * key + 2 * (d + 1)) >>> 1) := by
    rw [hpc, Nat.shiftRight_eq_div_pow]
    unfold wrap32 WORD_SIZE_THUMB
    omega
  unfold successorThumb
  simp only [hcur, hblk]
  cases hnb : blk.nextBlock with
  | some next =>
    have hl := hok.linked key b d next blk hkey hblk hnb hfirst
    exact ⟨setCursor cpu next, next, rfl, rfl, hok, hl, rfl, rfl, rfl⟩
  | none =>
    obtain ⟨cpu1, next, hfind, hsame, hok1, htab, hblock, hins, hdat, hmono, hblocks⟩ :=
      findBlockThumb_sync isa fuel cpu (wrap32 (2 * key + 2 * (d + 1)) >>> 1) hok hterm
    simp only [haddr, hfind]
    have hblk1 := hblocks b blk hblk
    rw [setNextBlock_entry cpu1 b blk _ hblk1, hblock]
    refine ⟨_, next, rfl, ?_, ?_, htab, hblock, hins, hdat⟩
    · conv_lhs => rw [hsame]
    · exact cacheOKThumb_setNext hok1 key b d next blk (hmono key b hkey) hblk1 hfirst htab

/-- The handler under the cursor of a core whose current block is a Thumb
block. -/
theorem currentThumbInstruction_eq (cpu : ARMCore) (b : Nat) (blk : ARMCacheBlock)
    (chains : ARMCacheBlockThumb) (hcur : cpu.cache.block = some b)
    (hblk : cpu.cache.blocks[b]? = some blk) (hch : blk.chains = BlockChains.thumb chains) :
    currentThumbInstruction cpu = chains.instruction[cpu.cache.instruction]? := by
  obtain ⟨c, n, br, ba⟩ := blk
  simp only at hch
  subst hch
  simp [currentThumbInstruction, currentBlock, hcur, hblk]

/-- The halfword under the data cursor of a core whose current block is a
Thumb block. -/
theorem currentThumbData_eq (cpu : ARMCore) (b : Nat) (blk : ARMCacheBlock)
    (chains : ARMCacheBlockThumb) (hcur : cpu.cache.block = some b)
    (hblk : cpu.cache.blocks[b]? = some blk) (hch : blk.chains = BlockChains.thumb chains) :
    currentThumbData cpu = chains.data[cpu.cache.data]? := by
  obtain ⟨c, n, br, ba⟩ := blk
  simp only at hch
  subst hch
  simp [currentThumbData, currentBlock, hcur, hblk]

/-- `_runThumb` with the cursor on a table handler. -/
theorem runThumb_table (isa : ISA) (endBlock : ARMCore → Nat → Option ARMCore) (cpu : ARMCore)
    (opcode index : Nat)
    (hcur : currentThumbInstruction cpu = some (ThumbInstruction.table index)) :
    _runThumb isa endBlock cpu opcode
      = some { isa.thumbExec index opcode (advanceInstruction cpu) with
          invoked := cpu.invoked ++ [Invocation.thumb index opcode] } := by
  unfold _runThumb
  simp only [hcur, callThumb]
  rfl

/-- `_runThumb` with the cursor on the terminator. -/
theorem runThumb_end (isa : ISA) (endBlock : ARMCore → Nat → Option ARMCore) (cpu : ARMCore)
    (opcode : Nat)
    (hcur : currentThumbInstruction cpu = some ThumbInstruction.endBlockThumb) :
    _runThumb isa endBlock cpu opcode = endBlock (advanceInstruction cpu) opcode := by
  unfold _runThumb
  simp only [hcur, callThumb]

/-- The plain Thumb step commutes with replacing the cache. -/
theorem ThumbStep_cache (isa : ISA) (hline : StraightLine isa) (cpu : ARMCore)
    (cache : ARMCache) :
    ThumbStep isa { cpu with cache := cache } = { ThumbStep isa cpu with cache := cache } := by
  unfold ThumbStep
  simp only [advancePC]
  have := hline.thumb_cache (cpu.prefetch.1 >>> 6) cpu.prefetch.1
    { cpu with
      gprs := Function.update cpu.gprs ARM_PC (wrap32 (cpu.gprs ARM_PC + WORD_SIZE_THUMB)),
      prefetch := (cpu.prefetch.2,
        LOAD_16 cpu.memory.activeRegion
          (Function.update cpu.gprs ARM_PC (wrap32 (cpu.gprs ARM_PC + WORD_SIZE_THUMB)) ARM_PC
            &&& cpu.memory.activeMask)) } cache
  simp only at this
  rw [this]

/-- The plain Thumb step, with the fetch stage named. -/
theorem ThumbStep_eq (isa : ISA) (cpu : ARMCore) :
    ThumbStep isa cpu
      = { isa.thumbExec (cpu.prefetch.1 >>> 6) cpu.prefetch.1
            (fetched cpu WORD_SIZE_THUMB
              (LOAD_16 cpu.memory.activeRegion
                (wrap32 (cpu.gprs ARM_PC + WORD_SIZE_THUMB) &&& cpu.memory.activeMask))) with
          invoked := cpu.invoked
            ++ [Invocation.thumb (cpu.prefetch.1 >>> 6) cpu.prefetch.1] } := by
  unfold ThumbStep fetched
  simp only [advancePC, Function.update_same]

/-- The cached Thumb step, with the fetch stage named, when the data cursor is
on a halfword of the current block. -/
theorem ARMCacheStepThumb_eq (isa : ISA) (fuel : Nat) (cpu : ARMCore) (word : Nat)
    (hdata : currentThumbData cpu = some word) :
    ARMCacheStepThumb isa fuel cpu
      = _runThumb isa (_endBlockThumb isa fuel)
          (advanceData (fetched cpu WORD_SIZE_THUMB word) 1) cpu.prefetch.1 := by
  unfold ARMCacheStepThumb
  have h : currentThumbData (advancePC cpu WORD_SIZE_THUMB) = some word := hdata
  simp only [h]
  rfl

/-- One cached Thumb step from a synchronised state, under the hypotheses of
the equivalence: the step returns, the state stays synchronised over the same
memory, and outside the cache the result is the plain interpreter's. -/
theorem stepThumb_sim (isa : ISA) (fuel : Nat) (cpu : ARMCore) (hline : StraightLine isa)
    (hmask : cpu.memory.activeMask < 2 ^ 32) (hsync : SyncThumb isa cpu)
    (hterm : ∀ addr, ∃ d, d + 4 ≤ fuel
      ∧ endsBlock (isa.decodeThumb (fetchThumb cpu.memory addr d))) :
    ∃ cpu', ARMCacheStepThumb isa fuel cpu = some cpu' ∧ SyncThumb isa cpu'
      ∧ cpu'.memory = cpu.memory ∧ cpu' = { ThumbStep isa cpu with cache := cpu'.cache } := by
  obtain ⟨hok, key, b, d, i, hkey, hcur, hfirst, hi, hins, hdat, hpc, hpre⟩ := hsync
  obtain ⟨blk, d0, hblk, hf0, hchains⟩ := hok.built key b hkey
  have hd0 := FirstEndThumb_unique isa cpu.memory _ _ _ hf0 hfirst
  subst hd0
  -- the fetch stage
  have hword : currentThumbData cpu = some (fetchThumb cpu.memory (2 * key) (i + 2)) := by
    rw [currentThumbData_eq cpu b blk _ hcur hblk hchains, hdat]
    exact builtThumb_data cpu.memory (2 * key) d0 (i + 2) (by omega)
  have hload : LOAD_16 cpu.memory.activeRegion
      (wrap32 (cpu.gprs ARM_PC + WORD_SIZE_THUMB) &&& cpu.memory.activeMask)
      = fetchThumb cpu.memory (2 * key) (i + 2) := by
    rw [hpc]; exact load_at_pc_Thumb cpu.memory hmask (2 * key) i
  have hop : cpu.prefetch.1 = fetchThumb cpu.memory (2 * key) i := by rw [hpre]
  have hp2 : cpu.prefetch.2 = fetchThumb cpu.memory (2 * key) (i + 1) := by rw [hpre]
  rw [ARMCacheStepThumb_eq isa fuel cpu _ hword, ThumbStep_eq, hload]
  -- the state handed to `_runThumb`
  have hBcur : (advanceData (fetched cpu WORD_SIZE_THUMB
      (fetchThumb cpu.memory (2 * key) (i + 2))) 1).cache.block = some b := hcur
  have hBblk : (advanceData (fetched cpu WORD_SIZE_THUMB
      (fetchThumb cpu.memory (2 * key) (i + 2))) 1).cache.blocks[b]? = some blk := hblk
  have hBins : currentThumbInstruction
      (advanceData (fetched cpu WORD_SIZE_THUMB (fetchThumb cpu.memory (2 * key) (i + 2))) 1)
      = (builtThumb cpu.memory (2 * key) d0).instruction[i]? := by
    rw [currentThumbInstruction_eq _ b blk _ hBcur hBblk hchains]
    show _ = _
    rw [← hins]; rfl
  have hpcB : (fetched cpu WORD_SIZE_THUMB (fetchThumb cpu.memory (2 * key) (i + 2))).gprs ARM_PC
      = wrap32 (2 * key + 2 * (i + 1) + 2) := by
    simp only [fetched, advancePC, Function.update_same, hpc]
    unfold wrap32 WORD_SIZE_THUMB
    omega
  by_cases hid : i ≤ d0
  · -- a real instruction
    have hcurB := hBins.trans (builtThumb_instruction_table cpu.memory (2 * key) d0 i hid)
    rw [runThumb_table isa _ _ _ _ hcurB, ← hop]
    have hc := hline.thumb_cache (cpu.prefetch.1 >>> 6) cpu.prefetch.1
      (fetched cpu WORD_SIZE_THUMB (fetchThumb cpu.memory (2 * key) (i + 2)))
      (advanceInstruction
        (advanceData (fetched cpu WORD_SIZE_THUMB
          (fetchThumb cpu.memory (2 * key) (i + 2))) 1)).cache
    have hcache : advanceInstruction
        (advanceData (fetched cpu WORD_SIZE_THUMB (fetchThumb cpu.memory (2 * key) (i + 2))) 1)
        = { fetched cpu WORD_SIZE_THUMB (fetchThumb cpu.memory (2 * key) (i + 2)) with
            cache := (advanceInstruction
              (advanceData (fetched cpu WORD_SIZE_THUMB
                (fetchThumb cpu.memory (2 * key) (i + 2))) 1)).cache } := rfl
    rw [hcache, hc]
    refine ⟨_, rfl, ?_, ?_, rfl⟩
    · refine ⟨?_, key, b, d0, i + 1, ?_, ?_, ?_, by omega, ?_, ?_, ?_, ?_⟩
      · show CacheOKThumb isa (isa.thumbExec _ _ _).memory _ _
        rw [hline.thumb_memory]
        exact hok
      · exact hkey
      · exact hcur
      · show FirstEndThumb isa (isa.thumbExec _ _ _).memory _ _
        rw [hline.thumb_memory]
        exact hfirst
      · show cpu.cache.instruction + 1 = i + 1
        rw [hins]
      · show cpu.cache.data + 1 = i + 1 + 2
        rw [hdat]
      · show (isa.thumbExec _ _ _).gprs ARM_PC = _
        rw [hline.thumb_pc]
        exact hpcB
      · show (isa.thumbExec _ _ _).prefetch = (fetchThumb (isa.thumbExec _ _ _).memory _ _, _)
        rw [hline.thumb_prefetch, hline.thumb_memory]
        show (cpu.prefetch.2, _)
          = (fetchThumb cpu.memory (2 * key) (i + 1), fetchThumb cpu.memory (2 * key) (i + 1 + 1))
        rw [hp2]
    · show (isa.thumbExec _ _ _).memory = _
      rw [hline.thumb_memory]
      rfl
  · -- the terminator
    have hi' : i = d0 + 1 := by omega
    subst hi'
    have hcurB := hBins.trans (builtThumb_instruction_end cpu.memory (2 * key) d0)
    rw [runThumb_end isa _ _ _ hcurB]
    obtain ⟨fuel', rfl⟩ : ∃ f, fuel = f + 1 := by
      obtain ⟨n, hn, _⟩ := hterm 0
      exact ⟨fuel - 1, by omega⟩
    rw [_endBlockThumb]
    obtain ⟨cpu1, next, hsucc, hsame, hok1, htab, hblock, hins1, hdat1⟩ :=
      successorThumb_sync isa (fuel' + 1)
        (advanceInstruction
          (advanceData (fetched cpu WORD_SIZE_THUMB
            (fetchThumb cpu.memory (2 * key) (d0 + 1 + 2))) 1))
        key b d0 hok hkey hcur hfirst
        (show _ from hpcB.trans (by unfold wrap32; omega))
        hterm
    simp only [hsucc]
    have hsame' : cpu1
        = { fetched cpu WORD_SIZE_THUMB (fetchThumb cpu.memory (2 * key) (d0 + 1 + 2)) with
            cache := cpu1.cache } := hsame
    have hok1' : CacheOKThumb isa cpu.memory cpu1.cache.thumbCache cpu1.cache.blocks := hok1
    generalize cpu1.cache = cache1 at hsame' hok1' htab hblock hins1 hdat1
    subst hsame'
    obtain ⟨blk', d', hblk', hf', hch'⟩ := hok1'.built _ next htab
    have halign : 2 * (wrap32 (2 * key + 2 * (d0 + 1)) >>> 1)
        = wrap32 (2 * key + 2 * (d0 + 1)) := by
      rw [Nat.shiftRight_eq_div_pow]
      unfold wrap32
      omega
    rw [halign] at hf' hch'
    have hfetch : ∀ j, fetchThumb cpu.memory (wrap32 (2 * key + 2 * (d0 + 1))) j
        = fetchThumb cpu.memory (2 * key) (d0 + 1 + j) :=
      fun j => fetchThumb_wrap cpu.memory hmask (2 * key) (d0 + 1) j
    have hcur1 : currentThumbInstruction
        (advanceData
          { fetched cpu WORD_SIZE_THUMB (fetchThumb cpu.memory (2 * key) (d0 + 1 + 2)) with
            cache := cache1 } 3)
        = some (ThumbInstruction.table (cpu.prefetch.1 >>> 6)) := by
      rw [currentThumbInstruction_eq _ next blk' _ hblock hblk' hch']
      show (builtThumb cpu.memory _ d').instruction[cache1.instruction]? = _
      rw [hins1, builtThumb_instruction_table _ _ _ 0 (by omega), hfetch 0, hop]
    rw [runThumb_table isa _
      (advanceData
        { fetched cpu WORD_SIZE_THUMB (fetchThumb cpu.memory (2 * key) (d0 + 1 + 2)) with
          cache := cache1 } 3) _ _ hcur1]
    have hc := hline.thumb_cache (cpu.prefetch.1 >>> 6) cpu.prefetch.1
      (fetched cpu WORD_SIZE_THUMB (fetchThumb cpu.memory (2 * key) (d0 + 1 + 2)))
      (advanceInstruction
        (advanceData
          { fetched cpu WORD_SIZE_THUMB (fetchThumb cpu.memory (2 * key) (d0 + 1 + 2)) with
            cache := cache1 } 3)).cache
    have hcache : advanceInstruction
        (advanceData
          { fetched cpu WORD_SIZE_THUMB (fetchThumb cpu.memory (2 * key) (d0 + 1 + 2)) with
            cache := cache1 } 3)
        = { fetched cpu WORD_SIZE_THUMB (fetchThumb cpu.memory (2 * key) (d0 + 1 + 2)) with
            cache := (advanceInstruction
              (advanceData
                { fetched cpu WORD_SIZE_THUMB (fetchThumb cpu.memory (2 * key) (d0 + 1 + 2)) with
                  cache := cache1 } 3)).cache } := rfl
    rw [hcache, hc]
    refine ⟨_, rfl, ?_, ?_, rfl⟩
    · refine ⟨?_, wrap32 (2 * key + 2 * (d0 + 1)) >>> 1, next, d', 1, ?_, ?_, ?_, by omega,
        ?_, ?_, ?_, ?_⟩
      · show CacheOKThumb isa (isa.thumbExec _ _ _).memory _ _
        rw [hline.thumb_memory]
        exact hok1'
      · exact htab
      · exact hblock
      · show FirstEndThumb isa (isa.thumbExec _ _ _).memory _ _
        rw [hline.thumb_memory, halign]
        exact hf'
      · show cache1.instruction + 1 = 1
        rw [hins1]
      · show cache1.data + 3 = 1 + 2
        rw [hdat1]
      · show (isa.thumbExec _ _ _).gprs ARM_PC = _
        rw [hline.thumb_pc, halign]
        exact hpcB.trans (by unfold wrap32; omega)
      · show (isa.thumbExec _ _ _).prefetch = (fetchThumb (isa.thumbExec _ _ _).memory _ _, _)
        rw [hline.thumb_prefetch, hline.thumb_memory, halign]
        show (cpu.prefetch.2, _)
          = (fetchThumb cpu.memory (wrap32 (2 * key + 2 * (d0 + 1))) 1,
              fetchThumb cpu.memory (wrap32 (2 * key + 2 * (d0 + 1))) (1 + 1))
        rw [hp2, hfetch 1, hfetch (1 + 1)]
    · show (isa.thumbExec _ _ _).memory = _
      rw [hline.thumb_memory]
      rfl

/-- The bounded loop over a cached step and over a plain step agree outside
the cache, as long as an invariant makes each cached step return the plain
step's state outside the cache. -/
theorem cacheLoop_sim (stepC : ARMCore → Option ARMCore) (stepU : ARMCore → ARMCore)
    (Inv : ARMCore → Prop)
    (hstep : ∀ c, Inv c →
      ∃ c', stepC c = some c' ∧ Inv c' ∧ c' = { stepU c with cache := c'.cache })
    (hU : ∀ (c : ARMCore) (cache : ARMCache),
      stepU { c with cache := cache } = { stepU c with cache := cache })
    (k : ARMCache) :
    ∀ (n : Nat) (c : ARMCore), Inv c →
      (cacheLoop stepC n c).map (fun x => { x with cache := k })
        = cacheLoop (fun u => some (stepU u)) n { c with cache := k } := by
  intro n
  induction n with
  | zero =>
    intro c _
    simp only [cacheLoop]
    by_cases hlt : c.cycles < c.nextEvent
    · simp [hlt]
    · simp [hlt]
  | succ n ih =>
    intro c hinv
    simp only [cacheLoop]
    by_cases hlt : c.cycles < c.nextEvent
    · obtain ⟨c', hc, hinv', hsame⟩ := hstep c hinv
      simp only [hlt, if_true, hc]
      rw [ih c' hinv', hU]
      congr 1
      conv_lhs => rw [hsame]
    · simp [hlt]

/-- No-cache equivalence on straight-line code.  Take
a core with the cache active whose prefetch pipeline is consistent with the cursor of its
current block (`Synchronised`), handlers of straight-line code
(`StraightLine`), a memory mask below `2 ^ 32`, and guest memory on which
every block build terminates within the fuel (in ARM state, moreover, every
block-ending word is followed by a word with condition field `0xE`).  Then
`ARMCacheRunLoop` returns exactly when the plain interpreter loop does, and
outside the cache both return the same state: the same registers, flags and
cycle count, and the same sequence of invoked (handler, opcode) pairs. -/
theorem cache_equivalence (isa : ISA) (fuel steps : Nat) (cpu : ARMCore)
    (hactive : cpu.cache.active = true) (hline : StraightLine isa)
    (hmask : cpu.memory.activeMask < 2 ^ 32) (hsync : Synchronised isa cpu)
    (hterm : BuildsTerminate isa cpu fuel) :
    (ARMCacheRunLoop isa (ARMRunLoop isa steps) fuel steps cpu).map
        (fun c => { c with cache := cpu.cache })
      = ARMRunLoop isa steps cpu := by
  unfold ARMCacheRunLoop ARMRunLoop
  unfold Synchronised at hsync
  unfold BuildsTerminate at hterm
  simp only [hactive, if_true]
  by_cases hmode : cpu.executionMode = ExecutionMode.MODE_THUMB
  · simp only [hmode, if_true] at hsync hterm ⊢
    have hloop := cacheLoop_sim (ARMCacheStepThumb isa fuel) (ThumbStep isa)
      (fun c => SyncThumb isa c ∧ c.memory = cpu.memory)
      (by
        intro c hc
        obtain ⟨c', h1, h2, h3, h4⟩ := stepThumb_sim isa fuel c hline (by rw [hc.2]; exact hmask)
          hc.1 (by rw [hc.2]; exact hterm)
        exact ⟨c', h1, ⟨h2, h3.trans hc.2⟩, h4⟩)
      (ThumbStep_cache isa hline) cpu.cache steps cpu ⟨hsync, rfl⟩
    have hcpu : ({ cpu with cache := cpu.cache } : ARMCore) = cpu := rfl
    rw [hcpu] at hloop
    rw [← hloop]
    cases cacheLoop (ARMCacheStepThumb isa fuel) steps cpu with
    | none => rfl
    | some c =>
      exact congrArg some (hline.events_cache c cpu.cache).symm
  · simp only [hmode, if_false] at hsync hterm ⊢
    have hloop := cacheLoop_sim (ARMCacheStepARM isa fuel) (ARMStep isa)
      (fun c => SyncARM isa c ∧ c.memory = cpu.memory)
      (by
        intro c hc
        obtain ⟨c', h1, h2, h3, h4⟩ := stepARM_sim isa fuel c hline (by rw [hc.2]; exact hmask)
          hc.1 (by rw [hc.2]; exact hterm.1) (by rw [hc.2]; exact hterm.2)
        exact ⟨c', h1, ⟨h2, h3.trans hc.2⟩, h4⟩)
      (ARMStep_cache isa hline) cpu.cache steps cpu ⟨hsync, rfl⟩
    have hcpu : ({ cpu with cache := cpu.cache } : ARMCore) = cpu := rfl
    rw [hcpu] at hloop
    rw [← hloop]
    cases cacheLoop (ARMCacheStepARM isa fuel) steps cpu with
    | none => rfl
    | some c =>
      exact congrArg some (hline.events_cache c cpu.cache).symm

/-- On the image of zero bytes the ARM build loop never reaches its
`break`. -/
theorem buildLoopARM_branchFree (memory : ARMMemory) (hregion : memory.activeRegion = zeroRegion)
    (addr : Nat) : ∀ (fuel : Nat) (st : BuildARM), st.blockEnded = 0 →
      buildLoopARM sampleISA memory addr fuel st = none := by
  have hfetch : ∀ i, fetchARM memory addr i = 0 := by
    intro i
    simp [fetchARM, LOAD_32, hregion, zeroRegion]
  intro fuel
  induction fuel with
  | zero => intro st _; rfl
  | succ fuel ih =>
    intro st hst
    rw [buildLoopARM]
    simp only [hst, if_true, hfetch]
    exact ih _ (by simp [sampleISA, sampleDecodeARM])

/-- Every ARM word of the image of traps is `0xEF000000`. -/
theorem fetchARM_trap (memory : ARMMemory) (hregion : memory.activeRegion = trapRegion)
    (addr i : Nat) : fetchARM memory addr i = 0xEF000000 := by
  unfold fetchARM LOAD_32
  rw [hregion]
  simp only [trapRegion]
  have h0 : (4 * (((addr + WORD_SIZE_ARM * i) &&& memory.activeMask) >>> 2)) % 4 = 0 := by omega
  have h1 : (4 * (((addr + WORD_SIZE_ARM * i) &&& memory.activeMask) >>> 2) + 1) % 4 = 1 := by
    omega
  have h2 : (4 * (((addr + WORD_SIZE_ARM * i) &&& memory.activeMask) >>> 2) + 2) % 4 = 2 := by
    omega
  have h3 : (4 * (((addr + WORD_SIZE_ARM * i) &&& memory.activeMask) >>> 2) + 3) % 4 = 3 := by
    omega
  simp [h0, h1, h2, h3]

/-- The handlers and the event hook of the concrete machine are those of
straight-line code. -/
theorem sampleISA_straight : StraightLine sampleISA := by
  constructor <;> intros <;> rfl

/-- The concrete core over the image of traps is synchronised. -/
theorem trapCore_sync : Synchronised sampleISA trapCore := by
  have hfetch := fetchARM_trap trapCore.memory rfl
  have hfirst : ∀ addr, FirstEndARM sampleISA trapCore.memory addr 0 := by
    intro addr
    refine ⟨fun i hi => absurd hi (Nat.not_lt_zero i), ?_⟩
    rw [hfetch]
    decide
  have hmode : ¬ trapCore.executionMode = ExecutionMode.MODE_THUMB := by decide
  unfold Synchronised
  rw [if_neg hmode]
  refine ⟨⟨?_, ?_, ?_⟩, 0, 0, 0, 0, rfl, rfl, hfirst _, by omega, rfl, rfl, rfl, ?_⟩
  · intro key h hkey
    have hk : key = 0 ∧ h = 0 := by
      simp only [trapCore, TableInsert, TableInit] at hkey
      by_cases hk : key = 0
      · simp [hk] at hkey; exact ⟨hk, hkey.symm⟩
      · simp [hk] at hkey
    obtain ⟨rfl, rfl⟩ := hk
    refine ⟨_, 0, rfl, hfirst _, ?_⟩
    have hchains : builtARM trapCore.memory (4 * 0) 0
        = { instruction := [ARMInstruction.table 0xF00, ARMInstruction.endBlockARM],
            data := [0xEF000000, 0xEF000000, 0xEF000000, 0xEF000000] } := by
      simp only [builtARM, hfetch]
      rfl
    rw [hchains]
    rfl
  · intro key h d next blk hkey hblk hnext _
    have hk : key = 0 ∧ h = 0 := by
      simp only [trapCore, TableInsert, TableInit] at hkey
      by_cases hk : key = 0
      · simp [hk] at hkey; exact ⟨hk, hkey.symm⟩
      · simp [hk] at hkey
    obtain ⟨rfl, rfl⟩ := hk
    simp [trapCore] at hblk
    subst hblk
    cases hnext
  · intro key key' h hkey hkey'
    simp only [trapCore, TableInsert, TableInit] at hkey hkey'
    by_cases hk : key = 0 <;> by_cases hk' : key' = 0
    · rw [hk, hk']
    · simp [hk'] at hkey'
    · simp [hk] at hkey
    · simp [hk] at hkey
  · rw [hfetch, hfetch]
    rfl

/-- On the image of traps every block build terminates within four units of
fuel, and every block-ending word is followed by a word with condition field
`0xE`. -/
theorem trapCore_builds : BuildsTerminate sampleISA trapCore 4 := by
  have hfetch := fetchARM_trap trapCore.memory rfl
  have hmode : ¬ trapCore.executionMode = ExecutionMode.MODE_THUMB := by decide
  unfold BuildsTerminate
  rw [if_neg hmode]
  refine ⟨fun addr => ⟨0, by omega, ?_⟩, fun addr i _ => ?_⟩
  · rw [hfetch]; decide
  · rw [hfetch]; decide

/-- The guest image of zero bytes.  No block can be built on it at any
address, whatever the fuel (the build loop never meets a branch or a trap); a
run through the active cache returns nothing, whatever the fuel and the step
bound; the plain interpreter returns after invoking handler 0 on opcode 0
three times. -/
theorem cache_equivalence_counterexample :
    (∀ fuel addr : Nat, ARMCacheFindBlockARM sampleISA fuel branchFreeCore addr = none)
      ∧ (∀ fuel steps : Nat,
          ARMCacheRunLoop sampleISA (ARMRunLoop sampleISA steps) fuel steps branchFreeCore = none)
      ∧ (ARMRunLoop sampleISA 3 branchFreeCore).map (fun c => c.invoked)
          = some [Invocation.arm 0 0, Invocation.arm 0 0, Invocation.arm 0 0]
      ∧ ¬ ∀ (isa : ISA) (fuel steps : Nat) (cpu : ARMCore), cpu.cache.active = true →
          (ARMCacheRunLoop isa (ARMRunLoop isa steps) fuel steps cpu).map (fun c => c.invoked)
            = (ARMRunLoop isa steps cpu).map (fun c => c.invoked) := by
  have hbuild : ∀ fuel addr : Nat,
      ARMCacheFindBlockARM sampleISA fuel branchFreeCore addr = none := by
    intro fuel addr
    unfold ARMCacheFindBlockARM
    have hlook : TableLookup branchFreeCore.cache.armCache (addr >>> 2) = none := rfl
    rw [hlook]
    simp only [buildLoopARM_branchFree branchFreeCore.memory rfl addr fuel BuildARM.init rfl]
  have hrun : ∀ fuel steps : Nat,
      ARMCacheRunLoop sampleISA (ARMRunLoop sampleISA steps) fuel steps branchFreeCore = none := by
    intro fuel steps
    have hstep : ARMCacheStepARM sampleISA fuel branchFreeCore = none := rfl
    have hlt : branchFreeCore.cycles < branchFreeCore.nextEvent := by decide
    have hmode : ¬ branchFreeCore.executionMode = ExecutionMode.MODE_THUMB := by decide
    have hactive : branchFreeCore.cache.active = true := rfl
    unfold ARMCacheRunLoop
    simp only [hactive, if_true, if_neg hmode]
    cases steps with
    | zero => simp [cacheLoop, hlt]
    | succ n => simp [cacheLoop, hlt, hstep]
  have hplain : (ARMRunLoop sampleISA 3 branchFreeCore).map (fun c => c.invoked)
      = some [Invocation.arm 0 0, Invocation.arm 0 0, Invocation.arm 0 0] := by
    rfl
  refine ⟨hbuild, hrun, hplain, ?_⟩
  intro hall
  have h := hall sampleISA 0 3 branchFreeCore rfl
  rw [hrun 0 3, hplain] at h
  cases h

/-- The equivalence on the concrete core over the image of traps, run
for three cycles with four units of fuel; the plain interpreter returns
after three invocations, and so does the cached run. -/
theorem cache_equivalence_witness :
    trapCore.cache.active = true ∧ StraightLine sampleISA
      ∧ trapCore.memory.activeMask < 2 ^ 32 ∧ Synchronised sampleISA trapCore
      ∧ BuildsTerminate sampleISA trapCore 4
      ∧ (ARMCacheRunLoop sampleISA (ARMRunLoop sampleISA 3) 4 3 trapCore).map
            (fun c => { c with cache := trapCore.cache })
          = ARMRunLoop sampleISA 3 trapCore
      ∧ (ARMRunLoop sampleISA 3 trapCore).map (fun c => c.invoked)
          = some [Invocation.arm 0xF00 0xEF000000, Invocation.arm 0xF00 0xEF000000,
                  Invocation.arm 0xF00 0xEF000000] :=
  ⟨rfl, sampleISA_straight, by decide, trapCore_sync, trapCore_builds,
    cache_equivalence sampleISA 4 3 trapCore rfl sampleISA_straight (by decide) trapCore_sync
      trapCore_builds,
    rfl⟩

/-- Claim C1: the code diverges from the claim.  The loop `SUBS r0, r0, #1;
BNE 0x1000` at `0x1000`, entered with `r0 = 2`, the cache active, the block
at `0x1000` built by `ARMCacheFindBlockARM` and an event due at cycle 7.  The
cached run and the uncached interpreter both return after five steps.  They
agree on the first three invoked pairs; the fourth opcode executed is the
`MOV` at `0x1008` (`0xE1A00000`, table index 416), which the uncached
interpreter hands to handler 416 and the cached run hands to handler 592,
that of `SUBS`: the terminator reached on the fall-through of the second pass
hops to the successor cached on the first pass, the block at `0x1000`. -/
theorem cache_equivalence_divergence :
    ({ loopCore with nextEvent := 7 } : ARMCore).cache.active = true
      ∧ (ARMCacheRunLoop loopISA (ARMRunLoop loopISA 5) 16 5
            { loopCore with nextEvent := 7 }).map (fun c => c.invoked)
          = some [Invocation.arm 592 0xE2500001, Invocation.arm 2815 0x1AFFFFFD,
              Invocation.arm 592 0xE2500001, Invocation.arm 592 0xE1A00000]
      ∧ (ARMRunLoop loopISA 5 { loopCore with nextEvent := 7 }).map (fun c => c.invoked)
          = some [Invocation.arm 592 0xE2500001, Invocation.arm 2815 0x1AFFFFFD,
              Invocation.arm 592 0xE2500001, Invocation.arm 416 0xE1A00000]
      ∧ armTableIndex 0xE1A00000 = 416 ∧ armTableIndex 0xE2500001 = 592 := by
  refine ⟨?_, ?_, ?_, ?_, ?_⟩ <;> rfl

/-! ## Ring-buffer operations -/

/-- The slot index of `GBARewind` is the target slot modulo the capacity, for
a request within `1 .. capacity` on a ring whose cursor is a valid index. -/
theorem rewindOffset_eq_emod (thread : GBAThread) (m : Int)
    (hcursor : 0 ≤ thread.rewindBufferWriteOffset
      ∧ thread.rewindBufferWriteOffset < thread.rewindBufferCapacity)
    (hm : 1 ≤ m ∧ m ≤ thread.rewindBufferCapacity) :
    rewindOffset thread m
      = (thread.rewindBufferWriteOffset - m) % thread.rewindBufferCapacity := by
  unfold rewindOffset
  by_cases hneg : thread.rewindBufferWriteOffset - m < 0
  · simp only [hneg, if_true]
    rw [← Int.add_emod_self, Int.emod_eq_of_lt (by omega) (by omega)]
  · simp only [hneg, if_false]
    rw [Int.emod_eq_of_lt (by omega) (by omega)]

/-- What a returning `GBARewind` has done: either nothing (the clamped request
is 0 or the target slot is empty), with count 0, or a rewind by the clamped
request to the slot it computes, which lies in the array and holds the
snapshot it deserializes. -/
theorem rewind_cases (sub : Subsystems) (thread rewound : GBAThread) (n count : Int)
    (h : GBARewind sub thread n = some (rewound, count)) :
    (rewound = thread ∧ count = 0)
      ∨ (count = rewindCount thread n ∧ count ≠ 0
          ∧ ∃ buffer state, thread.rewindBuffer = some buffer
            ∧ 0 ≤ rewindOffset thread count
            ∧ (rewindOffset thread count).toNat < buffer.length
            ∧ buffer[(rewindOffset thread count).toNat]? = some (some state)
            ∧ rewound = { thread with
                rewindBufferSize := thread.rewindBufferSize - count,
                rewindBufferWriteOffset := rewindOffset thread count,
                gba := rewindMachine sub thread state (rewindOffset thread count) }) := by
  unfold GBARewind at h
  simp only at h
  by_cases h0 : rewindCount thread n = 0
  · have h0' : (if n > thread.rewindBufferSize ∨ n < 0 then thread.rewindBufferSize else n) = 0 :=
      h0
    rw [if_pos h0'] at h
    simp only [Option.some.injEq, Prod.mk.injEq] at h
    exact Or.inl ⟨h.1.symm, h.2.symm⟩
  · have h0' : ¬ (if n > thread.rewindBufferSize ∨ n < 0 then thread.rewindBufferSize else n) = 0 :=
      h0
    rw [if_neg h0'] at h
    cases hb : thread.rewindBuffer with
    | none => rw [hb] at h; cases h
    | some buffer =>
      rw [hb] at h
      simp only at h
      have hoff : (if thread.rewindBufferWriteOffset
            - (if n > thread.rewindBufferSize ∨ n < 0 then thread.rewindBufferSize else n) < 0
          then thread.rewindBufferWriteOffset
            - (if n > thread.rewindBufferSize ∨ n < 0 then thread.rewindBufferSize else n)
            + thread.rewindBufferCapacity
          else thread.rewindBufferWriteOffset
            - (if n > thread.rewindBufferSize ∨ n < 0 then thread.rewindBufferSize else n))
          = rewindOffset thread (rewindCount thread n) := rfl
      rw [hoff] at h
      by_cases hin : 0 ≤ rewindOffset thread (rewindCount thread n)
          ∧ (rewindOffset thread (rewindCount thread n)).toNat < buffer.length
      · rw [if_pos hin] at h
        cases hs : buffer.getD (rewindOffset thread (rewindCount thread n)).toNat none with
        | none =>
          rw [hs] at h
          simp only [Option.some.injEq, Prod.mk.injEq] at h
          exact Or.inl ⟨h.1.symm, h.2.symm⟩
        | some state =>
          rw [hs] at h
          simp only [Option.some.injEq, Prod.mk.injEq] at h
          obtain ⟨ht, hc⟩ := h
          have hc' : count = rewindCount thread n := hc.symm
          right
          refine ⟨hc', by rw [hc']; exact h0, buffer, state, rfl, ?_, ?_, ?_, ?_⟩
          · rw [hc']; exact hin.1
          · rw [hc']; exact hin.2
          · rw [hc']
            rw [List.getD_eq_getElem?_getD] at hs
            rw [List.getElem?_eq_getElem hin.2] at hs ⊢
            simp only [Option.getD_some] at hs
            rw [hs]
          · rw [hc', ← ht]
            unfold rewindMachine
            cases thread.rewindScreenBuffer <;> rfl
      · rw [if_neg hin] at h
        cases h

/-- Reducing the minuend modulo `n` does not change a difference modulo
`n`. -/
theorem emod_sub_emod_left (m n k : Int) : (m % n - k) % n = (m - k) % n := by
  rw [Int.sub_eq_add_neg, Int.emod_add_emod, ← Int.sub_eq_add_neg]

/-- Reading a slot of a ring whose array is `buffer`, at a valid index. -/
theorem slotAt_eq (thread : GBAThread) (buffer : List (Option GBASerializedState)) (i : Int)
    (hbuffer : thread.rewindBuffer = some buffer) (hi : 0 ≤ i) :
    slotAt thread i = buffer.getD i.toNat none := by
  unfold slotAt
  rw [hbuffer]
  simp only [hi, if_true]

/-- An empty ring of positive capacity is in use. -/
theorem ringInUse_empty (thread : GBAThread) (hcap : 0 < thread.rewindBufferCapacity)
    (hbuffer : thread.rewindBuffer
      = some (List.replicate thread.rewindBufferCapacity.toNat none))
    (hsize : thread.rewindBufferSize = 0)
    (hcursor : 0 ≤ thread.rewindBufferWriteOffset
      ∧ thread.rewindBufferWriteOffset < thread.rewindBufferCapacity) :
    RingInUse thread := by
  refine ⟨⟨_, hbuffer, ?_⟩, by omega, hcursor, ?_⟩
  · rw [List.length_replicate]
    exact Int.toNat_of_nonneg (by omega)
  · intro k hk1 hk2
    omega

/-- `GBARecordFrame` on a ring in use returns a ring in use. -/
theorem ringInUse_record (sub : Subsystems) (thread : GBAThread) (h : RingInUse thread) :
    ∃ recorded, GBARecordFrame sub thread = some recorded ∧ RingInUse recorded := by
  obtain ⟨⟨buffer, hbuffer, hlength⟩, hsize, hcursor, hfilled⟩ := h
  obtain ⟨recorded, hrec, hbuf', hcap', hsize', hoff'⟩ :=
    recordFrame_result sub thread buffer hbuffer hlength hcursor
  have hcap : 0 < thread.rewindBufferCapacity := by omega
  have hwo : thread.rewindBufferWriteOffset.toNat < buffer.length := by omega
  refine ⟨recorded, hrec, ⟨_, hbuf', ?_⟩, ?_, ?_, ?_⟩
  · rw [List.length_set, hcap']
    exact hlength
  · rw [hsize', hcap']
    split_ifs <;> omega
  · rw [hoff', hcap']
    exact ⟨Int.emod_nonneg _ (by omega), Int.emod_lt_of_pos _ hcap⟩
  · intro k hk1 hk2
    rw [hoff', hcap', emod_sub_emod_left]
    have hidx0 : 0 ≤ (thread.rewindBufferWriteOffset + 1 - k) % thread.rewindBufferCapacity :=
      Int.emod_nonneg _ (by omega)
    have hidx1 : (thread.rewindBufferWriteOffset + 1 - k) % thread.rewindBufferCapacity
        < thread.rewindBufferCapacity := Int.emod_lt_of_pos _ hcap
    rw [slotAt_eq recorded _ _ hbuf' hidx0, List.getD_eq_getElem?_getD]
    by_cases hsame : ((thread.rewindBufferWriteOffset + 1 - k) % thread.rewindBufferCapacity).toNat
        = thread.rewindBufferWriteOffset.toNat
    · rw [hsame, List.getElem?_set_self hwo]
      exact ⟨_, rfl⟩
    · rw [List.getElem?_set_ne (Ne.symm hsame)]
      have hk : k ≠ 1 := by
        intro hk
        apply hsame
        rw [hk]
        have : thread.rewindBufferWriteOffset + 1 - 1 = thread.rewindBufferWriteOffset := by
          omega
        rw [this, Int.emod_eq_of_lt hcursor.1 hcursor.2]
      have hk' : k - 1 ≤ thread.rewindBufferSize := by
        rw [hsize'] at hk2
        split_ifs at hk2 <;> omega
      obtain ⟨state, hstate⟩ := hfilled (k - 1) (by omega) hk'
      have hrw : thread.rewindBufferWriteOffset - (k - 1)
          = thread.rewindBufferWriteOffset + 1 - k := by omega
      rw [hrw, slotAt_eq thread _ _ hbuffer hidx0, List.getD_eq_getElem?_getD] at hstate
      exact ⟨state, hstate⟩

/-- `GBARewind` on a ring in use returns, with the clamped request as its
count, and leaves a ring in use. -/
theorem ringInUse_rewind (sub : Subsystems) (thread : GBAThread) (h : RingInUse thread)
    (n : Int) :
    ∃ rewound, GBARewind sub thread n = some (rewound, rewindCount thread n)
      ∧ RingInUse rewound := by
  obtain ⟨⟨buffer, hbuffer, hlength⟩, hsize, hcursor, hfilled⟩ := h
  have hcap : 0 < thread.rewindBufferCapacity := by omega
  have hm : 0 ≤ rewindCount thread n ∧ rewindCount thread n ≤ thread.rewindBufferSize := by
    unfold rewindCount
    split_ifs <;> omega
  by_cases h0 : rewindCount thread n = 0
  · refine ⟨thread, ?_, ⟨_, hbuffer, hlength⟩, hsize, hcursor, hfilled⟩
    have h0' : (if n > thread.rewindBufferSize ∨ n < 0 then thread.rewindBufferSize else n) = 0 :=
      h0
    unfold GBARewind
    simp only [h0', if_true]
    rw [h0]
  · have hm1 : 1 ≤ rewindCount thread n := by omega
    have hemod := rewindOffset_eq_emod thread (rewindCount thread n) hcursor ⟨hm1, by omega⟩
    have hidx0 : 0 ≤ (thread.rewindBufferWriteOffset - rewindCount thread n)
        % thread.rewindBufferCapacity := Int.emod_nonneg _ (by omega)
    have hidx1 : (thread.rewindBufferWriteOffset - rewindCount thread n)
        % thread.rewindBufferCapacity < thread.rewindBufferCapacity := Int.emod_lt_of_pos _ hcap
    obtain ⟨state, hstate⟩ := hfilled (rewindCount thread n) hm1 hm.2
    rw [slotAt_eq thread _ _ hbuffer hidx0, List.getD_eq_getElem?_getD] at hstate
    have hin : ((thread.rewindBufferWriteOffset - rewindCount thread n)
        % thread.rewindBufferCapacity).toNat < buffer.length := by omega
    rw [List.getElem?_eq_getElem hin] at hstate
    simp only [Option.getD_some] at hstate
    have hclamp : rewindCount thread (rewindCount thread n) = rewindCount thread n := by
      unfold rewindCount
      split_ifs <;> omega
    obtain ⟨rewound, hrw, hs', ho', hb', hc', _, _⟩ :=
      rewind_result sub thread buffer state (rewindCount thread n)
        ((thread.rewindBufferWriteOffset - rewindCount thread n)
          % thread.rewindBufferCapacity).toNat hbuffer ⟨hm1, hm.2⟩
        (by
          rw [Int.toNat_of_nonneg hidx0, ← hemod]
          rfl)
        hin (by rw [List.getElem?_eq_getElem hin, hstate])
    have hsame : GBARewind sub thread n = GBARewind sub thread (rewindCount thread n) := by
      unfold GBARewind
      have hc : (if rewindCount thread n > thread.rewindBufferSize ∨ rewindCount thread n < 0
          then thread.rewindBufferSize else rewindCount thread n) = rewindCount thread n := hclamp
      simp only [hc]
      rfl
    refine ⟨rewound, by rw [hsame]; exact hrw, ⟨buffer, hb', by rw [hc']; exact hlength⟩, ?_, ?_,
      ?_⟩
    · rw [hs', hc']; omega
    · rw [ho', hc', Int.toNat_of_nonneg hidx0]
      exact ⟨hidx0, hidx1⟩
    · intro k hk1 hk2
      rw [ho', hc', Int.toNat_of_nonneg hidx0, emod_sub_emod_left]
      rw [hs'] at hk2
      obtain ⟨s, hs⟩ := hfilled (rewindCount thread n + k) (by omega) (by omega)
      have hrw2 : thread.rewindBufferWriteOffset - (rewindCount thread n + k)
          = thread.rewindBufferWriteOffset - rewindCount thread n - k := by omega
      rw [hrw2] at hs
      have hk0 : 0 ≤ (thread.rewindBufferWriteOffset - rewindCount thread n - k)
          % thread.rewindBufferCapacity := Int.emod_nonneg _ (by omega)
      rw [slotAt_eq thread _ _ hbuffer hk0] at hs
      rw [slotAt_eq rewound _ _ hb' hk0]
      exact ⟨s, hs⟩

/-- The machine running does not touch the ring. -/
theorem ringInUse_run (thread : GBAThread) (gba : GBA) (h : RingInUse thread) :
    RingInUse { thread with gba := gba } := by
  obtain ⟨hslots, hsize, hcursor, hfilled⟩ := h
  exact ⟨hslots, hsize, hcursor, hfilled⟩

/-- Every ring reached by record and rewind operations is in use. -/
theorem reached_inUse (sub : Subsystems) (thread : GBAThread) (h : Reached sub thread) :
    RingInUse thread := by
  induction h with
  | empty thread hcap hbuffer hsize h0 h1 => exact ringInUse_empty thread hcap hbuffer hsize ⟨h0, h1⟩
  | run thread gba _ ih => exact ringInUse_run thread gba ih
  | record thread recorded _ hrec ih =>
    obtain ⟨recorded', hrec', hin⟩ := ringInUse_record sub thread ih
    rw [hrec] at hrec'
    cases hrec'
    exact hin
  | rewind thread rewound n count _ hrw ih =>
    obtain ⟨rewound', hrw', hin⟩ := ringInUse_rewind sub thread ih n
    rw [hrw] at hrw'
    cases hrw'
    exact hin

/-- Repeated recording stays among the reached rings. -/
theorem reached_recordFrames (sub : Subsystems) : ∀ (n : Nat) (thread recorded : GBAThread),
    Reached sub thread → recordFrames sub n thread = some recorded → Reached sub recorded := by
  intro n
  induction n with
  | zero =>
    intro thread recorded h hrec
    simp only [recordFrames, Option.some.injEq] at hrec
    rw [← hrec]
    exact h
  | succ n ih =>
    intro thread recorded h hrec
    rw [recordFrames] at hrec
    cases hone : GBARecordFrame sub thread with
    | none => rw [hone] at hrec; cases hrec
    | some next =>
      rw [hone] at hrec
      exact ih next recorded (Reached.record thread next h hone) hrec

/-- Claim C11. Rewind step count for non-negative requests: on every ring
reached by record and rewind operations, `GBARewind(thread, n)` with `n ≥ 0`
returns, and its count is `min(n, size)`. -/
theorem rewind_count (sub : Subsystems) (thread : GBAThread) (n : Int)
    (hreached : Reached sub thread) (hn : 0 ≤ n) :
    ∃ rewound, GBARewind sub thread n = some (rewound, min n thread.rewindBufferSize) := by
  obtain ⟨rewound, hrw, _⟩ := ringInUse_rewind sub thread (reached_inUse sub thread hreached) n
  have hcount : rewindCount thread n = min n thread.rewindBufferSize := by
    unfold rewindCount
    split_ifs with h
    · rw [min_eq_right (by omega)]
    · rw [min_eq_left (by omega)]
  rw [hcount] at hrw
  exact ⟨rewound, hrw⟩

/-- The empty ring of the concrete machine is reached. -/
theorem emptyRing_reached : Reached sampleSubsystems emptyRing :=
  Reached.empty emptyRing (by decide) rfl rfl (by decide) (by decide)

/-- Witness for C11: capacity 10 and 12 states recorded; the size is 10,
`GBARewind(thread, 10)` returns 10 and, from that same state,
`GBARewind(thread, 11)` returns 10. -/
theorem rewind_count_witness :
    ∃ recorded, recordFrames sampleSubsystems 12 emptyRing = some recorded
      ∧ Reached sampleSubsystems recorded
      ∧ recorded.rewindBufferCapacity = 10 ∧ recorded.rewindBufferSize = 10
      ∧ (∃ rewound, GBARewind sampleSubsystems recorded 10 = some (rewound, 10))
      ∧ (∃ rewound, GBARewind sampleSubsystems recorded 11 = some (rewound, 10)) := by
  have hex : ∃ recorded, recordFrames sampleSubsystems 12 emptyRing = some recorded :=
    ⟨_, rfl⟩
  obtain ⟨recorded, hrec⟩ := hex
  have hreached := reached_recordFrames sampleSubsystems 12 emptyRing recorded emptyRing_reached hrec
  have hcap : (recordFrames sampleSubsystems 12 emptyRing).map (fun t => t.rewindBufferCapacity)
      = some 10 := by decide
  have hsize : (recordFrames sampleSubsystems 12 emptyRing).map (fun t => t.rewindBufferSize)
      = some 10 := by decide
  rw [hrec] at hcap hsize
  simp only [Option.map_some', Option.some.injEq] at hcap hsize
  have h10 := rewind_count sampleSubsystems recorded 10 hreached (by decide)
  have h11 := rewind_count sampleSubsystems recorded 11 hreached (by decide)
  rw [hsize] at h10 h11
  exact ⟨recorded, hrec, hreached, hcap, hsize, h10, h11⟩

/-- Claim C12 as stated fails.  Counterexample: the concrete ring of capacity
3 with one recorded state and the write cursor on slot 1; `GBARewind(thread,
-1)` returns 1, not 0, and leaves size 0 and the write cursor on slot 0. -/
theorem rewind_negative_counterexample :
    sampleRing.rewindBufferSize = 1 ∧ sampleRing.rewindBufferWriteOffset = 1
      ∧ (GBARewind sampleSubsystems sampleRing (-1)).map
          (fun r => (r.2, r.1.rewindBufferSize, r.1.rewindBufferWriteOffset))
        = some (1, 0, 0) := by
  refine ⟨rfl, rfl, ?_⟩
  decide

/-- Claim C12 (amended): a negative request is clamped to the logical size,
not to 0.  For every negative `n`, `GBARewind(thread, n)` does what
`GBARewindAll(thread)` does; on a ring reached by record and rewind operations
it returns the logical size and leaves the logical size 0. -/
theorem rewind_negative (sub : Subsystems) (thread : GBAThread) (n : Int) (hn : n < 0)
    (hreached : Reached sub thread) :
    GBARewind sub thread n = GBARewindAll sub thread
      ∧ ∃ rewound, GBARewind sub thread n = some (rewound, thread.rewindBufferSize)
          ∧ rewound.rewindBufferSize = 0 := by
  have hcount : rewindCount thread n = thread.rewindBufferSize := by
    unfold rewindCount
    rw [if_pos (Or.inr hn)]
  constructor
  · unfold GBARewindAll GBARewind
    have h1 : (n > thread.rewindBufferSize ∨ n < 0) := Or.inr hn
    have h2 : (if thread.rewindBufferSize > thread.rewindBufferSize ∨ thread.rewindBufferSize < 0
        then thread.rewindBufferSize else thread.rewindBufferSize) = thread.rewindBufferSize := by
      split_ifs <;> rfl
    simp only [h1, if_true, h2]
  · obtain ⟨rewound, hrw, _⟩ := ringInUse_rewind sub thread (reached_inUse sub thread hreached) n
    rw [hcount] at hrw
    refine ⟨rewound, hrw, ?_⟩
    rcases rewind_cases sub thread rewound n _ hrw with ⟨hsame, hzero⟩ | ⟨_, _, _, _, _, _, _, _, hrew⟩
    · rw [hsame]; exact hzero
    · rw [hrew]
      show thread.rewindBufferSize - thread.rewindBufferSize = 0
      omega

/-- Witness for C12 (amended): the ring of capacity 10 after 12 records,
asked to rewind `-1` states, rewinds all 10. -/
theorem rewind_negative_witness :
    ∃ recorded, recordFrames sampleSubsystems 12 emptyRing = some recorded
      ∧ recorded.rewindBufferSize = 10
      ∧ GBARewind sampleSubsystems recorded (-1) = GBARewindAll sampleSubsystems recorded
      ∧ ∃ rewound, GBARewind sampleSubsystems recorded (-1)
            = some (rewound, recorded.rewindBufferSize)
          ∧ rewound.rewindBufferSize = 0 := by
  have hex : ∃ recorded, recordFrames sampleSubsystems 12 emptyRing = some recorded :=
    ⟨_, rfl⟩
  obtain ⟨recorded, hrec⟩ := hex
  have hsize : (recordFrames sampleSubsystems 12 emptyRing).map (fun t => t.rewindBufferSize)
      = some 10 := by decide
  rw [hrec] at hsize
  simp only [Option.map_some', Option.some.injEq] at hsize
  obtain ⟨h1, h2⟩ := rewind_negative sampleSubsystems recorded (-1) (by decide)
    (reached_recordFrames sampleSubsystems 12 emptyRing recorded emptyRing_reached hrec)
  exact ⟨recorded, hrec, hsize, h1, h2⟩

/-- The slot index of `GBARewind` is the target slot modulo the capacity,
whenever it is not negative, for a request of at least 1 on a ring whose cursor
is a valid index. -/
theorem rewindOffset_eq_emod_of_nonneg (thread : GBAThread) (m : Int)
    (hcursor : 0 ≤ thread.rewindBufferWriteOffset
      ∧ thread.rewindBufferWriteOffset < thread.rewindBufferCapacity)
    (hm : 1 ≤ m) (hoff : 0 ≤ rewindOffset thread m) :
    rewindOffset thread m
      = (thread.rewindBufferWriteOffset - m) % thread.rewindBufferCapacity := by
  unfold rewindOffset at hoff ⊢
  by_cases hneg : thread.rewindBufferWriteOffset - m < 0
  · simp only [hneg, if_true] at hoff ⊢
    rw [← Int.add_emod_self, Int.emod_eq_of_lt (by omega) (by omega)]
  · simp only [hneg, if_false]
    rw [Int.emod_eq_of_lt (by omega) (by omega)]

/-- Claim C13. Rewind state update: when `GBARewind(thread, n)` returns a
count `m ≥ 1` on a ring with `0 ≤ writeCursor < capacity`, then `m` is the
clamped request (`min(n, size)` for `n ≥ 0`), the slot `(writeCursor - m) mod
capacity` holds a snapshot, the live machine is the outcome of deserializing
that snapshot, the logical size is `size - m`, the write cursor is that slot,
and the slot array is unchanged. -/
theorem rewind_state_update (sub : Subsystems) (thread rewound : GBAThread) (n m : Int)
    (hcursor : 0 ≤ thread.rewindBufferWriteOffset
      ∧ thread.rewindBufferWriteOffset < thread.rewindBufferCapacity)
    (hrun : GBARewind sub thread n = some (rewound, m)) (hm : 1 ≤ m) :
    m = rewindCount thread n ∧ (0 ≤ n → m = min n thread.rewindBufferSize)
      ∧ ∃ buffer state, thread.rewindBuffer = some buffer
        ∧ buffer[((thread.rewindBufferWriteOffset - m) % thread.rewindBufferCapacity).toNat]?
            = some (some state)
        ∧ rewound.gba = rewindMachine sub thread state
            ((thread.rewindBufferWriteOffset - m) % thread.rewindBufferCapacity)
        ∧ rewound.rewindBufferSize = thread.rewindBufferSize - m
        ∧ rewound.rewindBufferWriteOffset
            = (thread.rewindBufferWriteOffset - m) % thread.rewindBufferCapacity
        ∧ rewound.rewindBuffer = some buffer
        ∧ rewound.rewindBufferCapacity = thread.rewindBufferCapacity := by
  rcases rewind_cases sub thread rewound n m hrun with
    ⟨_, hzero⟩ | ⟨hcount, _, buffer, state, hbuffer, hoff0, _, hslot, hrew⟩
  · omega
  · have hemod := rewindOffset_eq_emod_of_nonneg thread m hcursor hm hoff0
    rw [hemod] at hslot hrew
    refine ⟨hcount, ?_, buffer, state, hbuffer, hslot, ?_, ?_, ?_, ?_, ?_⟩
    · intro hn
      rw [hcount]
      unfold rewindCount
      split_ifs with h
      · rw [min_eq_right (by omega)]
      · rw [min_eq_left (by omega)]
    · rw [hrew]
    · rw [hrew]
    · rw [hrew]
    · rw [hrew]; exact hbuffer
    · rw [hrew]

/-- Witness for C13: the concrete ring of capacity 3 with one recorded state,
rewound by one step. -/
theorem rewind_state_update_witness :
    (0 ≤ sampleRing.rewindBufferWriteOffset
        ∧ sampleRing.rewindBufferWriteOffset < sampleRing.rewindBufferCapacity)
      ∧ ∃ rewound, GBARewind sampleSubsystems sampleRing 1 = some (rewound, 1)
        ∧ ∃ buffer state, sampleRing.rewindBuffer = some buffer
          ∧ buffer[((sampleRing.rewindBufferWriteOffset - 1)
                % sampleRing.rewindBufferCapacity).toNat]? = some (some state)
          ∧ rewound.gba = rewindMachine sampleSubsystems sampleRing state
              ((sampleRing.rewindBufferWriteOffset - 1) % sampleRing.rewindBufferCapacity)
          ∧ rewound.rewindBufferSize = sampleRing.rewindBufferSize - 1
          ∧ rewound.rewindBufferWriteOffset
              = (sampleRing.rewindBufferWriteOffset - 1) % sampleRing.rewindBufferCapacity
          ∧ rewound.rewindBuffer = some buffer
          ∧ rewound.rewindBufferCapacity = sampleRing.rewindBufferCapacity := by
  have hex : ∃ rewound, GBARewind sampleSubsystems sampleRing 1 = some (rewound, 1) :=
    ⟨_, rfl⟩
  obtain ⟨rewound, hrw⟩ := hex
  exact ⟨by decide, rewound, hrw,
    (rewind_state_update sampleSubsystems sampleRing rewound 1 1 (by decide) hrw
      (by decide)).2.2⟩

/-- Claim C14. Record state update: on a ring (a slot array of `capacity > 0`
entries and a logical size within `0 .. capacity`, as the ring's data model
has it) with `0 ≤ writeCursor < capacity`, `GBARecordFrame` returns; it
stores `GBASerialize(machine)` in the slot at the write cursor, leaves every
other slot unchanged, sets the logical size to `min(size + 1, capacity)` and
the write cursor to `(writeCursor + 1) mod capacity`, and keeps the capacity
and the machine. -/
theorem record_state_update (sub : Subsystems) (thread : GBAThread)
    (buffer : List (Option GBASerializedState))
    (hbuffer : thread.rewindBuffer = some buffer)
    (hlength : (buffer.length : Int) = thread.rewindBufferCapacity)
    (hsize : thread.rewindBufferSize ≤ thread.rewindBufferCapacity)
    (hcursor : 0 ≤ thread.rewindBufferWriteOffset
      ∧ thread.rewindBufferWriteOffset < thread.rewindBufferCapacity) :
    ∃ recorded slots, GBARecordFrame sub thread = some recorded
      ∧ recorded.rewindBuffer = some slots
      ∧ slots.length = buffer.length
      ∧ slots[thread.rewindBufferWriteOffset.toNat]? = some (some (GBASerialize sub thread.gba))
      ∧ (∀ i : Nat, i ≠ thread.rewindBufferWriteOffset.toNat → slots[i]? = buffer[i]?)
      ∧ recorded.rewindBufferSize = min (thread.rewindBufferSize + 1) thread.rewindBufferCapacity
      ∧ recorded.rewindBufferWriteOffset
          = (thread.rewindBufferWriteOffset + 1) % thread.rewindBufferCapacity
      ∧ recorded.rewindBufferCapacity = thread.rewindBufferCapacity
      ∧ recorded.gba = thread.gba := by
  obtain ⟨recorded, hrec, hbuf', hcap', hsize', hoff'⟩ :=
    recordFrame_result sub thread buffer hbuffer hlength hcursor
  have hwo : thread.rewindBufferWriteOffset.toNat < buffer.length := by omega
  refine ⟨recorded, _, hrec, hbuf', List.length_set _ _ _, List.getElem?_set_self hwo, ?_, ?_,
    hoff', hcap', ?_⟩
  · intro i hi
    exact List.getElem?_set_ne (Ne.symm hi)
  · rw [hsize']
    split_ifs with h
    · rw [min_eq_right (by omega)]
    · rw [min_eq_left (by omega)]
  · have hgba : (GBARecordFrame sub thread).map (fun t => t.gba) = some thread.gba := by
      have hin : 0 ≤ thread.rewindBufferWriteOffset
          ∧ thread.rewindBufferWriteOffset.toNat < buffer.length := ⟨hcursor.1, hwo⟩
      have hcap : ¬ thread.rewindBufferCapacity = 0 := by omega
      unfold GBARecordFrame
      simp only [hbuffer, hin, and_self, if_true, hcap, if_false, Option.map_some']
    rw [hrec] at hgba
    simpa using hgba

/-- Witness for C14: the concrete ring of capacity 3. -/
theorem record_state_update_witness :
    sampleRing.rewindBuffer = some [some (GBASerialize sampleSubsystems sampleRing.gba),
        none, none]
      ∧ sampleRing.rewindBufferSize ≤ sampleRing.rewindBufferCapacity
      ∧ (0 ≤ sampleRing.rewindBufferWriteOffset
          ∧ sampleRing.rewindBufferWriteOffset < sampleRing.rewindBufferCapacity)
      ∧ ∃ recorded slots, GBARecordFrame sampleSubsystems sampleRing = some recorded
        ∧ recorded.rewindBuffer = some slots
        ∧ slots.length = 3
        ∧ slots[sampleRing.rewindBufferWriteOffset.toNat]?
            = some (some (GBASerialize sampleSubsystems sampleRing.gba))
        ∧ (∀ i : Nat, i ≠ sampleRing.rewindBufferWriteOffset.toNat →
            slots[i]? = [some (GBASerialize sampleSubsystems sampleRing.gba), none, none][i]?)
        ∧ recorded.rewindBufferSize
            = min (sampleRing.rewindBufferSize + 1) sampleRing.rewindBufferCapacity
        ∧ recorded.rewindBufferWriteOffset
            = (sampleRing.rewindBufferWriteOffset + 1) % sampleRing.rewindBufferCapacity
        ∧ recorded.rewindBufferCapacity = sampleRing.rewindBufferCapacity
        ∧ recorded.gba = sampleRing.gba :=
  ⟨rfl, by decide, by decide,
    record_state_update sampleSubsystems sampleRing _ rfl (by decide) (by decide) (by decide)⟩

/-- `GBARewind` returns whenever the slot it computes lies in the slot
array. -/
theorem rewind_returns (sub : Subsystems) (thread : GBAThread)
    (buffer : List (Option GBASerializedState)) (n : Int)
    (hbuffer : thread.rewindBuffer = some buffer)
    (hin : 0 ≤ rewindOffset thread (rewindCount thread n)
      ∧ (rewindOffset thread (rewindCount thread n)).toNat < buffer.length) :
    ∃ rewound count, GBARewind sub thread n = some (rewound, count) := by
  have hoff : (if thread.rewindBufferWriteOffset
        - (if n > thread.rewindBufferSize ∨ n < 0 then thread.rewindBufferSize else n) < 0
      then thread.rewindBufferWriteOffset
        - (if n > thread.rewindBufferSize ∨ n < 0 then thread.rewindBufferSize else n)
        + thread.rewindBufferCapacity
      else thread.rewindBufferWriteOffset
        - (if n > thread.rewindBufferSize ∨ n < 0 then thread.rewindBufferSize else n))
      = rewindOffset thread (rewindCount thread n) := rfl
  by_cases h0 : rewindCount thread n = 0
  · have h0' : (if n > thread.rewindBufferSize ∨ n < 0 then thread.rewindBufferSize else n)
        = 0 := h0
    unfold GBARewind
    simp only [h0', if_true]
    exact ⟨_, _, rfl⟩
  · have h0' : ¬ (if n > thread.rewindBufferSize ∨ n < 0 then thread.rewindBufferSize else n)
        = 0 := h0
    unfold GBARewind
    simp only [h0', if_false, hbuffer, hoff, hin, and_self, if_true]
    cases buffer.getD (rewindOffset thread (rewindCount thread n)).toNat none with
    | none => exact ⟨_, _, rfl⟩
    | some state => exact ⟨_, _, rfl⟩

/-- Claim C15 as stated fails.  Counterexample: the concrete ring of capacity
3 with size 1 and the write cursor on slot 1 satisfies the invariant;
`GBARewindSettingsChanged` with new capacity `-1` leaves size 0 above the
capacity, and with new capacity 1 it leaves the write cursor on slot 1 of a
one-slot array, where the next `GBARecordFrame` indexes outside the array. -/
theorem ring_invariant_counterexample :
    RingInvariant sampleRing
      ∧ ¬ RingInvariant (GBARewindSettingsChanged sampleRing (-1) 4)
      ∧ ¬ RingInvariant (GBARewindSettingsChanged sampleRing 1 4)
      ∧ (GBARewindSettingsChanged sampleRing 1 4).rewindBufferWriteOffset = 1
      ∧ (GBARecordFrame sampleSubsystems (GBARewindSettingsChanged sampleRing 1 4)).isNone
          = true := by
  refine ⟨?_, ?_, ?_, ?_, ?_⟩
  · unfold RingInvariant; decide
  · unfold RingInvariant; decide
  · unfold RingInvariant; decide
  · decide
  · decide

/-- Claim C15 (amended). Ring-buffer invariant: on a ring that satisfies the
invariant and whose slot array is allocated when the capacity is positive,
`GBARecordFrame` (capacity positive) and `GBARewind` for any `n` return and
preserve the invariant; `GBARewindSettingsChanged` preserves it for every
interval when the new capacity is 0, or is positive with the write cursor a
valid index below it. -/
theorem ring_invariant_preserved (sub : Subsystems) (thread : GBAThread)
    (hinv : RingInvariant thread)
    (hslots : thread.rewindBufferCapacity > 0 → SlotsAllocated thread) :
    (thread.rewindBufferCapacity > 0 →
        ∃ recorded, GBARecordFrame sub thread = some recorded ∧ RingInvariant recorded)
      ∧ (∀ n : Int, ∃ rewound count,
          GBARewind sub thread n = some (rewound, count) ∧ RingInvariant rewound)
      ∧ (∀ newCapacity newInterval : Int,
          (newCapacity = 0
            ∨ (0 ≤ thread.rewindBufferWriteOffset
                ∧ thread.rewindBufferWriteOffset < newCapacity)) →
          RingInvariant (GBARewindSettingsChanged thread newCapacity newInterval)) := by
  obtain ⟨hsize, hcursor⟩ := hinv
  refine ⟨?_, ?_, ?_⟩
  · intro hcap
    obtain ⟨buffer, hbuffer, hlength⟩ := hslots hcap
    obtain ⟨recorded, hrec, _, hcap', hsize', hoff'⟩ :=
      recordFrame_result sub thread buffer hbuffer hlength (hcursor hcap)
    refine ⟨recorded, hrec, ?_, ?_⟩
    · rw [hsize', hcap']
      split_ifs <;> omega
    · intro _
      rw [hoff', hcap']
      exact ⟨Int.emod_nonneg _ (by omega), Int.emod_lt_of_pos _ hcap⟩
  · intro n
    have hm : 0 ≤ rewindCount thread n ∧ rewindCount thread n ≤ thread.rewindBufferSize := by
      unfold rewindCount
      split_ifs <;> omega
    have hdone : ∀ rewound count, GBARewind sub thread n = some (rewound, count) →
        RingInvariant rewound := by
      intro rewound count hrw
      rcases rewind_cases sub thread rewound n count hrw with
        ⟨hsame, _⟩ | ⟨hcount, hne, buffer, state, hbuffer, hoff0, hoff1, _, hrew⟩
      · rw [hsame]; exact ⟨hsize, hcursor⟩
      · have hcap : thread.rewindBufferCapacity > 0 := by omega
        obtain ⟨buffer', hbuffer', hlength⟩ := hslots hcap
        rw [hbuffer] at hbuffer'
        cases hbuffer'
        rw [hrew]
        refine ⟨?_, ?_⟩
        · show 0 ≤ thread.rewindBufferSize - count
            ∧ thread.rewindBufferSize - count ≤ thread.rewindBufferCapacity
          omega
        · intro _
          show 0 ≤ rewindOffset thread count ∧ rewindOffset thread count < thread.rewindBufferCapacity
          exact ⟨hoff0, by omega⟩
    by_cases h0 : rewindCount thread n = 0
    · have h0' : (if n > thread.rewindBufferSize ∨ n < 0 then thread.rewindBufferSize else n)
          = 0 := h0
      have hrw : GBARewind sub thread n = some (thread, 0) := by
        unfold GBARewind
        simp only [h0', if_true]
      exact ⟨thread, 0, hrw, ⟨hsize, hcursor⟩⟩
    · have hcap : thread.rewindBufferCapacity > 0 := by omega
      obtain ⟨buffer, hbuffer, hlength⟩ := hslots hcap
      have hemod := rewindOffset_eq_emod thread (rewindCount thread n) (hcursor hcap)
        ⟨by omega, by omega⟩
      have hidx0 : 0 ≤ (thread.rewindBufferWriteOffset - rewindCount thread n)
          % thread.rewindBufferCapacity := Int.emod_nonneg _ (by omega)
      have hidx1 : (thread.rewindBufferWriteOffset - rewindCount thread n)
          % thread.rewindBufferCapacity < thread.rewindBufferCapacity :=
        Int.emod_lt_of_pos _ hcap
      obtain ⟨rewound, count, hrw⟩ := rewind_returns sub thread buffer n hbuffer
        (by rw [hemod]; exact ⟨hidx0, by omega⟩)
      exact ⟨rewound, count, hrw, hdone rewound count hrw⟩
  · intro c i hc
    unfold GBARewindSettingsChanged
    by_cases hsame : c = thread.rewindBufferCapacity ∧ i = thread.rewindBufferInterval
    · rw [if_pos hsame]
      exact ⟨hsize, hcursor⟩
    · rw [if_neg hsame]
      refine ⟨?_, ?_⟩
      · show (0 : Int) ≤ 0 ∧ 0 ≤ c
        omega
      · intro hpos
        show 0 ≤ thread.rewindBufferWriteOffset ∧ thread.rewindBufferWriteOffset < c
        have hpos' : c > 0 := hpos
        omega

/-- The slot array of the concrete ring is allocated. -/
theorem sampleRing_slots : sampleRing.rewindBufferCapacity > 0 → SlotsAllocated sampleRing :=
  fun _ => ⟨_, rfl, by decide⟩

/-- The concrete ring satisfies the ring invariant. -/
theorem sampleRing_invariant : RingInvariant sampleRing := by
  unfold RingInvariant
  decide

/-- Witness for C15 (amended): the concrete ring of capacity 3. -/
theorem ring_invariant_preserved_witness :
    RingInvariant sampleRing
      ∧ (sampleRing.rewindBufferCapacity > 0 → SlotsAllocated sampleRing)
      ∧ (∃ recorded, GBARecordFrame sampleSubsystems sampleRing = some recorded
          ∧ RingInvariant recorded)
      ∧ (∃ rewound count, GBARewind sampleSubsystems sampleRing 2 = some (rewound, count)
          ∧ RingInvariant rewound)
      ∧ RingInvariant (GBARewindSettingsChanged sampleRing 5 2) :=
  ⟨sampleRing_invariant, sampleRing_slots,
    (ring_invariant_preserved sampleSubsystems sampleRing sampleRing_invariant
      sampleRing_slots).1 (by decide),
    (ring_invariant_preserved sampleSubsystems sampleRing sampleRing_invariant
      sampleRing_slots).2.1 2,
    (ring_invariant_preserved sampleSubsystems sampleRing sampleRing_invariant
      sampleRing_slots).2.2 5 2 (Or.inr (by decide))⟩

/-- Claim C16. Reconfigure: `GBARewindSettingsChanged(newCapacity,
newInterval)` leaves the whole ring state unchanged when both values equal
the current ones; in every other case the resulting ring has capacity
`newCapacity`, interval `newInterval`, next-capture countdown `newInterval`,
logical size 0 and no slot holding a snapshot (a fresh array of `newCapacity`
empty slots when `newCapacity > 0`, no array otherwise), whatever it held
before. -/
theorem settingsChanged_result (thread : GBAThread) (newCapacity newInterval : Int) :
    (newCapacity = thread.rewindBufferCapacity ∧ newInterval = thread.rewindBufferInterval →
        GBARewindSettingsChanged thread newCapacity newInterval = thread)
      ∧ (¬ (newCapacity = thread.rewindBufferCapacity
            ∧ newInterval = thread.rewindBufferInterval) →
          (GBARewindSettingsChanged thread newCapacity newInterval).rewindBufferCapacity
              = newCapacity
            ∧ (GBARewindSettingsChanged thread newCapacity newInterval).rewindBufferInterval
              = newInterval
            ∧ (GBARewindSettingsChanged thread newCapacity newInterval).rewindBufferNext
              = newInterval
            ∧ (GBARewindSettingsChanged thread newCapacity newInterval).rewindBufferSize = 0
            ∧ (∀ j : Int,
                slotAt (GBARewindSettingsChanged thread newCapacity newInterval) j = none)
            ∧ (GBARewindSettingsChanged thread newCapacity newInterval).rewindBuffer
              = (if newCapacity > 0 then some (List.replicate newCapacity.toNat none)
                  else none)) := by
  constructor
  · intro hsame
    unfold GBARewindSettingsChanged
    rw [if_pos hsame]
  · intro hdiff
    unfold slotAt GBARewindSettingsChanged
    simp only [if_neg hdiff, true_and]
    refine ⟨?_, trivial⟩
    intro j
    by_cases hpos : newCapacity > 0
    · simp only [hpos, if_true]
      split_ifs
      · rw [List.getD_eq_getElem?_getD, List.getElem?_replicate]
        split_ifs <;> rfl
      · rfl
    · simp only [hpos, if_false]

/-- Witness for C16: the concrete ring of capacity 3 and interval 4, first
with the same settings, then with capacity 5. -/
theorem settingsChanged_result_witness :
    sampleRing.rewindBufferCapacity = 3 ∧ sampleRing.rewindBufferInterval = 4
      ∧ sampleRing.rewindBufferSize = 1
      ∧ GBARewindSettingsChanged sampleRing 3 4 = sampleRing
      ∧ (GBARewindSettingsChanged sampleRing 5 4).rewindBufferCapacity = 5
      ∧ (GBARewindSettingsChanged sampleRing 5 4).rewindBufferInterval = 4
      ∧ (GBARewindSettingsChanged sampleRing 5 4).rewindBufferNext = 4
      ∧ (GBARewindSettingsChanged sampleRing 5 4).rewindBufferSize = 0
      ∧ (∀ j : Int, slotAt (GBARewindSettingsChanged sampleRing 5 4) j = none)
      ∧ (GBARewindSettingsChanged sampleRing 5 4).rewindBuffer
          = (if (5 : Int) > 0 then some (List.replicate (5 : Int).toNat none) else none) :=
  ⟨rfl, rfl, rfl,
    (settingsChanged_result sampleRing 3 4).1 ⟨rfl, rfl⟩,
    (settingsChanged_result sampleRing 5 4).2 (by decide)⟩

/-! ## Validation pass and prefetch -/

/-- The validation pass raises `error` exactly when one of its seven tests
fires. -/
theorem deserializeError_iff (gba : GBA) (state : GBASerializedState) :
    deserializeError gba state = true ↔
      (state.versionMagic ≠ GBA_SAVESTATE_MAGIC
        ∨ (state.biosChecksum ≠ gba.biosChecksum
            ∧ state.cpu.gprs ARM_PC < SIZE_BIOS ∧ state.cpu.gprs ARM_PC ≥ 0x20)
        ∨ identityMismatch gba state
        ∨ toI32 state.cpu.cycles < 0
        ∨ toI32 state.cpu.cycles ≥ GBA_ARM7TDMI_FREQUENCY
        ∨ toI32 state.video.eventDiff < 0
        ∨ romSizeGate gba.memory.romSize (state.cpu.gprs ARM_PC)) := by
  unfold deserializeError identityMismatch romSizeGate
  cases gba.memory.rom with
  | none =>
    simp only
    split_ifs <;> simp_all
  | some cart =>
    simp only
    split_ifs <;> simp_all

/-- The prefetch queue the commit phase leaves: the stored words (masked to
16 bits in Thumb state) when both are non-zero, the re-fetch otherwise. -/
theorem deserializeCommit_prefetch_cases (sub : Subsystems) (gba : GBA)
    (state : GBASerializedState) :
    (state.cpuPrefetch.1 ≠ 0 ∧ state.cpuPrefetch.2 ≠ 0 →
        (deserializeCommit sub gba state).cpu.prefetch
          = if psrT state.cpu.cpsr = true
            then (state.cpuPrefetch.1 &&& 0xFFFF, state.cpuPrefetch.2 &&& 0xFFFF)
            else state.cpuPrefetch)
      ∧ (¬ (state.cpuPrefetch.1 ≠ 0 ∧ state.cpuPrefetch.2 ≠ 0) →
        (deserializeCommit sub gba state).cpu.prefetch
          = refetchPrefetch (deserializeCommit sub gba state).cpu) := by
  constructor
  · intro h
    show restorePrefetch _ state = _
    unfold restorePrefetch
    by_cases ht : psrT state.cpu.cpsr = true
    · simp only [ht, if_true]
      rw [if_pos h]
    · simp only [ht, Bool.false_eq_true, if_false]
      rw [if_pos h]
  · intro h
    have hcpsr : (deserializeCommit sub gba state).cpu.cpsr = state.cpu.cpsr := rfl
    unfold refetchPrefetch
    rw [hcpsr]
    show restorePrefetch _ state = _
    unfold restorePrefetch
    by_cases ht : psrT state.cpu.cpsr = true
    · simp only [ht, if_true]
      rw [if_neg h]
      rfl
    · simp only [ht, Bool.false_eq_true, if_false]
      rw [if_neg h]
      rfl

/-- The BIOS prefetch value the commit phase leaves: the stored value when it
is non-zero, the live one otherwise. -/
theorem deserializeCommit_biosPrefetch_cases (sub : Subsystems) (gba : GBA)
    (state : GBASerializedState) :
    (deserializeCommit sub gba state).memory.biosPrefetch
      = if state.biosPrefetch ≠ 0 then state.biosPrefetch else gba.memory.biosPrefetch := by
  unfold deserializeCommit
  by_cases h : state.biosPrefetch ≠ 0
  · simp only [if_pos h]
  · simp only [if_neg h]

/-- Claim C17 as stated fails.  Counterexample: the concrete machine `S` with
prefetch queue `(0, 0xE2800001)` and BIOS prefetch value 0.  Its snapshot is
accepted by a live machine with BIOS prefetch value `0xE129F000`, and the call
leaves the queue `(0, 0)` re-fetched from the live memory and the live BIOS
prefetch value. -/
theorem prefetch_round_trip_counterexample :
    (sampleGBA 0x08000100 10 (0, 0xE2800001) 0).cpu.prefetch = (0, 0xE2800001)
      ∧ (sampleGBA 0x08000100 10 (0, 0xE2800001) 0).memory.biosPrefetch = 0
      ∧ (GBADeserialize sampleSubsystems (sampleGBA 0x08000200 77 (1, 2) 0xE129F000)
          (GBASerialize sampleSubsystems (sampleGBA 0x08000100 10 (0, 0xE2800001) 0))).1 = true
      ∧ (GBADeserialize sampleSubsystems (sampleGBA 0x08000200 77 (1, 2) 0xE129F000)
          (GBASerialize sampleSubsystems
            (sampleGBA 0x08000100 10 (0, 0xE2800001) 0))).2.cpu.prefetch = (0, 0)
      ∧ (GBADeserialize sampleSubsystems (sampleGBA 0x08000200 77 (1, 2) 0xE129F000)
          (GBASerialize sampleSubsystems
            (sampleGBA 0x08000100 10 (0, 0xE2800001) 0))).2.memory.biosPrefetch
          = 0xE129F000 := by
  refine ⟨rfl, rfl, ?_, ?_, ?_⟩ <;> decide

/-- Claim C17 (amended). Prefetch round trip: for every machine state `S`
(register fields fitting their C types) whose snapshot is accepted by a live
machine, `GBADeserialize(GBASerialize(S))` leaves the prefetch queue of `S`
when both its entries are non-zero (masked to 16 bits each in Thumb state, so
the queue of `S` itself when its entries fit 16 bits), and the queue
re-fetched from guest memory otherwise; it leaves the BIOS prefetch value of
`S` when that is non-zero, and the live value otherwise. -/
theorem prefetch_round_trip (sub : Subsystems) (S live : GBA) (htyped : wellTyped S.cpu)
    (haccepted : (GBADeserialize sub live (GBASerialize sub S)).1 = true) :
    (S.cpu.prefetch.1 ≠ 0 ∧ S.cpu.prefetch.2 ≠ 0 →
        (GBADeserialize sub live (GBASerialize sub S)).2.cpu.prefetch
            = (if psrT S.cpu.cpsr = true
                then (S.cpu.prefetch.1 &&& 0xFFFF, S.cpu.prefetch.2 &&& 0xFFFF)
                else S.cpu.prefetch)
          ∧ ((psrT S.cpu.cpsr = true →
                S.cpu.prefetch.1 < 2 ^ 16 ∧ S.cpu.prefetch.2 < 2 ^ 16) →
              (GBADeserialize sub live (GBASerialize sub S)).2.cpu.prefetch = S.cpu.prefetch))
      ∧ (¬ (S.cpu.prefetch.1 ≠ 0 ∧ S.cpu.prefetch.2 ≠ 0) →
          (GBADeserialize sub live (GBASerialize sub S)).2.cpu.prefetch
            = refetchPrefetch (GBADeserialize sub live (GBASerialize sub S)).2.cpu)
      ∧ (S.memory.biosPrefetch ≠ 0 →
          (GBADeserialize sub live (GBASerialize sub S)).2.memory.biosPrefetch
            = S.memory.biosPrefetch)
      ∧ (S.memory.biosPrefetch = 0 →
          (GBADeserialize sub live (GBASerialize sub S)).2.memory.biosPrefetch
            = live.memory.biosPrefetch) := by
  have herr : deserializeError live (GBASerialize sub S) = false := by
    unfold GBADeserialize at haccepted
    by_cases h : deserializeError live (GBASerialize sub S) = true
    · rw [if_pos h] at haccepted
      cases haccepted
    · simpa using h
  have hcommit : (GBADeserialize sub live (GBASerialize sub S)).2
      = deserializeCommit sub live (GBASerialize sub S) := by
    simp [GBADeserialize, herr]
  obtain ⟨_, hc, _, _, _, _, _, hp1, hp2⟩ := htyped
  have hq1 : (GBASerialize sub S).cpuPrefetch.1 = S.cpu.prefetch.1 := STORE_32_of_lt _ hp1
  have hq2 : (GBASerialize sub S).cpuPrefetch.2 = S.cpu.prefetch.2 := STORE_32_of_lt _ hp2
  have hq : (GBASerialize sub S).cpuPrefetch = S.cpu.prefetch := Prod.ext hq1 hq2
  have hcpsr : (GBASerialize sub S).cpu.cpsr = S.cpu.cpsr := STORE_32_of_lt _ hc
  have hbios : (GBASerialize sub S).biosPrefetch = S.memory.biosPrefetch := rfl
  obtain ⟨hstored, hrefetch⟩ := deserializeCommit_prefetch_cases sub live (GBASerialize sub S)
  rw [hq1, hq2, hq, hcpsr] at hstored
  rw [hq1, hq2] at hrefetch
  have hb := deserializeCommit_biosPrefetch_cases sub live (GBASerialize sub S)
  rw [hbios] at hb
  rw [hcommit]
  refine ⟨?_, hrefetch, ?_, ?_⟩
  · intro hnz
    refine ⟨hstored hnz, ?_⟩
    intro hfit
    rw [hstored hnz]
    by_cases ht : psrT S.cpu.cpsr = true
    · obtain ⟨ha, hb'⟩ := hfit ht
      rw [if_pos ht, and_halfword _ ha, and_halfword _ hb']
    · rw [if_neg ht]
  · intro hnz
    rw [hb, if_pos hnz]
  · intro hz
    rw [hb, if_neg (by simpa using hz)]

/-- Witness for C17 (amended): the machine of the concrete ring, loaded over a
live machine that has moved on. -/
theorem prefetch_round_trip_witness :
    wellTyped sampleRing.gba.cpu
      ∧ (GBADeserialize sampleSubsystems (sampleGBA 0x08000200 77 (1, 2) 0xE129F000)
          (GBASerialize sampleSubsystems sampleRing.gba)).1 = true
      ∧ (GBADeserialize sampleSubsystems (sampleGBA 0x08000200 77 (1, 2) 0xE129F000)
          (GBASerialize sampleSubsystems sampleRing.gba)).2.cpu.prefetch
          = sampleRing.gba.cpu.prefetch
      ∧ (GBADeserialize sampleSubsystems (sampleGBA 0x08000200 77 (1, 2) 0xE129F000)
          (GBASerialize sampleSubsystems sampleRing.gba)).2.memory.biosPrefetch
          = sampleRing.gba.memory.biosPrefetch :=
  ⟨sampleRing_wellTyped, by decide,
    ((prefetch_round_trip sampleSubsystems sampleRing.gba
        (sampleGBA 0x08000200 77 (1, 2) 0xE129F000) sampleRing_wellTyped (by decide)).1
      (by decide)).2 (by decide),
    (prefetch_round_trip sampleSubsystems sampleRing.gba
        (sampleGBA 0x08000200 77 (1, 2) 0xE129F000) sampleRing_wellTyped (by decide)).2.2.1
      (by decide)⟩

/-- `GBADeserialize` returns `true` exactly when the validation pass leaves
`error` clear. -/
theorem deserialize_accepts_iff (sub : Subsystems) (gba : GBA) (state : GBASerializedState) :
    (GBADeserialize sub gba state).1 = true ↔ ¬ deserializeError gba state = true := by
  unfold GBADeserialize
  by_cases h : deserializeError gba state = true
  · simp [h]
  · simp [h]

/-- Claim C18 as stated fails.  Counterexample: the concrete machine with
cycle counter `-1`.  `GBADeserialize` on that same machine rejects its own
snapshot; recorded in the ring and rewound to, it leaves the live machine at
its program counter `0x08000200` instead of the recorded `0x08000100`. -/
theorem own_snapshot_counterexample :
    (GBADeserialize sampleSubsystems (sampleGBA 0x08000100 (-1) (0xE1A00000, 0xE2800001) 5)
        (GBASerialize sampleSubsystems
          (sampleGBA 0x08000100 (-1) (0xE1A00000, 0xE2800001) 5))).1 = false
      ∧ ((GBARecordFrame sampleSubsystems
            (sampleThread sampleSubsystems
              (sampleGBA 0x08000100 (-1) (0xE1A00000, 0xE2800001) 5))).bind
          (fun t => GBARewind sampleSubsystems
            { t with gba := sampleGBA 0x08000200 77 (1, 2) 5 } 1)).map
          (fun r => (r.2, r.1.gba.cpu.gprs ARM_PC)) = some (1, 0x08000200) := by
  constructor <;> decide

/-- Claim C18 (amended). Self-produced snapshots: for every machine state `S`
(register fields and BIOS checksum fitting their C types), `GBADeserialize`
on a machine with the same BIOS checksum and cartridge accepts
`GBASerialize(S)` exactly when the cycle counter of `S` is in `0 ..
GBA_ARM7TDMI_FREQUENCY - 1`, the serialized video `eventDiff` is not negative
and the ROM-size test on the program counter of `S` does not fire. -/
theorem own_snapshot_accepted (sub : Subsystems) (S live : GBA) (htyped : wellTyped S.cpu)
    (hchecksum : S.biosChecksum < 2 ^ 32) (hbios : live.biosChecksum = S.biosChecksum)
    (hrom : live.memory.rom = S.memory.rom) :
    (GBADeserialize sub live (GBASerialize sub S)).1 = true ↔
      (0 ≤ S.cpu.cycles ∧ S.cpu.cycles < GBA_ARM7TDMI_FREQUENCY
        ∧ 0 ≤ toI32 (sub.GBAVideoSerialize S.video).eventDiff
        ∧ ¬ romSizeGate live.memory.romSize (S.cpu.gprs ARM_PC)) := by
  obtain ⟨hg, _, _, hcy, _, _, _, _, _⟩ := htyped
  have hmagic : (GBASerialize sub S).versionMagic = GBA_SAVESTATE_MAGIC := by
    show STORE_32 GBA_SAVESTATE_MAGIC = GBA_SAVESTATE_MAGIC
    decide
  have hsum : (GBASerialize sub S).biosChecksum = live.biosChecksum := by
    rw [hbios]
    exact STORE_32_of_lt _ hchecksum
  have hident : ¬ identityMismatch live (GBASerialize sub S) := by
    unfold identityMismatch GBASerialize
    rw [hrom]
    cases S.memory.rom with
    | none => simp
    | some cart => simp
  have hcycles : toI32 (GBASerialize sub S).cpu.cycles = S.cpu.cycles :=
    toI32_toU32 _ hcy.1 hcy.2
  have hpc : (GBASerialize sub S).cpu.gprs ARM_PC = S.cpu.gprs ARM_PC :=
    STORE_32_of_lt _ (hg ARM_PC)
  have hvideo : (GBASerialize sub S).video = sub.GBAVideoSerialize S.video := rfl
  rw [deserialize_accepts_iff, deserializeError_iff, hcycles, hpc, hvideo]
  constructor
  · intro h
    refine ⟨?_, ?_, ?_, ?_⟩
    · by_contra hneg
      exact h (Or.inr (Or.inr (Or.inr (Or.inl (by omega)))))
    · by_contra hneg
      exact h (Or.inr (Or.inr (Or.inr (Or.inr (Or.inl (by omega))))))
    · by_contra hneg
      exact h (Or.inr (Or.inr (Or.inr (Or.inr (Or.inr (Or.inl (by omega)))))))
    · intro hgate
      exact h (Or.inr (Or.inr (Or.inr (Or.inr (Or.inr (Or.inr hgate))))))
  · rintro ⟨h1, h2, h3, h4⟩ (h | h | h | h | h | h | h)
    · exact h hmagic
    · exact h.1 hsum
    · exact hident h
    · omega
    · omega
    · omega
    · exact h4 h

/-- Witness for C18 (amended): the machine of the concrete ring accepts its
own snapshot. -/
theorem own_snapshot_accepted_witness :
    wellTyped sampleRing.gba.cpu ∧ sampleRing.gba.biosChecksum < 2 ^ 32
      ∧ (0 ≤ sampleRing.gba.cpu.cycles ∧ sampleRing.gba.cpu.cycles < GBA_ARM7TDMI_FREQUENCY
        ∧ 0 ≤ toI32 (sampleSubsystems.GBAVideoSerialize sampleRing.gba.video).eventDiff
        ∧ ¬ romSizeGate sampleRing.gba.memory.romSize (sampleRing.gba.cpu.gprs ARM_PC))
      ∧ (GBADeserialize sampleSubsystems sampleRing.gba
          (GBASerialize sampleSubsystems sampleRing.gba)).1 = true := by
  have hcond : 0 ≤ sampleRing.gba.cpu.cycles ∧ sampleRing.gba.cpu.cycles < GBA_ARM7TDMI_FREQUENCY
      ∧ 0 ≤ toI32 (sampleSubsystems.GBAVideoSerialize sampleRing.gba.video).eventDiff
      ∧ ¬ romSizeGate sampleRing.gba.memory.romSize (sampleRing.gba.cpu.gprs ARM_PC) := by
    refine ⟨by decide, by decide, by decide, ?_⟩
    unfold romSizeGate
    decide
  exact ⟨sampleRing_wellTyped, by decide, hcond,
    (own_snapshot_accepted sampleSubsystems sampleRing.gba sampleRing.gba sampleRing_wellTyped
      (by decide) rfl rfl).mpr hcond⟩

/-- Claim C19. Magic gate: `GBASerialize` always writes `0x01000000` as the
snapshot's `versionMagic`, and `GBADeserialize` returns `false` for every
snapshot whose `versionMagic` differs from `0x01000000`, whatever the other
fields and the live machine hold. -/
theorem magic_gate (sub : Subsystems) (gba : GBA) :
    (GBASerialize sub gba).versionMagic = 0x01000000
      ∧ ∀ (live : GBA) (state : GBASerializedState), state.versionMagic ≠ 0x01000000 →
          (GBADeserialize sub live state).1 = false := by
  refine ⟨?_, ?_⟩
  · show STORE_32 GBA_SAVESTATE_MAGIC = 0x01000000
    decide
  intro live state hmagic
  have herr : deserializeError live state = true :=
    (deserializeError_iff live state).mpr (Or.inl hmagic)
  unfold GBADeserialize
  rw [if_pos herr]

/-- Witness for C19: the snapshot of the concrete machine, and the same
snapshot with the magic word `0x02000000`. -/
theorem magic_gate_witness :
    (GBASerialize sampleSubsystems sampleRing.gba).versionMagic = 0x01000000
      ∧ ({ GBASerialize sampleSubsystems sampleRing.gba with
            versionMagic := 0x02000000 } : GBASerializedState).versionMagic ≠ 0x01000000
      ∧ (GBADeserialize sampleSubsystems sampleRing.gba
          { GBASerialize sampleSubsystems sampleRing.gba with
            versionMagic := 0x02000000 }).1 = false :=
  ⟨(magic_gate sampleSubsystems sampleRing.gba).1, by decide,
    (magic_gate sampleSubsystems sampleRing.gba).2 sampleRing.gba _ (by decide)⟩

/-- Replacing the stored cycle counter changes no other test of the
validation pass. -/
theorem deserializeError_withCycles (gba : GBA) (state : GBASerializedState) (cycles : Nat) :
    deserializeError gba (withCycles state cycles) = true ↔
      (deserializeError gba (withCycles state 0) = true
        ∨ toI32 cycles < 0 ∨ toI32 cycles ≥ GBA_ARM7TDMI_FREQUENCY) := by
  have hzero : toI32 0 = 0 := by decide
  have hident : ∀ c, identityMismatch gba (withCycles state c) ↔ identityMismatch gba state := by
    intro c
    unfold identityMismatch withCycles
    cases gba.memory.rom <;> exact Iff.rfl
  rw [deserializeError_iff, deserializeError_iff, hident, hident]
  simp only [withCycles, hzero]
  have hfreq : ¬ (0 : Int) ≥ GBA_ARM7TDMI_FREQUENCY := by decide
  constructor
  · rintro (h | h | h | h | h | h | h)
    · exact Or.inl (Or.inl h)
    · exact Or.inl (Or.inr (Or.inl h))
    · exact Or.inl (Or.inr (Or.inr (Or.inl h)))
    · exact Or.inr (Or.inl h)
    · exact Or.inr (Or.inr h)
    · exact Or.inl (Or.inr (Or.inr (Or.inr (Or.inr (Or.inr (Or.inl h))))))
    · exact Or.inl (Or.inr (Or.inr (Or.inr (Or.inr (Or.inr (Or.inr h))))))
  · rintro ((h | h | h | h | h | h | h) | h | h)
    · exact Or.inl h
    · exact Or.inr (Or.inl h)
    · exact Or.inr (Or.inr (Or.inl h))
    · omega
    · exact absurd h hfreq
    · exact Or.inr (Or.inr (Or.inr (Or.inr (Or.inr (Or.inl h)))))
    · exact Or.inr (Or.inr (Or.inr (Or.inr (Or.inr (Or.inr h)))))
    · exact Or.inr (Or.inr (Or.inr (Or.inl h)))
    · exact Or.inr (Or.inr (Or.inr (Or.inr (Or.inl h))))

/-- Claim C20 as stated fails.  Counterexample: the snapshot of the concrete
machine with its cycle counter set to `GBA_ARM7TDMI_FREQUENCY`.  It passes
every other check (with cycle counter 0 it is accepted), its cycle counter is
within `0 .. GBA_ARM7TDMI_FREQUENCY`, and it is rejected. -/
theorem cycle_gate_counterexample :
    (GBADeserialize sampleSubsystems sampleRing.gba
        (withCycles (GBASerialize sampleSubsystems sampleRing.gba) 0)).1 = true
      ∧ (0 ≤ toI32 (toU32 GBA_ARM7TDMI_FREQUENCY)
          ∧ toI32 (toU32 GBA_ARM7TDMI_FREQUENCY) ≤ GBA_ARM7TDMI_FREQUENCY)
      ∧ (GBADeserialize sampleSubsystems sampleRing.gba
          (withCycles (GBASerialize sampleSubsystems sampleRing.gba)
            (toU32 GBA_ARM7TDMI_FREQUENCY))).1 = false := by
  refine ⟨?_, ?_, ?_⟩ <;> decide

/-- Claim C20 (amended). Cycle-count gate: a snapshot that passes every other
check (it is accepted with its cycle counter set to 0) is accepted with the
signed 32-bit cycle counter `c` exactly when `0 ≤ c <
GBA_ARM7TDMI_FREQUENCY`; it is rejected for `c = -1`, for `c =
GBA_ARM7TDMI_FREQUENCY` and for `c = GBA_ARM7TDMI_FREQUENCY + 1`. -/
theorem cycle_gate (sub : Subsystems) (gba : GBA) (state : GBASerializedState) (c : Int)
    (hc : -2 ^ 31 ≤ c ∧ c < 2 ^ 31)
    (hother : (GBADeserialize sub gba (withCycles state 0)).1 = true) :
    (GBADeserialize sub gba (withCycles state (toU32 c))).1 = true
      ↔ (0 ≤ c ∧ c < GBA_ARM7TDMI_FREQUENCY) := by
  rw [deserialize_accepts_iff] at hother ⊢
  rw [deserializeError_withCycles, toI32_toU32 c hc.1 hc.2]
  constructor
  · intro h
    constructor
    · by_contra hneg
      exact h (Or.inr (Or.inl (by omega)))
    · by_contra hneg
      exact h (Or.inr (Or.inr (by omega)))
  · rintro ⟨h1, h2⟩ (h | h | h)
    · exact hother h
    · omega
    · omega

/-- Witness for C20 (amended): the snapshot of the concrete machine is
rejected with cycle counter `-1`, `GBA_ARM7TDMI_FREQUENCY` and
`GBA_ARM7TDMI_FREQUENCY + 1`, and accepted with `GBA_ARM7TDMI_FREQUENCY -
1`. -/
theorem cycle_gate_witness :
    (GBADeserialize sampleSubsystems sampleRing.gba
        (withCycles (GBASerialize sampleSubsystems sampleRing.gba) 0)).1 = true
      ∧ ¬ (GBADeserialize sampleSubsystems sampleRing.gba
          (withCycles (GBASerialize sampleSubsystems sampleRing.gba) (toU32 (-1)))).1 = true
      ∧ ¬ (GBADeserialize sampleSubsystems sampleRing.gba
          (withCycles (GBASerialize sampleSubsystems sampleRing.gba)
            (toU32 GBA_ARM7TDMI_FREQUENCY))).1 = true
      ∧ ¬ (GBADeserialize sampleSubsystems sampleRing.gba
          (withCycles (GBASerialize sampleSubsystems sampleRing.gba)
            (toU32 (GBA_ARM7TDMI_FREQUENCY + 1)))).1 = true
      ∧ (GBADeserialize sampleSubsystems sampleRing.gba
          (withCycles (GBASerialize sampleSubsystems sampleRing.gba)
            (toU32 (GBA_ARM7TDMI_FREQUENCY - 1)))).1 = true := by
  have hother : (GBADeserialize sampleSubsystems sampleRing.gba
      (withCycles (GBASerialize sampleSubsystems sampleRing.gba) 0)).1 = true := by decide
  refine ⟨hother, ?_, ?_, ?_, ?_⟩
  · exact fun h => absurd
      ((cycle_gate sampleSubsystems sampleRing.gba _ (-1) (by decide) hother).mp h) (by decide)
  · exact fun h => absurd
      ((cycle_gate sampleSubsystems sampleRing.gba _ GBA_ARM7TDMI_FREQUENCY (by decide)
        hother).mp h) (by decide)
  · exact fun h => absurd
      ((cycle_gate sampleSubsystems sampleRing.gba _ (GBA_ARM7TDMI_FREQUENCY + 1) (by decide)
        hother).mp h) (by decide)
  · exact (cycle_gate sampleSubsystems sampleRing.gba _ (GBA_ARM7TDMI_FREQUENCY - 1)
      (by decide) hother).mpr (by decide)

/-! ## Validation gates -/

/-- Claim C21 as stated fails.  Counterexample: the snapshot of the concrete
machine executing at `0x10`, inside the BIOS range, with a BIOS checksum other
than the live machine's; `GBADeserialize` accepts it. -/
theorem bios_gate_counterexample :
    ({ GBASerialize sampleSubsystems (sampleGBA 0x10 10 (0xE1A00000, 0xE2800001) 5) with
        biosChecksum := 0 } : GBASerializedState).biosChecksum
        ≠ (sampleGBA 0x10 10 (0xE1A00000, 0xE2800001) 5).biosChecksum
      ∧ ({ GBASerialize sampleSubsystems (sampleGBA 0x10 10 (0xE1A00000, 0xE2800001) 5) with
        biosChecksum := 0 } : GBASerializedState).cpu.gprs ARM_PC = 0x10
      ∧ 0x10 < SIZE_BIOS
      ∧ (GBADeserialize sampleSubsystems (sampleGBA 0x10 10 (0xE1A00000, 0xE2800001) 5)
          { GBASerialize sampleSubsystems (sampleGBA 0x10 10 (0xE1A00000, 0xE2800001) 5) with
            biosChecksum := 0 }).1 = true := by
  refine ⟨?_, ?_, ?_, ?_⟩ <;> decide

/-- Claim C21 (amended). BIOS gate: when the snapshot's BIOS checksum differs
from the live machine's, `GBADeserialize` rejects the snapshot for every
stored program counter with `0x20 ≤ PC < SIZE_BIOS`; for a stored program
counter outside that range (below `0x20` included) the mismatch changes
nothing: the snapshot is accepted exactly when it would be with the live
checksum. -/
theorem bios_gate (sub : Subsystems) (gba : GBA) (state : GBASerializedState)
    (hdiff : state.biosChecksum ≠ gba.biosChecksum) :
    (0x20 ≤ state.cpu.gprs ARM_PC ∧ state.cpu.gprs ARM_PC < SIZE_BIOS →
        (GBADeserialize sub gba state).1 = false)
      ∧ (¬ (0x20 ≤ state.cpu.gprs ARM_PC ∧ state.cpu.gprs ARM_PC < SIZE_BIOS) →
        ((GBADeserialize sub gba state).1 = true
          ↔ (GBADeserialize sub gba { state with biosChecksum := gba.biosChecksum }).1
              = true)) := by
  constructor
  · intro hpc
    have herr : deserializeError gba state = true :=
      (deserializeError_iff gba state).mpr (Or.inr (Or.inl ⟨hdiff, hpc.2, hpc.1⟩))
    unfold GBADeserialize
    rw [if_pos herr]
  · intro hpc
    have hident : identityMismatch gba { state with biosChecksum := gba.biosChecksum }
        ↔ identityMismatch gba state := by
      unfold identityMismatch
      cases gba.memory.rom <;> exact Iff.rfl
    rw [deserialize_accepts_iff, deserialize_accepts_iff, deserializeError_iff,
      deserializeError_iff, hident]
    simp only
    constructor
    · rintro h (h1 | h1 | h1)
      · exact h (Or.inl h1)
      · exact h1.1 rfl
      · exact h (Or.inr (Or.inr h1))
    · rintro h (h1 | h1 | h1)
      · exact h (Or.inl h1)
      · exact hpc ⟨h1.2.2, h1.2.1⟩
      · exact h (Or.inr (Or.inr h1))

/-- Witness for C21 (amended): the snapshot of the concrete machine with a
foreign BIOS checksum is rejected at `0x20` and accepted at `0x08000100`. -/
theorem bios_gate_witness :
    (GBADeserialize sampleSubsystems (sampleGBA 0x20 10 (0xE1A00000, 0xE2800001) 5)
        { GBASerialize sampleSubsystems (sampleGBA 0x20 10 (0xE1A00000, 0xE2800001) 5) with
          biosChecksum := 0 }).1 = false
      ∧ ((GBADeserialize sampleSubsystems sampleRing.gba
            { GBASerialize sampleSubsystems sampleRing.gba with biosChecksum := 0 }).1 = true
          ↔ (GBADeserialize sampleSubsystems sampleRing.gba
              { ({ GBASerialize sampleSubsystems sampleRing.gba with biosChecksum := 0 } :
                  GBASerializedState) with
                biosChecksum := sampleRing.gba.biosChecksum }).1 = true) :=
  ⟨(bios_gate sampleSubsystems (sampleGBA 0x20 10 (0xE1A00000, 0xE2800001) 5)
      { GBASerialize sampleSubsystems (sampleGBA 0x20 10 (0xE1A00000, 0xE2800001) 5) with
        biosChecksum := 0 } (by decide)).1 (by decide),
    (bios_gate sampleSubsystems sampleRing.gba
      { GBASerialize sampleSubsystems sampleRing.gba with biosChecksum := 0 }
      (by decide)).2 (by decide)⟩

/-- Replacing the stored identity changes no other test of the validation
pass. -/
theorem deserializeError_withIdentity (gba : GBA) (state : GBASerializedState) (id : Nat)
    (title : List Nat) (hgood : ¬ identityMismatch gba (withIdentity state id title)) :
    deserializeError gba state = true ↔
      (identityMismatch gba state ∨ deserializeError gba (withIdentity state id title) = true) := by
  rw [deserializeError_iff, deserializeError_iff]
  simp only [withIdentity] at hgood ⊢
  constructor
  · rintro (h | h | h | h)
    · exact Or.inr (Or.inl h)
    · exact Or.inr (Or.inr (Or.inl h))
    · exact Or.inl h
    · exact Or.inr (Or.inr (Or.inr (Or.inr h)))
  · rintro (h | h | h | h | h)
    · exact Or.inr (Or.inr (Or.inl h))
    · exact Or.inl h
    · exact Or.inr (Or.inl h)
    · exact absurd h hgood
    · exact Or.inr (Or.inr (Or.inr h))

/-- Claim C22 as stated fails.  Counterexample: the concrete machine with no
cartridge loaded and its own snapshot with the title changed to a non-zero
one (id 0); `GBADeserialize` accepts it. -/
theorem identity_gate_counterexample :
    bareGBA.memory.rom = none
      ∧ (withIdentity (GBASerialize sampleSubsystems bareGBA) 0
          [0x4D, 0x47, 0x42, 0x41, 0, 0, 0, 0, 0, 0, 0, 0]).title
          ≠ List.replicate TITLE_SIZE 0
      ∧ (GBASerialize sampleSubsystems bareGBA).title = List.replicate TITLE_SIZE 0
      ∧ (GBASerialize sampleSubsystems bareGBA).id = 0
      ∧ (GBADeserialize sampleSubsystems bareGBA
          (withIdentity (GBASerialize sampleSubsystems bareGBA) 0
            [0x4D, 0x47, 0x42, 0x41, 0, 0, 0, 0, 0, 0, 0, 0])).1 = true := by
  refine ⟨rfl, ?_, ?_, ?_, ?_⟩ <;> decide

/-- Claim C22 (amended). Identity gate, for a snapshot that passes every other
check: with a cartridge loaded, `GBADeserialize` rejects it exactly when its
id or its title differs from the loaded cartridge's; with no cartridge
loaded, it rejects it exactly when its id is not 0, whatever its title. -/
theorem identity_gate (sub : Subsystems) (gba : GBA) (state : GBASerializedState) :
    (∀ cart, gba.memory.rom = some cart →
        (GBADeserialize sub gba (withIdentity state cart.id cart.title)).1 = true →
        ((GBADeserialize sub gba state).1 = false
          ↔ (state.id ≠ cart.id ∨ state.title ≠ cart.title)))
      ∧ (gba.memory.rom = none →
        (GBADeserialize sub gba (withIdentity state 0 state.title)).1 = true →
        ((GBADeserialize sub gba state).1 = false ↔ state.id ≠ 0)) := by
  have hfalse : ∀ s, (GBADeserialize sub gba s).1 = false ↔ deserializeError gba s = true := by
    intro s
    unfold GBADeserialize
    by_cases h : deserializeError gba s = true
    · simp [h]
    · simp [h]
  constructor
  · intro cart hrom hother
    have hgood : ¬ identityMismatch gba (withIdentity state cart.id cart.title) := by
      unfold identityMismatch withIdentity
      rw [hrom]
      simp
    have hmis : identityMismatch gba state ↔ (state.id ≠ cart.id ∨ state.title ≠ cart.title) := by
      unfold identityMismatch
      rw [hrom]
    rw [deserialize_accepts_iff] at hother
    rw [hfalse, deserializeError_withIdentity gba state cart.id cart.title hgood, hmis]
    constructor
    · rintro (h | h)
      · exact h
      · exact absurd h hother
    · exact Or.inl
  · intro hrom hother
    have hgood : ¬ identityMismatch gba (withIdentity state 0 state.title) := by
      unfold identityMismatch withIdentity
      rw [hrom]
      simp
    have hmis : identityMismatch gba state ↔ state.id ≠ 0 := by
      unfold identityMismatch
      rw [hrom]
    rw [deserialize_accepts_iff] at hother
    rw [hfalse, deserializeError_withIdentity gba state 0 state.title hgood, hmis]
    constructor
    · rintro (h | h)
      · exact h
      · exact absurd h hother
    · exact Or.inl

/-- Witness for C22 (amended): the concrete machine with its cartridge and a
snapshot carrying another id is rejected; the machine without cartridge
rejects a snapshot with id 1. -/
theorem identity_gate_witness :
    (GBADeserialize sampleSubsystems sampleRing.gba
        (withIdentity (GBASerialize sampleSubsystems sampleRing.gba) 7
          sampleCartridge.title)).1 = false
      ∧ (GBADeserialize sampleSubsystems bareGBA
          (withIdentity (GBASerialize sampleSubsystems bareGBA) 1
            (List.replicate TITLE_SIZE 0))).1 = false :=
  ⟨((identity_gate sampleSubsystems sampleRing.gba
        (withIdentity (GBASerialize sampleSubsystems sampleRing.gba) 7
          sampleCartridge.title)).1 sampleCartridge rfl (by decide)).mpr (Or.inl (by decide)),
    ((identity_gate sampleSubsystems bareGBA
        (withIdentity (GBASerialize sampleSubsystems bareGBA) 1
          (List.replicate TITLE_SIZE 0))).2 rfl (by decide)).mpr (by decide)⟩

/-- Claim C23: the code diverges from the claim.  On the concrete machine with
a ROM of `0x1000` bytes: (1) its snapshot taken at `0x08002000`, whose
instruction lies past the end of the ROM, is accepted (the ROM-size test of
the code does not fire where the specified condition holds); (2) its snapshot
taken at `0x0A000100`, whose instruction lies inside the ROM seen through the
second cartridge region, is rejected (the test fires where the specified
condition does not hold), and only by that test: the same machine with a
ROM size above the cartridge window accepts the snapshot. -/
theorem rom_size_gate_divergence :
    (sampleGBA 0x08002000 10 (0xE1A00000, 0xE2800001) 5).memory.romSize = 0x1000
      ∧ romSizeGateSpec 0x1000 0x08002000
      ∧ ¬ romSizeGate 0x1000 0x08002000
      ∧ (GBADeserialize sampleSubsystems (sampleGBA 0x08002000 10 (0xE1A00000, 0xE2800001) 5)
          (GBASerialize sampleSubsystems
            (sampleGBA 0x08002000 10 (0xE1A00000, 0xE2800001) 5))).1 = true
      ∧ ¬ romSizeGateSpec 0x1000 0x0A000100
      ∧ romSizeGate 0x1000 0x0A000100
      ∧ (GBADeserialize sampleSubsystems (sampleGBA 0x0A000100 10 (0xE1A00000, 0xE2800001) 5)
          (GBASerialize sampleSubsystems
            (sampleGBA 0x0A000100 10 (0xE1A00000, 0xE2800001) 5))).1 = false
      ∧ (GBADeserialize sampleSubsystems
          { sampleGBA 0x0A000100 10 (0xE1A00000, 0xE2800001) 5 with
            memory := { (sampleGBA 0x0A000100 10 (0xE1A00000, 0xE2800001) 5).memory with
              romSize := 0x04000000 } }
          (GBASerialize sampleSubsystems
            (sampleGBA 0x0A000100 10 (0xE1A00000, 0xE2800001) 5))).1 = true := by
  refine ⟨rfl, ?_, ?_, ?_, ?_, ?_, ?_, ?_⟩
  · unfold romSizeGateSpec; decide
  · unfold romSizeGate; decide
  · decide
  · unfold romSizeGateSpec; decide
  · unfold romSizeGate; decide
  · decide
  · decide

/-! ## Failed condition -/

/-- Claim C24. Failed condition: for every opcode whose condition is not met
(a condition field other than `0xE` whose test on the flags fails), `_runARM`
returns without invoking a handler, with the cycle counter increased by
`ARM_PREFETCH_CYCLES`, the handler cursor advanced by one entry, and every
other field of the core, the rest of the cache included, unchanged. -/
theorem runARM_failed_condition (isa : ISA) (endBlock : ARMCore → Nat → Option ARMCore)
    (cpu : ARMCore) (opcode : Nat)
    (hfail : opcode >>> 28 ≠ 0xE ∧ conditionMet cpu (opcode >>> 28) = false) :
    ∃ cpu', _runARM isa endBlock cpu opcode = some cpu'
      ∧ cpu'.invoked = cpu.invoked
      ∧ cpu'.cycles = cpu.cycles + ARM_PREFETCH_CYCLES cpu
      ∧ cpu'.cache.instruction = cpu.cache.instruction + 1
      ∧ cpu' = { cpu with
          cycles := cpu'.cycles,
          cache := { cpu.cache with instruction := cpu'.cache.instruction } } :=
  ⟨_, runARM_skip isa endBlock cpu opcode hfail, rfl, rfl, rfl, rfl⟩

/-- Witness for C24: the opcode `0x01A00000` (condition `EQ`) on the concrete
machine with the `Z` flag clear. -/
theorem runARM_failed_condition_witness :
    (0x01A00000 >>> 28 ≠ 0xE ∧ conditionMet (cursorCore 0) (0x01A00000 >>> 28) = false)
      ∧ ∃ cpu', _runARM sampleISA (fun _ _ => none) (cursorCore 0) 0x01A00000 = some cpu'
        ∧ cpu'.invoked = (cursorCore 0).invoked
        ∧ cpu'.cycles = (cursorCore 0).cycles + ARM_PREFETCH_CYCLES (cursorCore 0)
        ∧ cpu'.cache.instruction = (cursorCore 0).cache.instruction + 1
        ∧ cpu' = { cursorCore 0 with
            cycles := cpu'.cycles,
            cache := { (cursorCore 0).cache with instruction := cpu'.cache.instruction } } :=
  ⟨by decide, runARM_failed_condition sampleISA (fun _ _ => none) (cursorCore 0) 0x01A00000
    (by decide)⟩

/-! ## Steps of the build loops -/

/-- The ARM build loop runs its iterations one by one. -/
theorem buildLoopARM_step (isa : ISA) (memory : ARMMemory) (addr fuel : Nat) (st : BuildARM) :
    buildLoopARM isa memory addr (fuel + 1) st
      = if (buildStepARM isa memory addr st).2 = true
        then some (buildStepARM isa memory addr st).1
        else buildLoopARM isa memory addr fuel (buildStepARM isa memory addr st).1 := by
  rw [buildLoopARM]
  unfold buildStepARM
  simp only
  split_ifs <;> simp_all

/-- The Thumb build loop runs its iterations one by one. -/
theorem buildLoopThumb_step (isa : ISA) (memory : ARMMemory) (addr fuel : Nat)
    (st : BuildThumb) :
    buildLoopThumb isa memory addr (fuel + 1) st
      = if (buildStepThumb isa memory addr st).2 = true
        then some (buildStepThumb isa memory addr st).1
        else buildLoopThumb isa memory addr fuel (buildStepThumb isa memory addr st).1 := by
  rw [buildLoopThumb]
  unfold buildStepThumb
  simp only
  split_ifs <;> simp_all

/-- `_runARM` with an opcode of condition field `0xE` and the cursor on the
terminator runs the terminator: the gate cannot skip it. -/
theorem runARM_always_end (isa : ISA) (endBlock : ARMCore → Nat → Option ARMCore)
    (cpu : ARMCore) (opcode : Nat) (hal : opcode >>> 28 = 0xE)
    (hcur : currentARMInstruction cpu = some ARMInstruction.endBlockARM) :
    _runARM isa endBlock cpu opcode = endBlock (advanceInstruction cpu) opcode := by
  unfold _runARM
  simp only [hal, ne_eq, not_true_eq_false, false_and, if_false, hcur, callARM]

/-- Closing phase of the ARM builder: in the block `ARMCacheFindBlockARM`
builds at `addr`, when `k` is the index of the first branch-type or trap
opcode and `m > k` the first later index whose opcode has condition field
`0xE`, the handler entries `0 .. k` are the table handlers of their opcodes,
the entries `k + 1 .. m` are all the terminator `_endBlockARM`, there are
`m + 1` handler entries and no more, and the opcode words are stored up to
and including index `m + 2`. -/
theorem findBlockARM_closing (isa : ISA) (cpu : ARMCore) (fuel addr k m : Nat)
    (hmiss : TableLookup cpu.cache.armCache (addr >>> 2) = none)
    (hfirst : FirstEndARM isa cpu.memory addr k) (hkm : k < m)
    (hcond : ∀ j, k < j → j < m → fetchARM cpu.memory addr j >>> 28 ≠ 0xE)
    (hal : fetchARM cpu.memory addr m >>> 28 = 0xE) (hfuel : m + 3 ≤ fuel) :
    ∃ cpu' blk chains, ARMCacheFindBlockARM isa fuel cpu addr = some cpu'
      ∧ currentBlock cpu' = some blk ∧ blk.chains = BlockChains.arm chains
      ∧ chains.instruction.length = m + 1
      ∧ (∀ j, j ≤ k → chains.instruction[j]?
          = some (ARMInstruction.table (armTableIndex (fetchARM cpu.memory addr j))))
      ∧ (∀ j, k < j → j ≤ m → chains.instruction[j]? = some ARMInstruction.endBlockARM)
      ∧ chains.data = (List.range (m + 3)).map (fun i => fetchARM cpu.memory addr i) := by
  obtain ⟨e, rfl⟩ : ∃ e, m = k + 1 + e := ⟨m - k - 1, by omega⟩
  obtain ⟨st, ha, hb, hc⟩ := buildLoopARM_live isa cpu.memory addr e k fuel BuildARM.init rfl
    (by intro i hi; simpa [BuildARM.init] using hfirst.1 i hi)
    (by simpa [BuildARM.init] using hfirst.2)
    (by
      intro i hi
      simpa [BuildARM.init] using hcond (k + 1 + i) (by omega) (by omega))
    (by simpa [BuildARM.init] using hal) (by omega)
  simp only [BuildARM.init, List.nil_append, Nat.zero_add] at hb hc
  have hlen : ((List.range (k + 1)).map
      (fun i => ARMInstruction.table (armTableIndex (fetchARM cpu.memory addr i)))).length
      = k + 1 := by simp
  refine ⟨_, _, { instruction := st.ichain, data := st.dchain },
    findBlockARM_miss isa fuel cpu addr st hmiss ha, currentBlock_appended _ _ _ _ rfl, rfl,
    ?_, ?_, ?_, ?_⟩
  · show st.ichain.length = _
    rw [hb]
    simp
    omega
  · intro j hj
    show st.ichain[j]? = _
    have hlt : j < k + 1 := by omega
    rw [hb, List.getElem?_append_left (by rw [hlen]; exact hlt)]
    simp [List.getElem?_map, List.getElem?_range hlt]
  · intro j hj1 hj2
    show st.ichain[j]? = _
    rw [hb, List.getElem?_append_right (by rw [hlen]; omega), hlen, List.getElem?_replicate]
    rw [if_pos (by omega)]
  · show st.dchain = _
    rw [hc]
    congr 2
    omega

/-- The closing phase on the program `branchThenConditional`, whose block at
`0x1000` has its branch at index 2 and the first later word with condition
field `0xE` at index 5. -/
theorem findBlockARM_closing_witness :
    ∃ cpu' blk chains,
      ARMCacheFindBlockARM sampleISA 16 (sampleCore branchThenConditional 0) 0x1000 = some cpu'
      ∧ currentBlock cpu' = some blk ∧ blk.chains = BlockChains.arm chains
      ∧ chains.instruction.length = 5 + 1
      ∧ (∀ j, 2 < j → j ≤ 5 → chains.instruction[j]? = some ARMInstruction.endBlockARM)
      ∧ chains.data = (List.range (5 + 3)).map
          (fun i => fetchARM (sampleCore branchThenConditional 0).memory 0x1000 i) := by
  obtain ⟨cpu', blk, chains, h1, h2, h3, h4, _, h6, h7⟩ :=
    findBlockARM_closing sampleISA (sampleCore branchThenConditional 0) 16 0x1000 2 5 rfl
      (by
        refine ⟨?_, by decide⟩
        intro i hi
        have hi' : i = 0 ∨ i = 1 := by omega
        rcases hi' with rfl | rfl <;> decide)
      (by decide)
      (by
        intro j hj1 hj2
        have hj : j = 3 ∨ j = 4 := by omega
        rcases hj with rfl | rfl <;> decide)
      (by decide) (by decide)
  exact ⟨cpu', blk, chains, h1, h2, h3, h4, h6, h7⟩

/-- Claim C27: the code diverges from the claim.  The block
`ARMCacheFindBlockARM` builds at `0x1000` of `skipProgram` has its branch at
index `k = 0` and the first later word of condition field `0xE` at index
`m = 1`: two handler entries, the second the terminator, and four stored
words.  The branch is taken to `0x1010`, so the opcode `_runARM` is handed at
the terminator is not the stored word 1 but the branch target `MOVEQ`
(`0x01A00000`), whose condition fails with `Z` clear: `_runARM` skips the
terminator and moves the handler cursor to index 2, which the builder never
wrote.  The block is still current, its `nextBlock` still unset, only the
branch was invoked, and the next step has no entry to read. -/
theorem last_terminator_skipped :
    (currentBlock skipCore).map (fun b => b.chains)
        = some (BlockChains.arm
            { instruction := [ARMInstruction.table 2560, ARMInstruction.endBlockARM],
              data := [0xEA000002, 0xE1A00000, 0xE1A00000, 0xE1A00000] })
      ∧ endsBlock (loopISA.decodeARM (fetchARM skipCore.memory 0x1000 0))
      ∧ fetchARM skipCore.memory 0x1000 1 >>> 28 = 0xE
      ∧ (ARMCacheStepARM loopISA 16 skipCore).map
          (fun c => (c.cache.block, c.cache.instruction, currentARMInstruction c, c.prefetch.1,
            conditionMet c (c.prefetch.1 >>> 28), c.gprs ARM_PC))
          = some (some 0, 1, some ARMInstruction.endBlockARM, 0x01A00000, false, 0x1014)
      ∧ (ARMCacheRunLoop loopISA (ARMRunLoop loopISA 2) 16 2 skipCore).map
          (fun c => (c.cache.block, c.cache.instruction, currentARMInstruction c,
            (currentBlock c).map (fun b => b.nextBlock), c.invoked))
          = some (some 0, 2, none, some none, [Invocation.arm 2560 0xEA000002])
      ∧ (ARMCacheRunLoop loopISA (ARMRunLoop loopISA 2) 16 2 skipCore).bind
          (ARMCacheStepARM loopISA 16) = none := by
  refine ⟨?_, ?_, ?_, ?_, ?_, ?_⟩
  · rfl
  · decide
  · rfl
  · rfl
  · rfl
  · rfl

/-! ## Termination of the build loops -/

/-- More fuel does not change the result of the Thumb build loop. -/
theorem buildLoopThumb_mono (isa : ISA) (memory : ARMMemory) (addr : Nat) :
    ∀ (fuel more : Nat) (st r : BuildThumb), buildLoopThumb isa memory addr fuel st = some r →
      buildLoopThumb isa memory addr (fuel + more) st = some r := by
  intro fuel
  induction fuel with
  | zero => intro more st r h; rw [buildLoopThumb] at h; cases h
  | succ fuel ih =>
    intro more st r h
    rw [show fuel + 1 + more = (fuel + more) + 1 by omega, buildLoopThumb_step]
    rw [buildLoopThumb_step] at h
    by_cases hb : (buildStepThumb isa memory addr st).2 = true
    · rw [if_pos hb] at h ⊢; exact h
    · rw [if_neg hb] at h ⊢; exact ih more _ r h

/-- The Thumb build loop fetches one halfword per iteration: the result holds
at most as many halfwords more than the start as there was fuel. -/
theorem buildLoopThumb_fetches (isa : ISA) (memory : ARMMemory) (addr : Nat) :
    ∀ (fuel : Nat) (st r : BuildThumb), buildLoopThumb isa memory addr fuel st = some r →
      r.dchain.length ≤ st.dchain.length + fuel := by
  intro fuel
  induction fuel with
  | zero => intro st r h; rw [buildLoopThumb] at h; cases h
  | succ fuel ih =>
    intro st r h
    rw [buildLoopThumb_step] at h
    have hlen : (buildStepThumb isa memory addr st).1.dchain.length = st.dchain.length + 1 := by
      unfold buildStepThumb
      simp only
      split_ifs <;> simp
    by_cases hb : (buildStepThumb isa memory addr st).2 = true
    · rw [if_pos hb] at h
      simp only [Option.some.injEq] at h
      rw [← h, hlen]
      omega
    · rw [if_neg hb] at h
      have := ih _ r h
      rw [hlen] at this
      omega

/-- Without a block-ending halfword the Thumb build loop never leaves its
live phase. -/
theorem buildLoopThumb_never (isa : ISA) (memory : ARMMemory) (addr : Nat)
    (hnone : ∀ i, ¬ endsBlock (isa.decodeThumb (fetchThumb memory addr i))) :
    ∀ (fuel : Nat) (st : BuildThumb), st.blockEnded = 0 →
      buildLoopThumb isa memory addr fuel st = none := by
  intro fuel
  induction fuel with
  | zero => intro st _; rfl
  | succ fuel ih =>
    intro st h0
    have hn := hnone st.chainUsed
    simp only [endsBlock] at hn
    rw [buildLoopThumb]
    simp only [h0, if_true, hn, if_false]
    exact ih _ rfl

/-- Without a block-ending word the ARM build loop never leaves its live
phase. -/
theorem buildLoopARM_never (isa : ISA) (memory : ARMMemory) (addr : Nat)
    (hnone : ∀ i, ¬ endsBlock (isa.decodeARM (fetchARM memory addr i))) :
    ∀ (fuel : Nat) (st : BuildARM), st.blockEnded = 0 →
      buildLoopARM isa memory addr fuel st = none := by
  intro fuel
  induction fuel with
  | zero => intro st _; rfl
  | succ fuel ih =>
    intro st h0
    have hn := hnone st.chainUsed
    simp only [endsBlock] at hn
    rw [buildLoopARM]
    simp only [h0, if_true, hn, if_false]
    exact ih _ rfl

/-- Without a word of condition field `0xE` ahead, the ARM build loop never
leaves its closing phase. -/
theorem buildLoopARM_closing_never (isa : ISA) (memory : ARMMemory) (addr : Nat) :
    ∀ (fuel : Nat) (st : BuildARM), st.blockEnded = 1 →
      (∀ j, st.chainUsed ≤ j → fetchARM memory addr j >>> 28 ≠ 0xE) →
      buildLoopARM isa memory addr fuel st = none := by
  intro fuel
  induction fuel with
  | zero => intro st _ _; rfl
  | succ fuel ih =>
    intro st h1 hcond
    have hc := hcond st.chainUsed (le_refl _)
    rw [buildLoopARM]
    simp only [h1, hc, if_false]
    exact ih _ rfl (fun j hj => hcond j (by
      show st.chainUsed ≤ j
      have : st.chainUsed + 1 ≤ j := hj
      omega))

/-- With its first block-ending word at distance `d` and no word of condition
field `0xE` after it, the ARM build loop never stops. -/
theorem buildLoopARM_live_never (isa : ISA) (memory : ARMMemory) (addr : Nat) :
    ∀ (d fuel : Nat) (st : BuildARM), st.blockEnded = 0 →
      (∀ i, i < d → ¬ endsBlock (isa.decodeARM (fetchARM memory addr (st.chainUsed + i)))) →
      endsBlock (isa.decodeARM (fetchARM memory addr (st.chainUsed + d))) →
      (∀ j, st.chainUsed + d < j → fetchARM memory addr j >>> 28 ≠ 0xE) →
      buildLoopARM isa memory addr fuel st = none := by
  intro d
  induction d with
  | zero =>
    intro fuel st h0 _ hend hcond
    cases fuel with
    | zero => rfl
    | succ fuel =>
      simp only [Nat.add_zero] at hend hcond
      have hend' := hend
      simp only [endsBlock] at hend'
      rw [buildLoopARM]
      simp only [h0, if_true, hend']
      exact buildLoopARM_closing_never isa memory addr fuel _ rfl
        (fun j hj => hcond j (by
          have : st.chainUsed + 1 ≤ j := hj
          omega))
  | succ d ih =>
    intro fuel st h0 hlive hend hcond
    cases fuel with
    | zero => rfl
    | succ fuel =>
      have hn := hlive 0 (by omega)
      simp only [Nat.add_zero, endsBlock] at hn
      rw [buildLoopARM]
      simp only [h0, if_true, hn, if_false]
      refine ih fuel _ rfl ?_ ?_ ?_
      · intro i hi
        have := hlive (i + 1) (by omega)
        simpa [Nat.add_assoc, Nat.add_comm 1] using this
      · simpa [Nat.add_assoc, Nat.add_comm 1] using hend
      · intro j hj
        exact hcond j (by
          have : st.chainUsed + 1 + d < j := hj
          omega)

/-- Claim C28. Block-build termination.  (1) When `k` is the index of the
first branch-type or trap halfword of the Thumb stream, the Thumb build loop
returns after exactly `k + 4` iterations, one fetch each: `k + 4` units of
fuel give a result holding `k + 4` halfwords, and less fuel gives none.
(2) When the ARM stream holds a branch-type or trap word and, at a later
index, a word with condition field `0xE`, the ARM build loop returns.
(3) Without these preconditions the loops never return, whatever the fuel: a
Thumb or ARM stream without branch-type or trap opcode, and an ARM stream
with no word of condition field `0xE` after its first branch-type or trap
word. -/
theorem build_termination (isa : ISA) (memory : ARMMemory) (addr : Nat) :
    (∀ k, FirstEndThumb isa memory addr k →
        (∃ st, buildLoopThumb isa memory addr (k + 4) BuildThumb.init = some st
          ∧ st.dchain.length = k + 4)
        ∧ ∀ fuel, fuel < k + 4 → buildLoopThumb isa memory addr fuel BuildThumb.init = none)
      ∧ (∀ b m, endsBlock (isa.decodeARM (fetchARM memory addr b)) → b < m →
          fetchARM memory addr m >>> 28 = 0xE →
          ∃ fuel st, buildLoopARM isa memory addr fuel BuildARM.init = some st)
      ∧ ((∀ i, ¬ endsBlock (isa.decodeThumb (fetchThumb memory addr i))) →
          ∀ fuel, buildLoopThumb isa memory addr fuel BuildThumb.init = none)
      ∧ ((∀ i, ¬ endsBlock (isa.decodeARM (fetchARM memory addr i))) →
          ∀ fuel, buildLoopARM isa memory addr fuel BuildARM.init = none)
      ∧ (∀ k, FirstEndARM isa memory addr k →
          (∀ j, k < j → fetchARM memory addr j >>> 28 ≠ 0xE) →
          ∀ fuel, buildLoopARM isa memory addr fuel BuildARM.init = none) := by
  refine ⟨?_, ?_, ?_, ?_, ?_⟩
  · intro k hfirst
    obtain ⟨st, ha, _, hc⟩ := buildLoopThumb_live isa memory addr k (k + 4) BuildThumb.init rfl
      (by intro i hi; simpa [BuildThumb.init] using hfirst.1 i hi)
      (by simpa [BuildThumb.init] using hfirst.2) (le_refl _)
    have hlen : st.dchain.length = k + 4 := by
      rw [hc]
      simp [BuildThumb.init]
    refine ⟨⟨st, ha, hlen⟩, ?_⟩
    intro fuel hfuel
    cases hr : buildLoopThumb isa memory addr fuel BuildThumb.init with
    | none => rfl
    | some r =>
      exfalso
      have hbound := buildLoopThumb_fetches isa memory addr fuel _ r hr
      have hmore := buildLoopThumb_mono isa memory addr fuel (k + 4 - fuel) _ r hr
      rw [show fuel + (k + 4 - fuel) = k + 4 by omega, ha] at hmore
      simp only [Option.some.injEq] at hmore
      rw [← hmore, hlen] at hbound
      simp [BuildThumb.init] at hbound
      omega
  · intro b m hb hbm hal
    classical
    obtain ⟨k, hkb, hfirst⟩ := FirstEndARM_exists isa memory addr b hb
    have hex : ∃ e, fetchARM memory addr (k + 1 + e) >>> 28 = 0xE :=
      ⟨m - (k + 1), by rw [show k + 1 + (m - (k + 1)) = m by omega]; exact hal⟩
    obtain ⟨st, ha, _, _⟩ := buildLoopARM_live isa memory addr (Nat.find hex) k
      (k + Nat.find hex + 4) BuildARM.init rfl
      (by intro i hi; simpa [BuildARM.init] using hfirst.1 i hi)
      (by simpa [BuildARM.init] using hfirst.2)
      (by
        intro i hi
        simpa [BuildARM.init] using Nat.find_min hex hi)
      (by simpa [BuildARM.init] using Nat.find_spec hex) (le_refl _)
    exact ⟨_, st, ha⟩
  · intro hnone fuel
    exact buildLoopThumb_never isa memory addr hnone fuel _ rfl
  · intro hnone fuel
    exact buildLoopARM_never isa memory addr hnone fuel _ rfl
  · intro k hfirst hcond fuel
    exact buildLoopARM_live_never isa memory addr k fuel BuildARM.init rfl
      (by intro i hi; simpa [BuildARM.init] using hfirst.1 i hi)
      (by simpa [BuildARM.init] using hfirst.2)
      (by intro j hj; exact hcond j (by simpa [BuildARM.init] using hj))

/-- Witness for C28: the Thumb program at `0x2000` (first branch-type
halfword at index 2) builds with 6 units of fuel and not with 5; the ARM
program `branchThenConditional` builds; on the image of zero bytes neither
loop returns. -/
theorem build_termination_witness :
    FirstEndThumb sampleISA (sampleCore thumbProgram 0).memory 0x2000 2
      ∧ (∃ st, buildLoopThumb sampleISA (sampleCore thumbProgram 0).memory 0x2000 (2 + 4)
            BuildThumb.init = some st ∧ st.dchain.length = 2 + 4)
      ∧ buildLoopThumb sampleISA (sampleCore thumbProgram 0).memory 0x2000 5 BuildThumb.init
          = none
      ∧ (∃ fuel st, buildLoopARM sampleISA (sampleCore branchThenConditional 0).memory 0x1000
            fuel BuildARM.init = some st)
      ∧ (∀ fuel, buildLoopThumb sampleISA (sampleCore zeroRegion 0).memory 0 fuel
            BuildThumb.init = none)
      ∧ (∀ fuel, buildLoopARM sampleISA (sampleCore zeroRegion 0).memory 0 fuel
            BuildARM.init = none) := by
  have hfirst : FirstEndThumb sampleISA (sampleCore thumbProgram 0).memory 0x2000 2 := by
    refine ⟨?_, by decide⟩
    intro i hi
    have hi' : i = 0 ∨ i = 1 := by omega
    rcases hi' with rfl | rfl <;> decide
  have hzeroT : ∀ i, ¬ endsBlock
      (sampleISA.decodeThumb (fetchThumb (sampleCore zeroRegion 0).memory 0 i)) := by
    intro i
    have h : fetchThumb (sampleCore zeroRegion 0).memory 0 i = 0 := by
      simp [fetchThumb, LOAD_16, sampleCore, zeroRegion]
    rw [h]
    decide
  have hzeroA : ∀ i, ¬ endsBlock
      (sampleISA.decodeARM (fetchARM (sampleCore zeroRegion 0).memory 0 i)) := by
    intro i
    have h : fetchARM (sampleCore zeroRegion 0).memory 0 i = 0 := by
      simp [fetchARM, LOAD_32, sampleCore, zeroRegion]
    rw [h]
    decide
  exact ⟨hfirst,
    ((build_termination sampleISA (sampleCore thumbProgram 0).memory 0x2000).1 2 hfirst).1,
    ((build_termination sampleISA (sampleCore thumbProgram 0).memory 0x2000).1 2 hfirst).2 5
      (by decide),
    (build_termination sampleISA (sampleCore branchThenConditional 0).memory 0x1000).2.1 2 5
      (by decide) (by decide) (by decide),
    (build_termination sampleISA (sampleCore zeroRegion 0).memory 0).2.2.1 hzeroT,
    (build_termination sampleISA (sampleCore zeroRegion 0).memory 0).2.2.2.1 hzeroA⟩

/-! ## Bounds of the build loops -/

/-- The capacity is `BASE_LENGTH` doubled some number of times and the write
index has not passed it: kept by every iteration of the ARM build loop that
does not leave through `break`. -/
theorem buildIterARM_invariant (isa : ISA) (memory : ARMMemory) (addr : Nat) :
    ∀ (n : Nat) (st0 st : BuildARM),
      ((∃ j, st0.chainSize = BASE_LENGTH * 2 ^ j) ∧ st0.chainUsed ≤ st0.chainSize) →
      buildIterARM isa memory addr n st0 = some st →
      (∃ j, st.chainSize = BASE_LENGTH * 2 ^ j) ∧ st.chainUsed ≤ st.chainSize := by
  intro n
  induction n with
  | zero =>
    intro st0 st h0 hit
    simp only [buildIterARM, Option.some.injEq] at hit
    rw [← hit]
    exact h0
  | succ n ih =>
    intro st0 st h0 hit
    rw [buildIterARM] at hit
    by_cases hb : (buildStepARM isa memory addr st0).2 = true
    · rw [if_pos hb] at hit; cases hit
    · rw [if_neg hb] at hit
      refine ih _ st ?_ hit
      obtain ⟨⟨j, hj⟩, hle⟩ := h0
      have hpos : 0 < st0.chainSize := by
        rw [hj]
        exact Nat.mul_pos (by decide) (Nat.pos_pow_of_pos j (by decide))
      have hsize : (buildStepARM isa memory addr st0).1.chainSize
          = if st0.chainUsed = st0.chainSize then st0.chainSize * 2 else st0.chainSize := by
        unfold buildStepARM
        simp only
        split_ifs <;> rfl
      have hused : (buildStepARM isa memory addr st0).1.chainUsed ≤ st0.chainUsed + 1 := by
        unfold buildStepARM
        simp only
        split_ifs <;> simp
      rw [hsize]
      constructor
      · by_cases he : st0.chainUsed = st0.chainSize
        · rw [if_pos he]
          exact ⟨j + 1, by rw [hj, pow_succ, Nat.mul_assoc]⟩
        · rw [if_neg he]
          exact ⟨j, hj⟩
      · by_cases he : st0.chainUsed = st0.chainSize
        · rw [if_pos he]; omega
        · rw [if_neg he]; omega

/-- The same invariant for the Thumb build loop. -/
theorem buildIterThumb_invariant (isa : ISA) (memory : ARMMemory) (addr : Nat) :
    ∀ (n : Nat) (st0 st : BuildThumb),
      ((∃ j, st0.chainSize = BASE_LENGTH * 2 ^ j) ∧ st0.chainUsed ≤ st0.chainSize) →
      buildIterThumb isa memory addr n st0 = some st →
      (∃ j, st.chainSize = BASE_LENGTH * 2 ^ j) ∧ st.chainUsed ≤ st.chainSize := by
  intro n
  induction n with
  | zero =>
    intro st0 st h0 hit
    simp only [buildIterThumb, Option.some.injEq] at hit
    rw [← hit]
    exact h0
  | succ n ih =>
    intro st0 st h0 hit
    rw [buildIterThumb] at hit
    by_cases hb : (buildStepThumb isa memory addr st0).2 = true
    · rw [if_pos hb] at hit; cases hit
    · rw [if_neg hb] at hit
      refine ih _ st ?_ hit
      obtain ⟨⟨j, hj⟩, hle⟩ := h0
      have hpos : 0 < st0.chainSize := by
        rw [hj]
        exact Nat.mul_pos (by decide) (Nat.pos_pow_of_pos j (by decide))
      have hsize : (buildStepThumb isa memory addr st0).1.chainSize
          = if st0.chainUsed = st0.chainSize then st0.chainSize * 2 else st0.chainSize := by
        unfold buildStepThumb
        simp only
        split_ifs <;> rfl
      have hused : (buildStepThumb isa memory addr st0).1.chainUsed ≤ st0.chainUsed + 1 := by
        unfold buildStepThumb
        simp only
        split_ifs <;> simp
      rw [hsize]
      constructor
      · by_cases he : st0.chainUsed = st0.chainSize
        · rw [if_pos he]
          exact ⟨j + 1, by rw [hj, pow_succ, Nat.mul_assoc]⟩
        · rw [if_neg he]
          exact ⟨j, hj⟩
      · by_cases he : st0.chainUsed = st0.chainSize
        · rw [if_pos he]; omega
        · rw [if_neg he]; omega

/-- Claim C29. Block-build writes stay in bounds: on entry to every iteration
of the build loops of `ARMCacheFindBlockARM` and `ARMCacheFindBlockThumb`,
`chainSize` is `8 * 2 ^ j` for some `j`; the capacity in force when the
iteration writes (after the `realloc` at its head) is again of that form, and
the index `chainUsed` of its writes to the handler array and to the opcode
array is strictly below it. -/
theorem build_writes_in_bounds (isa : ISA) (memory : ARMMemory) (addr n : Nat) :
    (∀ st, buildIterARM isa memory addr n BuildARM.init = some st →
        (∃ j, st.chainSize = 8 * 2 ^ j) ∧ (∃ j, capacityARM st = 8 * 2 ^ j)
          ∧ st.chainUsed < capacityARM st)
      ∧ (∀ st, buildIterThumb isa memory addr n BuildThumb.init = some st →
        (∃ j, st.chainSize = 8 * 2 ^ j) ∧ (∃ j, capacityThumb st = 8 * 2 ^ j)
          ∧ st.chainUsed < capacityThumb st) := by
  constructor
  · intro st hit
    obtain ⟨⟨j, hj⟩, hle⟩ := buildIterARM_invariant isa memory addr n BuildARM.init st
      ⟨⟨0, by decide⟩, by decide⟩ hit
    have hj8 : st.chainSize = 8 * 2 ^ j := hj
    have hpos : 0 < st.chainSize := by
      rw [hj8]
      exact Nat.mul_pos (by decide) (Nat.pos_pow_of_pos j (by decide))
    refine ⟨⟨j, hj8⟩, ?_, ?_⟩
    · unfold capacityARM
      by_cases he : st.chainUsed = st.chainSize
      · rw [if_pos he]
        exact ⟨j + 1, by rw [hj8, pow_succ, Nat.mul_assoc]⟩
      · rw [if_neg he]
        exact ⟨j, hj8⟩
    · unfold capacityARM
      by_cases he : st.chainUsed = st.chainSize
      · rw [if_pos he]; omega
      · rw [if_neg he]; omega
  · intro st hit
    obtain ⟨⟨j, hj⟩, hle⟩ := buildIterThumb_invariant isa memory addr n BuildThumb.init st
      ⟨⟨0, by decide⟩, by decide⟩ hit
    have hj8 : st.chainSize = 8 * 2 ^ j := hj
    have hpos : 0 < st.chainSize := by
      rw [hj8]
      exact Nat.mul_pos (by decide) (Nat.pos_pow_of_pos j (by decide))
    refine ⟨⟨j, hj8⟩, ?_, ?_⟩
    · unfold capacityThumb
      by_cases he : st.chainUsed = st.chainSize
      · rw [if_pos he]
        exact ⟨j + 1, by rw [hj8, pow_succ, Nat.mul_assoc]⟩
      · rw [if_neg he]
        exact ⟨j, hj8⟩
    · unfold capacityThumb
      by_cases he : st.chainUsed = st.chainSize
      · rw [if_pos he]; omega
      · rw [if_neg he]; omega

/-- Witness for C29: on the image of zero bytes, iteration 8 of either loop
is entered with `chainUsed = chainSize = 8` and writes at index 8 under
capacity 16. -/
theorem build_writes_in_bounds_witness :
    (∃ st, buildIterARM sampleISA (sampleCore zeroRegion 0).memory 0 8 BuildARM.init = some st
        ∧ st.chainUsed = 8 ∧ st.chainSize = 8 ∧ capacityARM st = 16
        ∧ (∃ j, capacityARM st = 8 * 2 ^ j) ∧ st.chainUsed < capacityARM st)
      ∧ (∃ st, buildIterThumb sampleISA (sampleCore zeroRegion 0).memory 0 8 BuildThumb.init
            = some st
        ∧ st.chainUsed = 8 ∧ st.chainSize = 8 ∧ capacityThumb st = 16
        ∧ (∃ j, capacityThumb st = 8 * 2 ^ j) ∧ st.chainUsed < capacityThumb st) := by
  have hA : ∃ st, buildIterARM sampleISA (sampleCore zeroRegion 0).memory 0 8 BuildARM.init
      = some st := ⟨_, rfl⟩
  have hT : ∃ st, buildIterThumb sampleISA (sampleCore zeroRegion 0).memory 0 8 BuildThumb.init
      = some st := ⟨_, rfl⟩
  obtain ⟨stA, hstA⟩ := hA
  obtain ⟨stT, hstT⟩ := hT
  have hAv : (buildIterARM sampleISA (sampleCore zeroRegion 0).memory 0 8 BuildARM.init).map
      (fun st => (st.chainUsed, st.chainSize, capacityARM st)) = some (8, 8, 16) := by decide
  have hTv : (buildIterThumb sampleISA (sampleCore zeroRegion 0).memory 0 8 BuildThumb.init).map
      (fun st => (st.chainUsed, st.chainSize, capacityThumb st)) = some (8, 8, 16) := by decide
  rw [hstA] at hAv
  rw [hstT] at hTv
  simp only [Option.map_some', Option.some.injEq, Prod.mk.injEq] at hAv hTv
  exact ⟨⟨stA, hstA, hAv.1, hAv.2.1, hAv.2.2,
      ((build_writes_in_bounds sampleISA (sampleCore zeroRegion 0).memory 0 8).1 stA hstA).2⟩,
    ⟨stT, hstT, hTv.1, hTv.2.1, hTv.2.2,
      ((build_writes_in_bounds sampleISA (sampleCore zeroRegion 0).memory 0 8).2 stT hstT).2⟩⟩

/-! ## Populated history -/

/-- Every call on a ring in use returns a ring in use of the same
capacity. -/
theorem ringInUse_op (sub : Subsystems) (op : RingOp) (thread : GBAThread)
    (h : RingInUse thread) :
    ∃ next, applyRingOp sub op thread = some next ∧ RingInUse next
      ∧ next.rewindBufferCapacity = thread.rewindBufferCapacity := by
  cases op with
  | record =>
    obtain ⟨recorded, hrec, hin⟩ := ringInUse_record sub thread h
    obtain ⟨⟨buffer, hbuffer, hlength⟩, _, hcursor, _⟩ := h
    obtain ⟨recorded', hrec', _, hcap, _, _⟩ :=
      recordFrame_result sub thread buffer hbuffer hlength hcursor
    rw [hrec] at hrec'
    cases hrec'
    exact ⟨recorded, hrec, hin, hcap⟩
  | rewind n =>
    obtain ⟨rewound, hrw, hin⟩ := ringInUse_rewind sub thread h n
    refine ⟨rewound, ?_, hin, ?_⟩
    · show (GBARewind sub thread n).map (fun r => r.1) = some rewound
      rw [hrw]
      rfl
    · rcases rewind_cases sub thread rewound n _ hrw with
        ⟨hsame, _⟩ | ⟨_, _, _, _, _, _, _, _, hrew⟩
      · rw [hsame]
      · rw [hrew]
  | run gba => exact ⟨_, rfl, ringInUse_run thread gba h, rfl⟩

/-- Every sequence of calls on a ring in use returns a ring in use of the
same capacity. -/
theorem ringInUse_ops (sub : Subsystems) : ∀ (ops : List RingOp) (thread : GBAThread),
    RingInUse thread →
    ∃ last, applyRingOps sub ops thread = some last ∧ RingInUse last
      ∧ last.rewindBufferCapacity = thread.rewindBufferCapacity := by
  intro ops
  induction ops with
  | nil => intro thread h; exact ⟨thread, rfl, h, rfl⟩
  | cons op ops ih =>
    intro thread h
    obtain ⟨next, hnext, hin, hcap⟩ := ringInUse_op sub op thread h
    obtain ⟨last, hlast, hin', hcap'⟩ := ih next hin
    refine ⟨last, ?_, hin', hcap'.trans hcap⟩
    rw [applyRingOps]
    simp only [hnext]
    exact hlast

/-- Claim C30. Populated-history invariant: from the ring
`GBARewindSettingsChanged` produces with capacity `c > 0` and write cursor 0,
every sequence of `GBARecordFrame` and `GBARewind` calls (the machine running
in between) returns, and afterwards every slot `(writeCursor - i) mod c` for
`1 ≤ i ≤ size` holds a snapshot; consequently `GBARewind(thread, n)` with
`1 ≤ n ≤ size` returns `n`, which the empty-slot branch never does. -/
theorem populated_history (sub : Subsystems) (thread0 : GBAThread) (c interval : Int)
    (ops : List RingOp) (hc : 0 < c)
    (hchanged : ¬ (c = thread0.rewindBufferCapacity ∧ interval = thread0.rewindBufferInterval))
    (hcursor : thread0.rewindBufferWriteOffset = 0) :
    ∃ thread, applyRingOps sub ops (GBARewindSettingsChanged thread0 c interval) = some thread
      ∧ thread.rewindBufferCapacity = c
      ∧ (∀ i : Int, 1 ≤ i → i ≤ thread.rewindBufferSize →
          ∃ state, slotAt thread ((thread.rewindBufferWriteOffset - i) % c) = some state)
      ∧ (∀ n : Int, 1 ≤ n → n ≤ thread.rewindBufferSize →
          ∃ rewound, GBARewind sub thread n = some (rewound, n)) := by
  have hstart : RingInUse (GBARewindSettingsChanged thread0 c interval) := by
    have hc' : c > 0 := hc
    apply ringInUse_empty
    · unfold GBARewindSettingsChanged
      rw [if_neg hchanged]
      exact hc
    · unfold GBARewindSettingsChanged
      rw [if_neg hchanged]
      simp only [hc', if_true]
    · unfold GBARewindSettingsChanged
      rw [if_neg hchanged]
    · unfold GBARewindSettingsChanged
      rw [if_neg hchanged]
      show 0 ≤ thread0.rewindBufferWriteOffset ∧ thread0.rewindBufferWriteOffset < c
      omega
  have hcap0 : (GBARewindSettingsChanged thread0 c interval).rewindBufferCapacity = c := by
    unfold GBARewindSettingsChanged
    rw [if_neg hchanged]
  obtain ⟨thread, hrun, hin, hcap⟩ := ringInUse_ops sub ops _ hstart
  rw [hcap0] at hcap
  refine ⟨thread, hrun, hcap, ?_, ?_⟩
  · intro i hi1 hi2
    have := hin.filled i hi1 hi2
    rw [hcap] at this
    exact this
  · intro n hn1 hn2
    obtain ⟨rewound, hrw, _⟩ := ringInUse_rewind sub thread hin n
    have hcount : rewindCount thread n = n := by
      unfold rewindCount
      rw [if_neg (by omega)]
    rw [hcount] at hrw
    exact ⟨rewound, hrw⟩

/-- Witness for C30: the ring of the concrete machine reconfigured to capacity
3, then two records, a rewind by one, and three more records. -/
theorem populated_history_witness :
    (0 : Int) < 3
      ∧ ¬ ((3 : Int) = emptyRing.rewindBufferCapacity ∧ (4 : Int) = emptyRing.rewindBufferInterval)
      ∧ emptyRing.rewindBufferWriteOffset = 0
      ∧ ∃ thread, applyRingOps sampleSubsystems
            [RingOp.record, RingOp.record, RingOp.rewind 1, RingOp.record, RingOp.record,
              RingOp.record]
            (GBARewindSettingsChanged emptyRing 3 4) = some thread
        ∧ thread.rewindBufferCapacity = 3
        ∧ (∀ i : Int, 1 ≤ i → i ≤ thread.rewindBufferSize →
            ∃ state, slotAt thread ((thread.rewindBufferWriteOffset - i) % 3) = some state)
        ∧ (∀ n : Int, 1 ≤ n → n ≤ thread.rewindBufferSize →
            ∃ rewound, GBARewind sampleSubsystems thread n = some (rewound, n)) :=
  ⟨by decide, by decide, rfl,
    populated_history sampleSubsystems emptyRing 3 4 _ (by decide) (by decide) rfl⟩

/-! ## Save-slot naming -/

/-- For a slot number of one digit the suffix is `.ss` followed by that
digit. -/
theorem slotSuffix_digit (slot : Int) (h0 : 0 ≤ slot) (h9 : slot ≤ 9) :
    slotSuffix slot = ['.', 's', 's'] ++ formatDecimal slot := by
  have hcases : slot = 0 ∨ slot = 1 ∨ slot = 2 ∨ slot = 3 ∨ slot = 4 ∨ slot = 5 ∨ slot = 6
      ∨ slot = 7 ∨ slot = 8 ∨ slot = 9 := by omega
  rcases hcases with h | h | h | h | h | h | h | h | h | h <;> subst h <;> decide

/-- Claim C25: the code diverges from the claim.  The suffix array holds four
characters, so slot 10 gets the suffix `.ss1` of slot 1, and `GBAGetState`
opens the same resource for both, inside a directory (`savestate.ss1`) and
beside the active file (`roms/game.ss1` for `roms/game.gba`); slot 12 and
slot 19 collide with them as well. -/
theorem save_slot_collision :
    slotSuffix 1 = ['.', 's', 's', '1']
      ∧ slotSuffix 10 = ['.', 's', 's', '1']
      ∧ ['.', 's', 's'] ++ formatDecimal 10 = ['.', 's', 's', '1', '0']
      ∧ GBAGetState true none 10 = GBAGetState true none 1
      ∧ GBAGetState true none 10
          = some ['s', 'a', 'v', 'e', 's', 't', 'a', 't', 'e', '.', 's', 's', '1']
      ∧ GBAGetState false (some ['r', 'o', 'm', 's', '/', 'g', 'a', 'm', 'e', '.', 'g', 'b', 'a'])
            10
          = GBAGetState false
              (some ['r', 'o', 'm', 's', '/', 'g', 'a', 'm', 'e', '.', 'g', 'b', 'a']) 1
      ∧ GBAGetState false (some ['r', 'o', 'm', 's', '/', 'g', 'a', 'm', 'e', '.', 'g', 'b', 'a'])
            10
          = some ['r', 'o', 'm', 's', '/', 'g', 'a', 'm', 'e', '.', 's', 's', '1']
      ∧ slotSuffix 12 = slotSuffix 1 ∧ slotSuffix 19 = slotSuffix 1 := by
  refine ⟨?_, ?_, ?_, ?_, ?_, ?_, ?_, ?_, ?_⟩ <;> decide

/-! ## Cached successor -/

/-- Claim C26: the code diverges from the claim.  The loop `SUBS r0, r0, #1;
BNE 0x1000` at `0x1000`, entered with `r0 = 2`.  The first pass takes the
branch: the terminator of the block looks up `0x1000` and caches the block
itself as `nextBlock`.  The second pass falls through: after the dispatch
loop has run to the event at cycle 6, the handler cursor is on the
terminator with `nextBlock` set, and the opcode to run is `MOV` (condition
field `0xE`).  The terminator then hops to the cached block 0 although the
fall-through address `PC - 8` is `0x1008`, for which the table has no entry
and `ARMCacheFindBlockARM` would select a new block 1; the next pass of the
dispatch loop invokes handler 592 (that of `SUBS`) on the opcode `0xE1A00000`,
whose handler is 416. -/
theorem chained_successor_divergence :
    (ARMCacheRunLoop loopISA (ARMRunLoop loopISA 4) 16 4 loopCore).map
        (fun c => (c.cache.block, c.cache.instruction, currentARMInstruction c,
          (currentBlock c).map (fun b => b.nextBlock), c.prefetch.1, c.gprs ARM_PC))
        = some (some 0, 2, some ARMInstruction.endBlockARM, some (some 0), 0xE1A00000, 0x100C)
      ∧ ((ARMCacheRunLoop loopISA (ARMRunLoop loopISA 4) 16 4 loopCore).bind
            terminatorEntryARM).map
          (fun t => (wrap32 (t.gprs ARM_PC + 2 ^ 32 - WORD_SIZE_ARM * 2),
            TableLookup t.cache.armCache
              (wrap32 (t.gprs ARM_PC + 2 ^ 32 - WORD_SIZE_ARM * 2) >>> 2)))
          = some (0x1008, none)
      ∧ (((ARMCacheRunLoop loopISA (ARMRunLoop loopISA 4) 16 4 loopCore).bind
            terminatorEntryARM).bind (successorARM loopISA 16)).map (fun c => c.cache.block)
          = some (some 0)
      ∧ (((ARMCacheRunLoop loopISA (ARMRunLoop loopISA 4) 16 4 loopCore).bind
            terminatorEntryARM).bind
            (fun t => ARMCacheFindBlockARM loopISA 16 t
              (wrap32 (t.gprs ARM_PC + 2 ^ 32 - WORD_SIZE_ARM * 2)))).map
          (fun c => c.cache.block) = some (some 1)
      ∧ ((ARMCacheRunLoop loopISA (ARMRunLoop loopISA 4) 16 4 loopCore).bind
            (fun s => ARMCacheRunLoop loopISA (ARMRunLoop loopISA 1) 16 1
              { s with nextEvent := 7 })).map (fun c => c.invoked)
          = some [Invocation.arm 592 0xE2500001, Invocation.arm 2815 0x1AFFFFFD,
              Invocation.arm 592 0xE2500001, Invocation.arm 592 0xE1A00000]
      ∧ armTableIndex 0xE2500001 = 592 ∧ armTableIndex 0xE1A00000 = 416 := by
  refine ⟨?_, ?_, ?_, ?_, ?_, ?_, ?_⟩ <;> rfl

end MGBA
